import Mathlib

/-!
# GXClient: amount normalisation, vote aggregation and transfer construction

A shallow embedding of `src/lib/src/GXClient.js`: `_accMult`, `_connect`,
`transfer` and `vote`, each up to the point where the assembled operation is
handed to `_processTransaction`.

* JavaScript numbers are IEEE-754 binary64 values.  A finite number is modelled
  by its exact rational value, and every arithmetic result and every conversion
  from a string is rounded to the nearest binary64 value, ties to even.  The two
  zeros are identified (they are `===` equal and both render as `0`).
* JavaScript strings are lists of characters where they are taken apart
  (`split`, `replace`, `Number`, `parseInt`) and `String` elsewhere.
* The node, and the key and cipher library, are parameters: `Chain` gives the
  answer to each query, `Crypto` the result of each library call.  Every RPC
  round-trip is taken to resolve.

The definitions come first, the theorems after them.
-/

namespace GXClient

/-! ## JavaScript numbers -/

/-- A JavaScript Number: a finite binary64 value, an infinity (`neg = true` for
`-Infinity`), or `NaN`. -/
inductive JSNumber
  | fin (q : ℚ)
  | inf (neg : Bool)
  | nan
deriving DecidableEq

/-- The power `2 ^ e` for an integer exponent. -/
def pow2Q (e : ℤ) : ℚ :=
  if 0 ≤ e then ((2 ^ e.toNat : ℕ) : ℚ) else 1 / ((2 ^ (-e).toNat : ℕ) : ℚ)

/-- The power `10 ^ e` for an integer exponent. -/
def pow10Q (e : ℤ) : ℚ :=
  if 0 ≤ e then ((10 ^ e.toNat : ℕ) : ℚ) else 1 / ((10 ^ (-e).toNat : ℕ) : ℚ)

/-- The integer nearest to `n / d`, ties to the even one. -/
def roundHalfEven (n d : ℕ) : ℕ :=
  let q := n / d
  let r := n % d
  if 2 * r < d then q else if d < 2 * r then q + 1 else if q % 2 = 0 then q else q + 1

/-- Halve `n` until it drops below 2, counting the steps. -/
def log2Aux : ℕ → ℕ → ℕ
  | 0, _ => 0
  | fuel + 1, n => if n < 2 then 0 else log2Aux fuel (n / 2) + 1

/-- The position of the highest set bit of `n`, that is `⌊log₂ n⌋` (0 for 0). -/
def bitLog2 (n : ℕ) : ℕ := log2Aux n n

/-- The integer `k` with `2 ^ k ≤ n / d < 2 ^ (k + 1)`, for positive `n` and `d`. -/
def floorLog2 (n d : ℕ) : ℤ :=
  let k : ℤ := (bitLog2 n : ℤ) - (bitLog2 d : ℤ)
  if d * 2 ^ k.toNat ≤ n * 2 ^ (-k).toNat then k else k - 1

/-- The binary64 value nearest to the positive rational `n / d`: a 53-bit
significand `m` at exponent `e`, with the subnormal exponent floor `-1074` and
overflow to `Infinity` from `2 ^ 1024 - 2 ^ 970` on. -/
def roundPos (n d : ℕ) : JSNumber :=
  let e : ℤ := max (floorLog2 n d - 52) (-1074)
  let m : ℕ := roundHalfEven (n * 2 ^ (-e).toNat) (d * 2 ^ e.toNat)
  if 971 < e ∨ (e = 971 ∧ m = 2 ^ 53) then .inf false else .fin ((m : ℚ) * pow2Q e)

/-- Unary minus. -/
def JSNumber.neg : JSNumber → JSNumber
  | .fin q => .fin (-q)
  | .inf b => .inf (!b)
  | .nan => .nan

/-- Round a rational to binary64, to nearest, ties to even. -/
def roundDouble (q : ℚ) : JSNumber :=
  if q = 0 then .fin 0
  else if 0 < q then roundPos q.num.natAbs q.den
  else (roundPos q.num.natAbs q.den).neg

/-- The `*` operator on Numbers. -/
def JSNumber.mul : JSNumber → JSNumber → JSNumber
  | .fin a, .fin b => roundDouble (a * b)
  | .fin a, .inf t => if a = 0 then .nan else .inf (decide (a < 0) != t)
  | .inf s, .fin b => if b = 0 then .nan else .inf (s != decide (b < 0))
  | .inf s, .inf t => .inf (s != t)
  | _, _ => .nan

/-- The `/` operator on Numbers.  A zero divisor is taken as `+0`. -/
def JSNumber.div : JSNumber → JSNumber → JSNumber
  | .fin a, .fin b =>
    if b = 0 then (if a = 0 then .nan else .inf (decide (a < 0))) else roundDouble (a / b)
  | .fin _, .inf _ => .fin 0
  | .inf s, .fin b => .inf (s != decide (b < 0))
  | _, _ => .nan

/-- `Math.pow(10, m)` for a natural exponent: exact up to `m = 22`, where
`10 ^ m` is a binary64 value, and taken as correctly rounded beyond. -/
def mathPow10 (m : ℕ) : JSNumber := roundDouble ((10 ^ m : ℕ) : ℚ)

/-- `Number.isInteger`. -/
def JSNumber.isInteger : JSNumber → Bool
  | .fin q => decide (q.den = 1)
  | _ => false

/-! ## String to Number -/

/-- The decimal digits `0`..`9`. -/
def isDigit (c : Char) : Bool := decide ('0' ≤ c) && decide (c ≤ '9')

/-- The value of a run of decimal digits, most significant first. -/
def digitsValue (cs : List Char) : ℕ :=
  cs.foldl (fun acc c => 10 * acc + (c.toNat - 48)) 0

/-- The white space and line terminators that `StringToNumber` strips. -/
def isStrWhiteSpace (c : Char) : Bool :=
  let n := c.toNat
  (9 ≤ n && n ≤ 13) || n = 32 || n = 160 || n = 0x1680 || (0x2000 ≤ n && n ≤ 0x200A) ||
    n = 0x2028 || n = 0x2029 || n = 0x202F || n = 0x205F || n = 0x3000 || n = 0xFEFF

/-- Strip leading and trailing white space. -/
def trimWhiteSpace (s : List Char) : List Char :=
  ((s.dropWhile isStrWhiteSpace).reverse.dropWhile isStrWhiteSpace).reverse

/-- The value of one digit in a radix up to 16, if it is one. -/
def radixDigit (radix : ℕ) (c : Char) : Option ℕ :=
  let n := c.toNat
  let v := if 48 ≤ n ∧ n ≤ 57 then some (n - 48)
    else if 97 ≤ n ∧ n ≤ 102 then some (n - 87)
    else if 65 ≤ n ∧ n ≤ 70 then some (n - 55)
    else none
  v.bind fun d => if d < radix then some d else none

/-- The value of a non-empty run of digits in the given radix. -/
def radixValue (radix : ℕ) (cs : List Char) : Option ℕ :=
  if cs = [] then none
  else cs.foldl (fun acc c => acc.bind fun a => (radixDigit radix c).map fun d => radix * a + d)
    (some 0)

/-- A `0x`, `0o` or `0b` integer literal. -/
def parseNonDecimal : List Char → Option ℕ
  | '0' :: 'x' :: cs | '0' :: 'X' :: cs => radixValue 16 cs
  | '0' :: 'o' :: cs | '0' :: 'O' :: cs => radixValue 8 cs
  | '0' :: 'b' :: cs | '0' :: 'B' :: cs => radixValue 2 cs
  | _ => none

/-- An optional sign, returned as `true` for `-`, and the rest. -/
def splitSign : List Char → Bool × List Char
  | '-' :: cs => (true, cs)
  | '+' :: cs => (false, cs)
  | cs => (false, cs)

/-- The exponent part `e`/`E`, optional sign, digits; the empty rest is exponent 0. -/
def parseExponent : List Char → Option ℤ
  | [] => some 0
  | c :: cs =>
    if c = 'e' ∨ c = 'E' then
      let (neg, ds) := splitSign cs
      if ds ≠ [] ∧ ds.all isDigit then
        some (if neg then -(digitsValue ds : ℤ) else (digitsValue ds : ℤ))
      else none
    else none

/-- The mathematical value of an unsigned decimal literal: digits, an optional
fraction, an optional exponent, with at least one digit before the exponent. -/
def parseUnsignedDecimal (cs : List Char) : Option ℚ :=
  let ip := cs.takeWhile isDigit
  let r1 := cs.dropWhile isDigit
  let (fp, r2) := match r1 with
    | '.' :: r => (r.takeWhile isDigit, r.dropWhile isDigit)
    | r => ([], r)
  if ip = [] ∧ fp = [] then none
  else (parseExponent r2).map fun e =>
    (digitsValue (ip ++ fp) : ℚ) * pow10Q (e - (fp.length : ℤ))

/-- The `Number(string)` conversion (`StringToNumber`). -/
def stringToNumber (s : List Char) : JSNumber :=
  let t := trimWhiteSpace s
  if t = [] then .fin 0
  else match parseNonDecimal t with
    | some n => roundDouble (n : ℚ)
    | none =>
      let (neg, u) := splitSign t
      if u = "Infinity".toList then .inf neg
      else match parseUnsignedDecimal u with
        | some q => roundDouble (if neg then -q else q)
        | none => .nan

/-! ## Number to String -/

/-- Search downwards from `n` for the decimal exponent of a positive `x < 1`. -/
def negDecExp (x : ℚ) : ℕ → ℤ → ℤ
  | 0, n => n
  | fuel + 1, n => if pow10Q (n - 1) ≤ x then n else negDecExp x fuel (n - 1)

/-- The integer `n` with `10 ^ (n - 1) ≤ x < 10 ^ n`, for a positive binary64 value `x`. -/
def decimalExponent (x : ℚ) : ℤ :=
  if 1 ≤ x then ((Nat.toDigits 10 ⌊x⌋.toNat).length : ℤ) else negDecExp x 330 0

/-- The shortest digit string that reads back as `x`: try `k = 1, 2, ...` digits,
take the `k`-digit decimal next to `x` (below or above) that rounds to `x`, the
closer one if both do and the even one on a tie.  Returns the digits as a number
`s` and the exponent `n`, the value being `s * 10 ^ (n - k)`. -/
def shortestDigits (x : ℚ) (n : ℤ) : ℕ → ℕ → ℕ × ℤ
  | 0, k => (⌊x / pow10Q (n - k)⌋.toNat, n)
  | fuel + 1, k =>
    let scale := pow10Q (n - k)
    let lo := ⌊x / scale⌋.toNat
    let hi := lo + 1
    let okLo := roundDouble (lo * scale) = .fin x
    let okHi := roundDouble (hi * scale) = .fin x
    let pickHi := okHi ∧ (¬ okLo ∨ hi * scale - x < x - lo * scale ∨
      (hi * scale - x = x - lo * scale ∧ hi % 2 = 0))
    if pickHi then (if hi = 10 ^ k then (1, n + 1) else (hi, n))
    else if okLo then (lo, n)
    else shortestDigits x n fuel (k + 1)

/-- `Number::toString` in radix 10 for a positive finite value. -/
def positiveToString (x : ℚ) : List Char :=
  let (s, n) := shortestDigits x (decimalExponent x) 17 1
  let ds := Nat.toDigits 10 s
  let k : ℤ := ds.length
  if k ≤ n ∧ n ≤ 21 then ds ++ List.replicate (n - k).toNat '0'
  else if 0 < n ∧ n ≤ 21 then ds.take n.toNat ++ '.' :: ds.drop n.toNat
  else if -6 < n ∧ n ≤ 0 then '0' :: '.' :: (List.replicate (-n).toNat '0' ++ ds)
  else
    let e := n - 1
    let expo := (if e < 0 then '-' else '+') :: Nat.toDigits 10 e.natAbs
    if k = 1 then ds ++ 'e' :: expo else ds.take 1 ++ '.' :: (ds.drop 1 ++ 'e' :: expo)

/-- `Number.prototype.toString()`. -/
def numberToString : JSNumber → List Char
  | .nan => "NaN".toList
  | .inf false => "Infinity".toList
  | .inf true => "-Infinity".toList
  | .fin q =>
    if q = 0 then ['0']
    else if q < 0 then '-' :: positiveToString (-q)
    else positiveToString q

/-! ## `_accMult` -/

/-- `String.prototype.split` with a one-character separator. -/
def jsSplit (sep : Char) : List Char → List (List Char)
  | [] => [[]]
  | c :: cs =>
    if c = sep then [] :: jsSplit sep cs
    else match jsSplit sep cs with
      | [] => [[c]]
      | p :: ps => (c :: p) :: ps

/-- `String.prototype.replace(c, "")` with a one-character string pattern: the
first occurrence is removed. -/
def removeFirst (c : Char) (s : List Char) : List Char := s.erase c

/-- `_accMult(arg1, arg2)`: count the characters after the first `.` of each
rendering (a missing second piece throws inside `try` and adds nothing), drop the
first `.` of each, convert back to Numbers, multiply, divide by `10 ^ m`. -/
def _accMult (arg1 arg2 : JSNumber) : JSNumber :=
  let m := 0
  let s1 := numberToString arg1
  let s2 := numberToString arg2
  let m := match (jsSplit '.' s1)[1]? with
    | some f => m + f.length
    | none => m
  let m := match (jsSplit '.' s2)[1]? with
    | some f => m + f.length
    | none => m
  ((stringToNumber (removeFirst '.' s1)).mul (stringToNumber (removeFirst '.' s2))).div
    (mathPow10 m)

/-! ## Decimal numerals, as the specification speaks of them -/

/-- A plain decimal numeral: an optional `-`, one or more digits, and optionally
a `.` followed by one or more digits.  No exponent part. -/
def isPlainDecimal (s : List Char) : Bool :=
  let u := match s with
    | '-' :: r => r
    | r => r
  let ip := u.takeWhile isDigit
  match u.dropWhile isDigit with
  | [] => !ip.isEmpty
  | '.' :: fp => !ip.isEmpty && !fp.isEmpty && fp.all isDigit
  | _ => false

/-- The number of fractional digits of a numeral: the characters after its
decimal point. -/
def fracDigits (s : List Char) : ℕ := ((s.dropWhile (· ≠ '.')).drop 1).length

/-- The mantissa of a numeral: the integer read after deleting the decimal point. -/
def mantissa (s : List Char) : ℤ :=
  match s.filter (· ≠ '.') with
  | '-' :: r => -(digitsValue r : ℤ)
  | r => (digitsValue r : ℤ)

/-- The exact rational value of a numeral: integer part plus fractional part
over the matching power of ten, with the sign. -/
def decimalValue (s : List Char) : ℚ :=
  let (neg, u) := match s with
    | '-' :: r => (true, r)
    | r => (false, r)
  let ip := u.takeWhile (· ≠ '.')
  let fp := (u.dropWhile (· ≠ '.')).drop 1
  let v : ℚ := (digitsValue ip : ℚ) + (digitsValue fp : ℚ) / (10 : ℚ) ^ fp.length
  if neg then -v else v

/-- The characters of an optional minus sign. -/
def signPrefix (neg : Bool) : List Char := if neg then ['-'] else []

/-! ## Chain objects, the client and the collaborators

Every RPC round-trip is taken to resolve; a lookup that finds nothing resolves
with `null`, modelled by `none`. -/

/-- The `options` of an account object. -/
structure AccountOptions where
  memo_key : String
  voting_account : Option String
  votes : List String
deriving DecidableEq

/-- An account object, as far as it is read here.  `abi` is the ABI of a
contract account, absent on other accounts. -/
structure Account where
  id : String
  options : AccountOptions
  abi : Option String := none
deriving DecidableEq

/-- An asset object. -/
structure Asset where
  id : String
  precision : ℕ
deriving DecidableEq

/-- A witness or committee-member object. -/
structure VoteRecord where
  vote_id : String
deriving DecidableEq

/-- The `parameters` of the global property object `2.0.0`. -/
structure ChainParameters where
  maximum_committee_count : ℕ
  maximum_witness_count : ℕ
deriving DecidableEq

/-- The answers of the node to the queries used here.  A query argument that
may be `undefined` in the caller is an `Option`. -/
structure Chain where
  get_chain_id : String
  get_account_by_name : Option String → Option Account
  get_objects : String → Option Account
  global_parameters : Option ChainParameters
  lookup_asset_symbols : Option String → Option Asset
  get_witness_by_account : String → Option VoteRecord
  get_committee_member_by_account : String → Option VoteRecord

/-- The fields of a `GXClient` instance.  `signProvider` records whether one was
supplied.  `isTaskStarted` and `latestBlock` belong to the head-tracking task and
are unset on a new instance. -/
structure Client where
  private_key : String
  account_id_or_name : String
  account_id : Option String
  account : Option String
  connected : Bool
  chain_id : String
  witness : String
  signProvider : Bool
  isTaskStarted : Bool := false
  latestBlock : Option ℕ := none
deriving DecidableEq

/-- A memo object of a transfer. -/
structure MemoObject where
  «from» : String
  «to» : String
  nonce : ℕ
  message : String
deriving DecidableEq

/-- The key and cipher library (`gxbjs`), outside this repository:
`PrivateKey.fromWif(k).toPublicKey().toPublicKeyString()` (`none` when the key
does not parse and `fromWif` throws), `TransactionHelper.unique_nonce_uint64()`
and `Aes.encrypt_with_checksum(private, public, nonce, text)`. -/
structure Crypto where
  toPublicKeyString : String → Option String
  unique_nonce_uint64 : ℕ
  encrypt_with_checksum : String → String → ℕ → String → Option String

/-- The `memo` argument of `transfer`: a string, or a function of the two
accounts that resolves with a memo object (or `undefined`) or rejects. -/
inductive MemoArg
  | text (memo : String)
  | provider (memo : Option Account → Account → Option (Option MemoObject))

/-- An amount of an asset. -/
structure AssetAmount where
  amount : JSNumber
  asset_id : String
deriving DecidableEq

/-- The object passed to `get_type_operation("transfer", ...)`. -/
structure TransferOperation where
  fee : AssetAmount
  «from» : String
  «to» : String
  amount : AssetAmount
  memo : Option MemoObject
deriving DecidableEq

/-- The errors the promises of the client reject with. -/
inductive ClientError
  /-- `Incorrect format of asset, eg. "100 GXC"`. -/
  | incorrectFormat
  /-- `Account ${to} not exist`. -/
  | accountNotExist (account : String)
  /-- `Asset ${asset} not exist`. -/
  | assetNotExist (asset : Option String)
  /-- `memo signer not exist`. -/
  | memoSignerNotExist
  /-- `account_id ${this.account_id} not exist`. -/
  | accountIdNotExist (account_id : Option String)
  /-- A `TypeError` from reading a property of `null` or `undefined`. -/
  | typeError
  /-- An exception thrown inside the key and cipher library. -/
  | cryptoError
  /-- `Contract not found`. -/
  | contractNotFound
  /-- An exception thrown by `serializeCallData`. -/
  | serializerError
deriving DecidableEq

/-- How a `transfer` call ends before `_processTransaction` takes over. -/
inductive TransferOutcome
  /-- The promise rejects. -/
  | rejected (e : ClientError)
  /-- The memo provider rejected: the `reject` call comes after `resolve` and
  is ignored, the handler returns, and the promise fulfils with `undefined`. -/
  | fulfilledUndefined
  /-- The operation is added to a new transaction, which goes to
  `_processTransaction`. -/
  | built (op : TransferOperation)
deriving DecidableEq

/-- Whether `p` occurs in `s` as a block of consecutive characters. -/
def hasInfix (p : List Char) : List Char → Bool
  | [] => p.isEmpty
  | c :: cs => p.isPrefixOf (c :: cs) || hasInfix p cs

/-- The test `/111111111111111111111/.test(key)`: 21 consecutive `1`s, the
base58 rendering of an all-zero (null) key. -/
def isNullKey (key : String) : Bool := hasInfix (List.replicate 21 '1') key.toList

/-- Truthiness of a string. -/
def truthy (s : String) : Bool := s ≠ ""

/-- `_connect()`: nothing to do when connected; otherwise look up
`this.account` and the chain id, store the chain id, then the account id (a
`TypeError` when the account lookup gave `null`), then set `connected`.
Returns the client afterwards and whether the promise rejected. -/
def _connect (chain : Chain) (c : Client) : Client × Option ClientError :=
  if c.connected then (c, none)
  else
    let c1 := { c with chain_id := chain.get_chain_id }
    match chain.get_account_by_name c.account with
    | none => (c1, some .typeError)
    | some acc => ({ c1 with account_id := some acc.id, connected := true }, none)

/-- The non-empty pieces of `amount_asset.split(" ")`. -/
def amountPieces (amount_asset : String) : List (List Char) :=
  (jsSplit ' ' amount_asset.toList).filter (fun o => !o.isEmpty)

/-- `Number(x)` for a string that may be `undefined`. -/
def numberOf : Option (List Char) → JSNumber
  | some s => stringToNumber s
  | none => .nan

/-! ## `transfer` -/

/-- The first memo block of `transfer`, entered when the string memo is
non-empty: read the two memo keys, turning a null key into `null`; derive the
public key of the held private key; throw `memo signer not exist` unless it
equals the sender's memo key.  Returns `memo_from_public` and `memo_to_public`,
both `undefined` when the block is skipped. -/
def transferMemoKeys (crypto : Crypto) (c : Client) (memo : String)
    (fromAcc : Option Account) (toAcc : Account) :
    Except ClientError (Option String × Option String) :=
  if truthy memo then
    match fromAcc with
    | none => .error .typeError
    | some fa =>
      let memo_from_public :=
        if isNullKey fa.options.memo_key then none else some fa.options.memo_key
      let memo_to_public :=
        if isNullKey toAcc.options.memo_key then none else some toAcc.options.memo_key
      match crypto.toPublicKeyString c.private_key with
      | none => .error .cryptoError
      | some fromPublic =>
        if memo_from_public ≠ some fromPublic then .error .memoSignerNotExist
        else .ok (memo_from_public, memo_to_public)
  else .ok (none, none)

/-- The string-memo branch of `transfer`: the key block, then, when the memo
and both keys are truthy, the encrypted memo object; otherwise no memo object. -/
def transferTextMemo (crypto : Crypto) (c : Client) (memo : String)
    (fromAcc : Option Account) (toAcc : Account) : Except ClientError (Option MemoObject) :=
  match transferMemoKeys crypto c memo fromAcc toAcc with
  | .error e => .error e
  | .ok (some memo_from_public, some memo_to_public) =>
    if truthy memo ∧ truthy memo_to_public ∧ truthy memo_from_public then
      let nonce := crypto.unique_nonce_uint64
      match crypto.encrypt_with_checksum c.private_key memo_to_public nonce memo with
      | none => .error .cryptoError
      | some message =>
        .ok (some { «from» := memo_from_public, «to» := memo_to_public, nonce := nonce,
                    message := message })
    else .ok none
  | .ok _ => .ok none

/-- `transfer(to, memo, amount_asset, broadcast, options)` up to the hand-over to
`_processTransaction`: the format check, `_connect`, the lookups, the two
not-found checks, the amount, the memo, and the operation. -/
def transfer (chain : Chain) (crypto : Crypto) (c : Client) («to» : String) (memo : MemoArg)
    (amount_asset : String) (fee_symbol : Option String) : TransferOutcome :=
  if ' ' ∉ amount_asset.toList then .rejected .incorrectFormat
  else
    let amount := numberOf (amountPieces amount_asset)[0]?
    let asset := ((amountPieces amount_asset)[1]?).map String.mk
    match _connect chain c with
    | (_, some e) => .rejected e
    | (c, none) =>
      let fromAcc := c.account_id.bind chain.get_objects
      let toAcc := chain.get_account_by_name (some «to»)
      let assetInfo := chain.lookup_asset_symbols asset
      let feeInfo := match fee_symbol with
        | some sym => if truthy sym then chain.lookup_asset_symbols (some sym) else none
        | none => none
      match toAcc with
      | none => .rejected (.accountNotExist «to»)
      | some toAcc =>
        match assetInfo with
        | none => .rejected (.assetNotExist asset)
        | some assetInfo =>
          let amount : AssetAmount :=
            { amount := _accMult amount (mathPow10 assetInfo.precision),
              asset_id := assetInfo.id }
          let memo_object : Except TransferOutcome (Option MemoObject) :=
            match memo with
            | .text m =>
              match transferTextMemo crypto c m fromAcc toAcc with
              | .error e => .error (.rejected e)
              | .ok mo => .ok mo
            | .provider f =>
              match f fromAcc toAcc with
              | none => .error .fulfilledUndefined
              | some mo => .ok mo
          match memo_object with
          | .error out => out
          | .ok memo_object =>
            let fee_asset_id := match feeInfo with
              | some f => if truthy f.id then f.id else amount.asset_id
              | none => amount.asset_id
            match fromAcc with
            | none => .rejected .typeError
            | some fromAcc =>
              .built { fee := { amount := .fin 0, asset_id := fee_asset_id },
                       «from» := fromAcc.id, «to» := toAcc.id, amount := amount,
                       memo := memo_object }

/-- An amount string as the specification wants it: a quantity and a symbol
separated by exactly one space, that is, exactly two pieces around the spaces,
both non-empty. -/
def isQuantitySpaceSymbol (amount_asset : String) : Bool :=
  match jsSplit ' ' amount_asset.toList with
  | [quantity, symbol] => !quantity.isEmpty && !symbol.isEmpty
  | _ => false

/-! ## `vote` -/

/-- The `-` operator on Numbers. -/
def JSNumber.sub : JSNumber → JSNumber → JSNumber
  | .fin a, .fin b => roundDouble (a - b)
  | .fin _, .inf t => .inf (!t)
  | .inf s, .fin _ => .inf s
  | .inf s, .inf t => if s = t then .nan else .inf s
  | _, _ => .nan

/-- Whether a Number is greater than zero. -/
def JSNumber.isPositive : JSNumber → Bool
  | .fin q => decide (0 < q)
  | .inf neg => !neg
  | .nan => false

/-- The digits `parseInt` reads after the sign: hexadecimal after `0x`, decimal
otherwise; `none` when there is no digit. -/
def parseIntMagnitude : List Char → Option ℕ
  | '0' :: 'x' :: r | '0' :: 'X' :: r =>
    radixValue 16 (r.takeWhile fun c => (radixDigit 16 c).isSome)
  | r =>
    let ds := r.takeWhile isDigit
    if ds = [] then none else some (digitsValue ds)

/-- `parseInt(string)` without a radix: leading white space, an optional sign,
then the longest run of digits; `NaN` when there is no digit. -/
def parseInt (s : List Char) : JSNumber :=
  let t := s.dropWhile isStrWhiteSpace
  let (neg, u) := splitSign t
  match parseIntMagnitude u with
  | none => .nan
  | some n => roundDouble (if neg then -(n : ℚ) else (n : ℚ))

/-- `parseInt(x)` for a string that may be `undefined`. -/
def parseIntOf : Option (List Char) → JSNumber
  | some s => parseInt s
  | none => .nan

/-- The `uniq` of lodash: the values in order of first occurrence. -/
def uniq (l : List String) : List String :=
  l.foldl (fun result value => if value ∈ result then result else result ++ [value]) []

/-- The comparator of the final sort:
`parseInt(a.split(":")[1]) - parseInt(b.split(":")[1])`. -/
def voteComparator (a b : String) : JSNumber :=
  let a_split := jsSplit ':' a.toList
  let b_split := jsSplit ':' b.toList
  (parseIntOf a_split[1]?).sub (parseIntOf b_split[1]?)

/-- `Array.prototype.sort(comparator)`, a stable sort: `a` is put after `b`
only when `comparator(a, b) > 0`; a `NaN` result counts as `0`.  For a consistent
comparator the result does not depend on the sorting algorithm. -/
def sortBy (comparator : String → String → JSNumber) (l : List String) : List String :=
  l.insertionSort (fun a b => (comparator a b).isPositive = false)

/-- The `new_options` of the `account_update` operation. -/
structure NewOptions where
  memo_key : String
  voting_account : String
  votes : List String
  num_committee : ℕ
  num_witness : ℕ
deriving DecidableEq

/-- The vote ids of the lookups that found something:
`results.filter(r => r).map(r => r.vote_id)`. -/
def candidateVotes (results : List (Option VoteRecord)) : List String :=
  (results.filterMap id).map VoteRecord.vote_id

/-- The merged selection: `uniq(votes.concat(acc.options.votes))`. -/
def mergedVotes (acc : Account) (results : List (Option VoteRecord)) : List String :=
  uniq (candidateVotes results ++ acc.options.votes)

/-- The counting loop over the merged votes: `vote_type == "0"` counts a
committee vote, `vote_type == 1` (a string compared with a number, hence
converted to a Number) counts a witness vote.  Returns
`(num_witness, num_committee)`. -/
def countVotes (votes : List String) : ℕ × ℕ :=
  votes.foldl (fun (counts : ℕ × ℕ) v =>
    let vote_type := (jsSplit ':' v.toList).headD []
    let num_committee := if vote_type = ['0'] then counts.2 + 1 else counts.2
    let num_witness := if stringToNumber vote_type = .fin 1 then counts.1 + 1 else counts.1
    (num_witness, num_committee)) (0, 0)

/-- The handler of the vote-id lookups in `vote`: merge into the current
selection, count, clamp the counts, sort the votes. -/
def voteNewOptions (acc : Account) (parameters : ChainParameters)
    (results : List (Option VoteRecord)) : NewOptions :=
  let votes := mergedVotes acc results
  let counts := countVotes votes
  { memo_key := acc.options.memo_key
    voting_account := match acc.options.voting_account with
      | some a => if truthy a then a else "1.2.5"
      | none => "1.2.5"
    votes := sortBy voteComparator votes
    num_committee := min counts.2 parameters.maximum_committee_count
    num_witness := min counts.1 parameters.maximum_witness_count }

/-- The object passed to `get_type_operation("account_update", ...)`. -/
structure AccountUpdateOperation where
  fee : AssetAmount
  account : Option String
  new_options : NewOptions
deriving DecidableEq

/-- `vote(accounts, broadcast, options)` up to the hand-over to
`_processTransaction`. -/
def vote (chain : Chain) (c : Client) (accounts : List String) (fee_symbol : Option String) :
    Except ClientError AccountUpdateOperation :=
  let fee_symbol := match fee_symbol with
    | some s => if truthy s then s else "GXC"
    | none => "GXC"
  match _connect chain c with
  | (_, some e) => .error e
  | (c, none) =>
    let looked := accounts.map fun a => chain.get_account_by_name (some a)
    if looked.any Option.isNone then .error .typeError
    else
      let account_ids := (looked.filterMap id).map Account.id
      match c.account_id.bind chain.get_objects with
      | none => .error (.accountIdNotExist c.account_id)
      | some acc =>
        match chain.lookup_asset_symbols (some fee_symbol) with
        | none => .error (.assetNotExist (some fee_symbol))
        | some fee_asset =>
          let results := account_ids.flatMap fun account_id =>
            [chain.get_witness_by_account account_id,
             chain.get_committee_member_by_account account_id]
          match chain.global_parameters with
          | none => .error .typeError
          | some parameters =>
            .ok { fee := { amount := .fin 0, asset_id := fee_asset.id }
                  account := c.account_id
                  new_options := voteNewOptions acc parameters results }

/-! ## Vote tokens, as the specification speaks of them -/

/-- A decimal natural number without superfluous leading zeros. -/
def isCanonicalNat (s : List Char) : Bool :=
  !s.isEmpty && s.all isDigit && (s == ['0'] || s.head? != some '0')

/-- A vote token `t:i` as the chain issues it: a type `t` and an id `i` around
one colon, `t` a canonical natural number, `i` a run of digits, both at most
`2 ^ 53`. -/
def isVoteToken (v : String) : Bool :=
  match jsSplit ':' v.toList with
  | [t, i] => isCanonicalNat t && !i.isEmpty && i.all isDigit &&
      decide (digitsValue t ≤ 2 ^ 53) && decide (digitsValue i ≤ 2 ^ 53)
  | _ => false

/-- The type of a token: the text before its colon. -/
def tokenType (v : String) : List Char := v.toList.takeWhile (· ≠ ':')

/-- The numeric id of a token: the digits after its colon. -/
def tokenId (v : String) : ℕ := digitsValue ((v.toList.dropWhile (· ≠ ':')).drop 1)

/-! ## The constructor and the handshake -/

/-- What `.` matches in a regular expression without flags: one UTF-16 code
unit that is not a line terminator. -/
def regexDot (c : Char) : Bool :=
  let n := c.toNat
  decide (n < 0x10000) && !(n = 10 || n = 13 || n = 0x2028 || n = 0x2029)

/-- The test `/^1.2.\d+$/.test(s)`: `1`, any character, `2`, any character, one
or more digits, end. -/
def isAccountIdForm (s : List Char) : Bool :=
  match s with
  | '1' :: a :: '2' :: b :: ds => regexDot a && regexDot b && !ds.isEmpty && ds.all isDigit
  | _ => false

/-- The constructor: an argument of the id form goes to `account_id` and leaves
`account` undefined, any other goes to `account`. -/
def constructor (private_key account_id_or_name : String)
    (entry_point : String) (signProvider : Bool) : Client :=
  { private_key := private_key
    account_id_or_name := account_id_or_name
    account_id := if isAccountIdForm account_id_or_name.toList then some account_id_or_name
      else none
    account := if isAccountIdForm account_id_or_name.toList then none
      else some account_id_or_name
    connected := false
    chain_id := ""
    witness := entry_point
    signProvider := signProvider }

/-- A query of the handshake. -/
inductive Query
  | get_account_by_name (name : Option String)
  | get_chain_id
deriving DecidableEq

/-- The queries `_connect()` sends: none when connected, otherwise the lookup of
`this.account` and the chain-id lookup. -/
def _connectQueries (c : Client) : List Query :=
  if c.connected then [] else [.get_account_by_name c.account, .get_chain_id]

/-- A number of `_connect()` calls one after the other: the client at the end and
all the queries sent. -/
def connectTimes (chain : Chain) : ℕ → Client → Client × List Query
  | 0, c => (c, [])
  | n + 1, c =>
    let r := connectTimes chain n (_connect chain c).1
    (r.1, _connectQueries c ++ r.2)

/-! ## `_latestBlockTask` -/

/-- How the `get_dynamic_global_properties` query of one poll ends: the promise
rejects, or it resolves with an object (`obj = none` for `null`), of which
`last_irreversible_block_num` is read. -/
inductive HeadQueryOutcome
  | rejected
  | resolved (obj : Option ℕ)
deriving DecidableEq

/-- One call of `_latestBlockTask(force)`, with the outcome of its query.  It
returns at once when the task is started and `force` is not set.  Otherwise it
sets `isTaskStarted` and queries; only the `then` handler, which runs when the
promise resolves, updates `latestBlock` (a `TypeError` on a `null` object is
caught) and, in its `finally`, schedules the next call.  Returns the client and
the delay in milliseconds of the scheduled call, `none` when nothing is
scheduled. -/
def _latestBlockTask (force : Bool) (c : Client) (outcome : HeadQueryOutcome) :
    Client × Option ℕ :=
  if c.isTaskStarted && !force then (c, none)
  else
    let c := { c with isTaskStarted := true }
    match outcome with
    | .rejected => (c, none)
    | .resolved none => (c, some 3000)
    | .resolved (some latestBlock) =>
      ((if c.latestBlock ≠ some latestBlock then { c with latestBlock := some latestBlock }
        else c), some 3000)

/-! ## `callContract` -/

/-- Truthiness of a Number: neither zero nor `NaN`. -/
def JSNumber.truthy : JSNumber → Bool
  | .fin q => decide (q ≠ 0)
  | .inf _ => true
  | .nan => false

/-- The object passed to `get_type_operation("call_contract", ...)`; `amount` is
set only when the amount is truthy. -/
structure CallContractOperation where
  fee : AssetAmount
  account : Option String
  contract_id : String
  method_name : String
  data : String
  amount : Option AssetAmount
deriving DecidableEq

/-- The `amount_asset` argument when it is truthy. -/
def givenAmount (amount_asset : Option String) : Option String :=
  amount_asset.bind fun a => if truthy a then some a else none

/-- The asset symbol of a contract call: the second piece of `amount_asset`, or
`GXC` when no amount is given. -/
def callContractAsset (amount_asset : Option String) : Option String :=
  match givenAmount amount_asset with
  | some a => ((amountPieces a)[1]?).map String.mk
  | none => some "GXC"

/-- `callContract(contract_name, method_name, params, amount_asset, broadcast,
options)` up to the hand-over to `_processTransaction`.  `serializeCallData` is
the ABI encoder of `gxbjs`, outside this repository; it is given the method
name, the parameters and `acc.abi`, and `none` stands for an exception thrown by
it. -/
def callContract (chain : Chain)
    (serializeCallData : String → String → Option String → Option String) (c : Client)
    (contract_name method_name params : String) (amount_asset : Option String)
    (fee_symbol : Option String) : Except ClientError CallContractOperation :=
  match _connect chain c with
  | (_, some e) => .error e
  | (c, none) =>
    let noSpace : Bool := match givenAmount amount_asset with
      | some a => decide (' ' ∉ a.toList)
      | none => false
    if noSpace then .error .incorrectFormat
    else
      let amount := match givenAmount amount_asset with
        | some a => numberOf (amountPieces a)[0]?
        | none => .fin 0
      let asset := callContractAsset amount_asset
      let acc := chain.get_account_by_name (some contract_name)
      let assetInfo := chain.lookup_asset_symbols asset
      let feeInfo := match fee_symbol with
        | some sym => if truthy sym then chain.lookup_asset_symbols (some sym) else none
        | none => none
      match assetInfo with
      | none => .error (.assetNotExist asset)
      | some assetInfo =>
        let amount : AssetAmount :=
          { amount := _accMult amount (mathPow10 assetInfo.precision),
            asset_id := assetInfo.id }
        match acc with
        | some acc =>
          let abi := acc.abi
          match serializeCallData method_name params abi with
          | none => .error .serializerError
          | some data =>
            .ok { fee := { amount := .fin 0,
                           asset_id := match feeInfo with
                             | some f => if truthy f.id then f.id else amount.asset_id
                             | none => amount.asset_id },
                  account := c.account_id,
                  contract_id := acc.id,
                  method_name := method_name,
                  data := data,
                  amount := if amount.amount.truthy then some amount else none }
        | none => .error .contractNotFound

/-! ## `_processTransaction` -/

/-- A call made on the `TransactionBuilder`. -/
inductive BuilderCall
  | update_head_block
  | set_required_fees
  | add_signer (private_key : String)
  | set_expire_seconds (seconds : ℕ)
  | broadcast
  | finalize
  | sign
  | serialize
deriving DecidableEq

/-- The `TransactionBuilder` of one transaction (its class is outside the
sources at hand): how each of its promises settles, `none` for fulfilment and
`some reason` for rejection; which of the two first rejections reaches
`Promise.all` first when both reject; and what `broadcast` and `serialize`
return.  `add_signer` and `set_expire_seconds` are taken to return normally, as
they do on a transaction that is not yet finalized. -/
structure BuilderOutcomes where
  update_head_block : Option String
  set_required_fees : Option String
  headRejectsFirst : Bool
  broadcast : Except String String
  finalize : Option String
  sign : Option String
  serialize : String

/-- What the pipeline rejects with: the reason of a rejected builder promise, or
the exception of `PrivateKey.fromWif` on a key that does not parse. -/
inductive PipelineError
  | builder (reason : String)
  | invalidPrivateKey
deriving DecidableEq

/-- The terminal part of `_processTransaction`: `broadcast()`, or `finalize()`,
then `sign()`, then `serialize()`, each step run when the one before fulfilled. -/
def terminalAction (tr : BuilderOutcomes) (broadcast : Bool) :
    List BuilderCall × Except PipelineError String :=
  if broadcast then
    ([.broadcast],
      match tr.broadcast with
      | .ok receipt => .ok receipt
      | .error reason => .error (.builder reason))
  else
    match tr.finalize with
    | some reason => ([.finalize], .error (.builder reason))
    | none =>
      match tr.sign with
      | some reason => ([.finalize, .sign], .error (.builder reason))
      | none => ([.finalize, .sign, .serialize], .ok tr.serialize)

/-- `_processTransaction(tr, broadcast)`: the calls made on the builder, in
order, and the settlement of the returned promise.  `update_head_block()` and
`set_required_fees()` are both called to build the argument of `Promise.all`;
the handler runs only when both fulfil.  `DEFUALT_EXPIRE_SEC` is a constant of
`const/const`, not among the sources at hand. -/
def _processTransaction (crypto : Crypto) (c : Client) (tr : BuilderOutcomes)
    (DEFUALT_EXPIRE_SEC : ℕ) (broadcast : Bool) :
    List BuilderCall × Except PipelineError String :=
  let started : List BuilderCall := [.update_head_block, .set_required_fees]
  match tr.update_head_block, tr.set_required_fees with
  | some head, some fees =>
    (started, .error (.builder (if tr.headRejectsFirst then head else fees)))
  | some head, none => (started, .error (.builder head))
  | none, some fees => (started, .error (.builder fees))
  | none, none =>
    let signer : Except PipelineError (List BuilderCall) :=
      if !c.signProvider then
        if truthy c.private_key then
          match crypto.toPublicKeyString c.private_key with
          | none => .error .invalidPrivateKey
          | some _ => .ok [.add_signer c.private_key]
        else .ok []
      else .ok []
    match signer with
    | .error e => (started, .error e)
    | .ok signed =>
      let terminal := terminalAction tr broadcast
      (started ++ signed ++ [.set_expire_seconds DEFUALT_EXPIRE_SEC] ++ terminal.1, terminal.2)

/-! ## `detectTransaction` -/

/-- The value of a field of an operation payload, as far as `===` with an
account id can tell: a string, or anything else (given by its JSON text). -/
inductive FieldValue
  | string (s : String)
  | other (json : String)
deriving DecidableEq

/-- An operation `[type, payload]`: `op[0]` and the top-level fields of `op[1]`
in enumeration order. -/
structure Operation where
  type : ℕ
  payload : List (String × FieldValue)
deriving DecidableEq

/-- A transaction of a block. -/
structure Transaction where
  operations : List Operation
deriving DecidableEq

/-- A block, as far as it is read here. -/
structure Block where
  transactions : List Transaction
  transaction_ids : List String
deriving DecidableEq

/-- One invocation of the callback: `callback(blockHeight, txid, op)`; `txid` is
`undefined` when `transaction_ids` is too short. -/
structure Delivery where
  blockHeight : ℕ
  txid : Option String
  op : Operation
deriving DecidableEq

/-- The caller's callback: whether the invocation returns normally (`true`) or
throws (`false`). -/
abbrev Callback := ℕ → Option String → Operation → Bool

/-- `val === this.account_id`, where `this.account_id` may be `undefined`. -/
def strictEquals (val : FieldValue) (account_id : Option String) : Bool :=
  match account_id with
  | some id => val == .string id
  | none => false

/-- The `for (var key in op[1])` loop: `exist` starts `false` and is set by every
field that equals the account id. -/
def existLoop (account_id : Option String) (op : Operation) : Bool :=
  op.payload.foldl (fun exist field => if strictEquals field.2 account_id then true else exist)
    false

/-- The state of a scan: the callback invocations so far, and whether an
exception has ended the scan. -/
structure ScanState where
  deliveries : List Delivery
  threw : Bool
deriving DecidableEq

/-- `transaction.operations.forEach(op => ...)`: for each operation, the `exist`
loop, then `exist && callback && callback(blockHeight, txid, op)`.  Once the
callback has thrown nothing more runs. -/
def scanOperations (account_id : Option String) (callback : Option Callback) (blockHeight : ℕ)
    (txid : Option String) (operations : List Operation) (state : ScanState) : ScanState :=
  operations.foldl (fun st op =>
    if st.threw then st
    else if existLoop account_id op then
      match callback with
      | some cb =>
        { deliveries := st.deliveries ++ [{ blockHeight := blockHeight, txid := txid, op := op }],
          threw := !cb blockHeight txid op }
      | none => st
    else st) state

/-- `block.transactions.forEach((transaction, i) => ...)` with
`txid = block.transaction_ids[i]`. -/
def scanBlock (account_id : Option String) (callback : Option Callback) (blockHeight : ℕ)
    (block : Block) : ScanState :=
  block.transactions.enum.foldl (fun st it =>
    if st.threw then st
    else scanOperations account_id callback blockHeight block.transaction_ids[it.1]?
      it.2.operations st) { deliveries := [], threw := false }

/-- How `getBlock(blockHeight)` ends: the promise rejects, or resolves with
`null`, or resolves with a block. -/
inductive FetchOutcome
  | rejected
  | absent
  | present (block : Block)
deriving DecidableEq

/-- Whether the fetch gave a block. -/
def FetchOutcome.isPresent : FetchOutcome → Bool
  | .present _ => true
  | _ => false

/-- How the next `detectTransaction` call is scheduled. -/
inductive Delay
  | nextTick
  | timeout (ms : ℕ)
deriving DecidableEq

/-- One round of `detectTransaction`: the height fetched, how the fetch ended,
the cached `latestBlock` read after the scan, the callback invocations, and the
height and scheduling of the next round. -/
structure ScanStep where
  blockHeight : ℕ
  outcome : FetchOutcome
  latestBlock : Option ℕ
  deliveries : List Delivery
  next : ℕ
  delay : Delay
deriving DecidableEq

/-- `blockHeight < this.latestBlock`, false while `latestBlock` is `undefined`. -/
def belowLatest (blockHeight : ℕ) (latestBlock : Option ℕ) : Bool :=
  match latestBlock with
  | some l => decide (blockHeight < l)
  | none => false

/-- One round of `detectTransaction(blockHeight, callback)`.  A rejected fetch,
or an exception while scanning, goes to `catch`: same height after 1000 ms.  A
`null` block: same height after 1000 ms.  A block: scan it, then the next height
on the next tick when `blockHeight < this.latestBlock`, otherwise the same
height after 1000 ms.  Heights are natural numbers, far below `2 ^ 53`, where
`blockHeight + 1` is exact. -/
def detectStep (account_id : Option String) (callback : Option Callback) (blockHeight : ℕ)
    (outcome : FetchOutcome) (latestBlock : Option ℕ) : ScanStep :=
  match outcome with
  | .rejected =>
    { blockHeight := blockHeight, outcome := outcome, latestBlock := latestBlock,
      deliveries := [], next := blockHeight, delay := .timeout 1000 }
  | .absent =>
    { blockHeight := blockHeight, outcome := outcome, latestBlock := latestBlock,
      deliveries := [], next := blockHeight, delay := .timeout 1000 }
  | .present block =>
    let scan := scanBlock account_id callback blockHeight block
    if scan.threw then
      { blockHeight := blockHeight, outcome := outcome, latestBlock := latestBlock,
        deliveries := scan.deliveries, next := blockHeight, delay := .timeout 1000 }
    else if belowLatest blockHeight latestBlock then
      { blockHeight := blockHeight, outcome := outcome, latestBlock := latestBlock,
        deliveries := scan.deliveries, next := blockHeight + 1, delay := .nextTick }
    else
      { blockHeight := blockHeight, outcome := outcome, latestBlock := latestBlock,
        deliveries := scan.deliveries, next := blockHeight, delay := .timeout 1000 }

/-- A run of `detectTransaction` from `blockHeight`: one round for each item of
a sequence of fetch outcomes and cached head heights, each round starting at the
height the one before scheduled. -/
def detectRun (account_id : Option String) (callback : Option Callback) :
    ℕ → List (FetchOutcome × Option ℕ) → List ScanStep
  | _, [] => []
  | blockHeight, (outcome, latestBlock) :: rest =>
    let step := detectStep account_id callback blockHeight outcome latestBlock
    step :: detectRun account_id callback step.next rest

/-! ## Matches, as the specification speaks of them -/

/-- An operation matches when at least one top-level field of its payload is
strictly equal to the watched account id. -/
def isMatch (account_id : Option String) (op : Operation) : Bool :=
  op.payload.any fun field => strictEquals field.2 account_id

/-- The matches of a block: for each transaction in order and each of its
matching operations in order, the height, the transaction id at the index of the
transaction, and the operation. -/
def blockMatches (account_id : Option String) (blockHeight : ℕ) (block : Block) :
    List Delivery :=
  block.transactions.enum.flatMap fun it =>
    (it.2.operations.filter (isMatch account_id)).map fun op =>
      { blockHeight := blockHeight, txid := block.transaction_ids[it.1]?, op := op }

/-- Whether the callback returns normally when invoked on a match. -/
def returnsOn (cb : Callback) (d : Delivery) : Bool :=
  cb d.blockHeight d.txid d.op

/-- The items of a list of matches up to and including the first one on which
the callback throws; the whole list when it throws on none. -/
def throughFirstThrow (cb : Callback) (ms : List Delivery) : List Delivery :=
  ms.takeWhile (returnsOn cb) ++ (ms.dropWhile (returnsOn cb)).take 1

deriving instance DecidableEq for Except

/-! ## A small chain for the worked examples -/

/-- The well-known null key. -/
def nullKey : String := "GXC1111111111111111111111111111111114T1Anm"

/-- Accounts `alice` (the client), `bob`, `carol`, whose memo key is null, and
the contract account `bank`, the only one with an ABI. -/
def exampleAccounts : List (String × Account) :=
  [("alice", { id := "1.2.100",
               options := { memo_key := "GXC6alice", voting_account := none,
                            votes := ["1:5", "0:2"] } }),
   ("bob", { id := "1.2.200",
             options := { memo_key := "GXC7bob", voting_account := none, votes := [] } }),
   ("carol", { id := "1.2.300",
               options := { memo_key := nullKey, voting_account := none, votes := [] } }),
   ("bank", { id := "1.2.400",
              options := { memo_key := "GXC5bank", voting_account := none, votes := [] },
              abi := some "abi:deposit,withdraw" })]

/-- Assets `GXC` (precision 5) and `USD` (precision 4). -/
def exampleAssets : List (String × Asset) :=
  [("GXC", { id := "1.3.1", precision := 5 }), ("USD", { id := "1.3.2", precision := 4 })]

/-- A chain holding the example accounts and assets. -/
def exampleChain : Chain where
  get_chain_id := "c2af30ef"
  get_account_by_name := fun name =>
    name.bind fun n => (exampleAccounts.find? fun p => p.1 = n).map Prod.snd
  get_objects := fun id => (exampleAccounts.find? fun p => p.2.id = id).map Prod.snd
  global_parameters := some { maximum_committee_count := 11, maximum_witness_count := 1 }
  lookup_asset_symbols := fun sym =>
    sym.bind fun s => (exampleAssets.find? fun p => p.1 = s).map Prod.snd
  get_witness_by_account := fun id =>
    if id = "1.2.200" then some { vote_id := "1:5" }
    else if id = "1.2.300" then some { vote_id := "1:7" } else none
  get_committee_member_by_account := fun _ => none

/-- A key library in which `5Kalice` is the private key of `GXC6alice`. -/
def exampleCrypto : Crypto where
  toPublicKeyString := fun k =>
    if k = "5Kalice" then some "GXC6alice" else if k = "5Kother" then some "GXC8other" else none
  unique_nonce_uint64 := 394357881684245
  encrypt_with_checksum := fun _ pub _ text => some ("enc:" ++ pub ++ ":" ++ text)

/-- The client of account `alice`, not yet connected. -/
def exampleClient : Client where
  private_key := "5Kalice"
  account_id_or_name := "alice"
  account_id := none
  account := some "alice"
  connected := false
  chain_id := ""
  witness := "wss://node1.gxb.io"
  signProvider := false

/-- An ABI encoder that throws when there is no ABI. -/
def strictSerializer (method_name params : String) (abi : Option String) : Option String :=
  abi.map fun a => "call:" ++ method_name ++ ":" ++ params ++ ":" ++ a

/-- An ABI encoder that encodes the bare call when there is no ABI. -/
def lenientSerializer (method_name params : String) (abi : Option String) : Option String :=
  some ("call:" ++ method_name ++ ":" ++ params ++ ":" ++ abi.getD "")

/-- A builder all of whose promises fulfil. -/
def exampleBuilder : BuilderOutcomes where
  update_head_block := none
  set_required_fees := none
  headRejectsFirst := true
  broadcast := .ok "receipt"
  finalize := none
  sign := none
  serialize := "serialized"

/-- A transfer operation of `alice` (`1.2.100`) to `bob`. -/
def exampleTransferOp : Operation where
  type := 0
  payload := [("fee", .other "fee"), ("from", .string "1.2.100"), ("to", .string "1.2.200"),
    ("amount", .other "amount")]

/-- An account update of `alice` by herself: two fields hold her id. -/
def exampleUpdateOp : Operation where
  type := 6
  payload := [("account", .string "1.2.100"), ("registrar", .string "1.2.100")]

/-- An operation that does not mention `alice`. -/
def exampleOtherOp : Operation where
  type := 0
  payload := [("from", .string "1.2.200"), ("to", .string "1.2.300")]

/-- A block of two transactions. -/
def exampleBlock : Block where
  transactions := [{ operations := [exampleOtherOp, exampleTransferOp] },
    { operations := [exampleUpdateOp] }]
  transaction_ids := ["tx-a", "tx-b"]

/-- A block without transactions. -/
def emptyBlock : Block where
  transactions := []
  transaction_ids := []

/-- A callback that always returns. -/
def exampleCallback : Callback := fun _ _ _ => true

/-- A callback that always throws. -/
def throwingCallback : Callback := fun _ _ _ => false

/-! # Theorems -/
/-! ## Rounding is exact on integers up to `2 ^ 53` -/

theorem log2Aux_eq (fuel n : ℕ) (h : n ≤ fuel) : log2Aux fuel n = Nat.log 2 n := by
  induction fuel generalizing n with
  | zero =>
    have : n = 0 := by omega
    subst this; simp [log2Aux]
  | succ f ih =>
    unfold log2Aux
    by_cases h2 : n < 2
    · simp [h2, Nat.log_of_lt h2]
    · simp only [h2, if_false]
      rw [ih (n / 2) (by omega)]
      exact (Nat.log_of_one_lt_of_le (by norm_num) (by omega)).symm

theorem bitLog2_eq (n : ℕ) : bitLog2 n = Nat.log 2 n := log2Aux_eq n n le_rfl

theorem roundHalfEven_one (n : ℕ) : roundHalfEven n 1 = n := by
  simp [roundHalfEven, Nat.mod_one]

theorem pow2Q_nonpos_mul (n j : ℕ) : ((n * 2 ^ j : ℕ) : ℚ) * pow2Q (-(j : ℤ)) = n := by
  unfold pow2Q
  rcases Nat.eq_zero_or_pos j with hj | hj
  · subst hj; simp
  · have : ¬ (0 ≤ -(j : ℤ)) := by omega
    simp only [this, if_false, neg_neg, Int.toNat_ofNat]
    push_cast
    field_simp

theorem roundPos_nat (n : ℕ) (h0 : n ≠ 0) (h : n ≤ 2 ^ 53) : roundPos n 1 = .fin n := by
  have hlog : bitLog2 n = Nat.log 2 n := bitLog2_eq n
  have hone : bitLog2 1 = 0 := by decide
  have hle : 2 ^ Nat.log 2 n ≤ n := Nat.pow_log_le_self 2 h0
  have hfl : floorLog2 n 1 = (Nat.log 2 n : ℤ) := by
    unfold floorLog2
    simp only [hlog, hone, Nat.cast_zero, sub_zero, Int.toNat_ofNat]
    have : (-(Nat.log 2 n : ℤ)).toNat = 0 := by omega
    simp [this, hle]
  rcases Nat.lt_or_ge n (2 ^ 53) with hlt | hge
  · have hL : Nat.log 2 n < 53 := Nat.log_lt_of_lt_pow h0 hlt
    unfold roundPos
    simp only [hfl]
    have he : max ((Nat.log 2 n : ℤ) - 52) (-1074) = -((52 - Nat.log 2 n : ℕ) : ℤ) := by omega
    rw [he]
    have h1 : (-(-((52 - Nat.log 2 n : ℕ) : ℤ))).toNat = 52 - Nat.log 2 n := by omega
    have h2 : (-((52 - Nat.log 2 n : ℕ) : ℤ)).toNat = 0 := by omega
    simp only [h1, h2, pow_zero, mul_one, roundHalfEven_one]
    have h3 : ¬ (971 < -((52 - Nat.log 2 n : ℕ) : ℤ) ∨
        (-((52 - Nat.log 2 n : ℕ) : ℤ) = 971 ∧ n * 2 ^ (52 - Nat.log 2 n) = 2 ^ 53)) := by omega
    rw [if_neg h3, pow2Q_nonpos_mul]
  · have : n = 2 ^ 53 := le_antisymm h hge
    subst this
    decide!

theorem roundDouble_int (k : ℤ) (h : |k| ≤ 2 ^ 53) : roundDouble (k : ℚ) = .fin (k : ℚ) := by
  unfold roundDouble
  by_cases h0 : k = 0
  · subst h0; simp
  · have hq : (k : ℚ) ≠ 0 := by exact_mod_cast h0
    have hn : k.natAbs ≠ 0 := by simpa using h0
    have hb : k.natAbs ≤ 2 ^ 53 := by
      have : (k.natAbs : ℤ) ≤ 2 ^ 53 := by rw [Int.natCast_natAbs]; exact h
      exact_mod_cast this
    simp only [hq, if_false, Rat.num_intCast, Rat.den_intCast, roundPos_nat _ hn hb]
    by_cases hpos : 0 < k
    · have : (0 : ℚ) < k := by exact_mod_cast hpos
      simp only [this, if_true]
      congr 1
      rw [Nat.cast_natAbs, Int.cast_abs, abs_of_pos this]
    · have : ¬ (0 : ℚ) < k := by
        intro hh; exact hpos (by exact_mod_cast hh)
      simp only [this, if_false, JSNumber.neg]
      congr 1
      rw [Nat.cast_natAbs, Int.cast_abs, abs_of_nonpos (not_lt.mp this), neg_neg]

theorem mathPow10_exact : ∀ m, m < 23 → mathPow10 m = .fin ((10 ^ m : ℕ) : ℚ) := by
  decide!
/-! ## Strings: digits, splitting, conversion to Number -/

theorem isDigit_ne {c d : Char} (h : isDigit c = true) (hd : isDigit d = false) : c ≠ d := by
  rintro rfl
  simp [h] at hd

theorem isDigit_not_ws {c : Char} (h : isDigit c = true) : isStrWhiteSpace c = false := by
  have h1 : 48 ≤ c.toNat ∧ c.toNat ≤ 57 := by
    simp only [isDigit, Bool.and_eq_true, decide_eq_true_eq] at h
    exact ⟨h.1, h.2⟩
  simp [isStrWhiteSpace]
  omega

theorem dropWhile_eq_self {p : Char → Bool} (l : List Char)
    (h : ∀ c, l.head? = some c → p c = false) : l.dropWhile p = l := by
  cases l with
  | nil => rfl
  | cons a t => simp [List.dropWhile_cons, h a rfl]

theorem jsSplit_not_mem (sep : Char) (l : List Char) (h : sep ∉ l) : jsSplit sep l = [l] := by
  induction l with
  | nil => rfl
  | cons a t ih =>
    have ha : a ≠ sep := fun e => h (by simp [e])
    have ht : sep ∉ t := fun e => h (by simp [e])
    simp [jsSplit, ha, ih ht]

theorem jsSplit_append (sep : Char) (l r : List Char) (h : sep ∉ l) :
    jsSplit sep (l ++ sep :: r) = l :: jsSplit sep r := by
  induction l with
  | nil => simp [jsSplit]
  | cons a t ih =>
    have ha : a ≠ sep := fun e => h (by simp [e])
    have ht : sep ∉ t := fun e => h (by simp [e])
    simp [jsSplit, ha, ih ht]

theorem removeFirst_not_mem (c : Char) (l : List Char) (h : c ∉ l) : removeFirst c l = l := by
  unfold removeFirst
  exact List.erase_of_not_mem h

theorem removeFirst_append (c : Char) (l r : List Char) (h : c ∉ l) :
    removeFirst c (l ++ c :: r) = l ++ r := by
  unfold removeFirst
  rw [List.erase_append_right _ h, List.erase_cons_head]

theorem digitsValue_append (xs ys : List Char) :
    digitsValue (xs ++ ys) = digitsValue xs * 10 ^ ys.length + digitsValue ys := by
  unfold digitsValue
  have key : ∀ (ys : List Char) (a : ℕ),
      ys.foldl (fun acc c => 10 * acc + (c.toNat - 48)) a
        = a * 10 ^ ys.length + ys.foldl (fun acc c => 10 * acc + (c.toNat - 48)) 0 := by
    intro ys
    induction ys with
    | nil => intro a; simp
    | cons y t ih =>
      intro a
      simp only [List.foldl_cons, List.length_cons]
      rw [ih (10 * a + (y.toNat - 48)), ih (10 * 0 + (y.toNat - 48))]
      ring
  rw [List.foldl_append, key]
/-! ## Plain decimal numerals -/

/-- The shape of a plain decimal numeral. -/
theorem isPlainDecimal_shape (s : List Char) (h : isPlainDecimal s = true) :
    ∃ (neg : Bool) (ip fp : List Char), ip ≠ [] ∧ (∀ c ∈ ip, isDigit c = true) ∧
      (∀ c ∈ fp, isDigit c = true) ∧
      ((fp = [] ∧ s = signPrefix neg ++ ip) ∨ (fp ≠ [] ∧ s = signPrefix neg ++ (ip ++ '.' :: fp))) := by
  have core : ∀ u : List Char,
      (match u.dropWhile isDigit with
        | [] => !(u.takeWhile isDigit).isEmpty
        | '.' :: fp => !(u.takeWhile isDigit).isEmpty && !fp.isEmpty && fp.all isDigit
        | _ => false) = true →
      ∃ (ip fp : List Char), ip ≠ [] ∧ (∀ c ∈ ip, isDigit c = true) ∧
        (∀ c ∈ fp, isDigit c = true) ∧
        ((fp = [] ∧ u = ip) ∨ (fp ≠ [] ∧ u = ip ++ '.' :: fp)) := by
    intro u hu
    have hsplit := List.takeWhile_append_dropWhile isDigit u
    have hdig : ∀ c ∈ u.takeWhile isDigit, isDigit c = true := fun c hc =>
      List.mem_takeWhile_imp hc
    split at hu
    · rename_i hd
      refine ⟨u.takeWhile isDigit, [], ?_, hdig, by simp, Or.inl ⟨rfl, ?_⟩⟩
      · intro e; simp [e] at hu
      · rw [hd, List.append_nil] at hsplit; exact hsplit.symm
    · rename_i fp hd
      simp only [Bool.and_eq_true, Bool.not_eq_true', List.all_eq_true] at hu
      refine ⟨u.takeWhile isDigit, fp, ?_, hdig, hu.2, Or.inr ⟨?_, ?_⟩⟩
      · intro e; simp [e] at hu
      · intro e; simp [e] at hu
      · rw [hd] at hsplit; exact hsplit.symm
    · simp at hu
  unfold isPlainDecimal at h
  split at h
  · rename_i r
    obtain ⟨ip, fp, h1, h2, h3, h4⟩ := core r h
    refine ⟨true, ip, fp, h1, h2, h3, ?_⟩
    rcases h4 with ⟨a, b⟩ | ⟨a, b⟩
    · exact Or.inl ⟨a, by simp [signPrefix, b]⟩
    · exact Or.inr ⟨a, by simp [signPrefix, ← b]⟩
  · obtain ⟨ip, fp, h1, h2, h3, h4⟩ := core s h
    refine ⟨false, ip, fp, h1, h2, h3, ?_⟩
    rcases h4 with ⟨a, b⟩ | ⟨a, b⟩
    · exact Or.inl ⟨a, by simp [signPrefix, b]⟩
    · exact Or.inr ⟨a, by simp [signPrefix, ← b]⟩

theorem dot_not_mem_sign_digits (neg : Bool) (ds : List Char)
    (h : ∀ c ∈ ds, isDigit c = true) : '.' ∉ signPrefix neg ++ ds := by
  intro hm
  rcases List.mem_append.mp hm with h1 | h1
  · cases neg <;> simp [signPrefix] at h1
  · exact isDigit_ne (h _ h1) (by decide) rfl

theorem trimWhiteSpace_sign_digits (neg : Bool) (ds : List Char) (hne : ds ≠ [])
    (h : ∀ c ∈ ds, isDigit c = true) :
    trimWhiteSpace (signPrefix neg ++ ds) = signPrefix neg ++ ds := by
  unfold trimWhiteSpace
  have h1 : (signPrefix neg ++ ds).dropWhile isStrWhiteSpace = signPrefix neg ++ ds := by
    apply dropWhile_eq_self
    intro c hc
    cases neg with
    | true =>
      simp [signPrefix] at hc
      subst hc; decide
    | false =>
      simp only [signPrefix, Bool.false_eq_true, if_false, List.nil_append] at hc
      exact isDigit_not_ws (h c (List.mem_of_mem_head? hc))
  rw [h1]
  have h2 : (signPrefix neg ++ ds).reverse.dropWhile isStrWhiteSpace
      = (signPrefix neg ++ ds).reverse := by
    apply dropWhile_eq_self
    intro c hc
    rw [List.head?_reverse, List.getLast?_append_of_ne_nil _ hne] at hc
    exact isDigit_not_ws (h c (List.mem_of_mem_getLast? hc))
  rw [h2, List.reverse_reverse]
theorem parseNonDecimal_sign_digits (neg : Bool) (ds : List Char)
    (h : ∀ c ∈ ds, isDigit c = true) : parseNonDecimal (signPrefix neg ++ ds) = none := by
  have hx : ∀ c ∈ signPrefix neg ++ ds, c ≠ 'x' ∧ c ≠ 'X' ∧ c ≠ 'o' ∧ c ≠ 'O' ∧ c ≠ 'b' ∧ c ≠ 'B' := by
    intro c hc
    rcases List.mem_append.mp hc with h1 | h1
    · cases neg
      · simp [signPrefix] at h1
      · simp [signPrefix] at h1
        subst h1; decide
    · have hd := h c h1
      exact ⟨isDigit_ne hd (by decide), isDigit_ne hd (by decide), isDigit_ne hd (by decide),
        isDigit_ne hd (by decide), isDigit_ne hd (by decide), isDigit_ne hd (by decide)⟩
  generalize signPrefix neg ++ ds = l at hx
  unfold parseNonDecimal
  split <;> first
    | rfl
    | (exfalso; have := hx _ (List.mem_cons_of_mem _ (List.mem_cons_self _ _)); simp at this)

theorem splitSign_sign_digits (neg : Bool) (ds : List Char)
    (h : ∀ c ∈ ds, isDigit c = true) : splitSign (signPrefix neg ++ ds) = (neg, ds) := by
  cases neg with
  | true => simp [signPrefix, splitSign]
  | false =>
    simp only [signPrefix, Bool.false_eq_true, if_false, List.nil_append]
    cases ds with
    | nil => rfl
    | cons a t =>
      have ha := h a (List.mem_cons_self _ _)
      have h1 : a ≠ '-' := isDigit_ne ha (by decide)
      have h2 : a ≠ '+' := isDigit_ne ha (by decide)
      unfold splitSign
      split
      · rename_i heq; exact absurd (List.cons.inj heq).1 h1
      · rename_i heq; exact absurd (List.cons.inj heq).1 h2
      · rfl

theorem parseUnsignedDecimal_digits (ds : List Char) (hne : ds ≠ [])
    (h : ∀ c ∈ ds, isDigit c = true) : parseUnsignedDecimal ds = some (digitsValue ds : ℚ) := by
  have h1 : ds.takeWhile isDigit = ds := List.takeWhile_eq_self_iff.mpr h
  have h2 : ds.dropWhile isDigit = [] := List.dropWhile_eq_nil_iff.mpr h
  unfold parseUnsignedDecimal
  simp only [h1, h2]
  simp [hne, parseExponent, pow10Q]

/-- `Number(str)` on an optionally signed run of digits is the rounded integer. -/
theorem stringToNumber_sign_digits (neg : Bool) (ds : List Char) (hne : ds ≠ [])
    (h : ∀ c ∈ ds, isDigit c = true) :
    stringToNumber (signPrefix neg ++ ds)
      = roundDouble (((if neg then -(digitsValue ds : ℤ) else (digitsValue ds : ℤ)) : ℤ) : ℚ) := by
  unfold stringToNumber
  simp only [trimWhiteSpace_sign_digits neg ds hne h, parseNonDecimal_sign_digits neg ds h,
    splitSign_sign_digits neg ds h]
  have hnil : signPrefix neg ++ ds ≠ [] := by simp [hne]
  have hinf : ds ≠ "Infinity".toList := by
    intro e
    have := h 'I' (by rw [e]; decide)
    revert this; decide
  simp only [hnil, hinf, if_false, parseUnsignedDecimal_digits ds hne h]
  cases neg <;> simp
theorem takeWhile_append_stop (p : Char → Bool) (l r : List Char) (x : Char)
    (hl : ∀ c ∈ l, p c = true) (hx : p x = false) : (l ++ x :: r).takeWhile p = l := by
  induction l with
  | nil => simp [List.takeWhile_cons, hx]
  | cons a t ih =>
    have ha := hl a (List.mem_cons_self _ _)
    simp [List.takeWhile_cons, ha, ih (fun c hc => hl c (List.mem_cons_of_mem _ hc))]

theorem dropWhile_append_stop (p : Char → Bool) (l r : List Char) (x : Char)
    (hl : ∀ c ∈ l, p c = true) (hx : p x = false) : (l ++ x :: r).dropWhile p = x :: r := by
  induction l with
  | nil => simp [List.dropWhile_cons, hx]
  | cons a t ih =>
    have ha := hl a (List.mem_cons_self _ _)
    simp [List.dropWhile_cons, ha, ih (fun c hc => hl c (List.mem_cons_of_mem _ hc))]

theorem not_dot_of_mem (neg : Bool) (ds : List Char) (h : ∀ c ∈ ds, isDigit c = true) :
    ∀ c ∈ signPrefix neg ++ ds, (decide (c ≠ '.')) = true := by
  intro c hc
  have := dot_not_mem_sign_digits neg ds h
  simp only [decide_eq_true_eq]
  rintro rfl
  exact this hc

/-- On a plain decimal numeral, the `split(".")[1].length` step adds exactly the
number of fractional digits. -/
theorem plain_split (s : List Char) (m : ℕ) (h : isPlainDecimal s = true) :
    (match (jsSplit '.' s)[1]? with
      | some f => m + f.length
      | none => m) = m + fracDigits s := by
  obtain ⟨neg, ip, fp, _, hip, hfp, hs⟩ := isPlainDecimal_shape s h
  have hnd := dot_not_mem_sign_digits neg ip hip
  have hall := not_dot_of_mem neg ip hip
  rcases hs with ⟨hf, rfl⟩ | ⟨_, rfl⟩
  · rw [jsSplit_not_mem _ _ hnd]
    have : (signPrefix neg ++ ip).dropWhile (fun c => decide (c ≠ '.')) = [] :=
      List.dropWhile_eq_nil_iff.mpr hall
    unfold fracDigits
    rw [this]
    rfl
  · have e : signPrefix neg ++ (ip ++ '.' :: fp) = (signPrefix neg ++ ip) ++ '.' :: fp := by simp
    rw [e, jsSplit_append _ _ _ hnd]
    have hfd : '.' ∉ fp := fun hm => isDigit_ne (hfp _ hm) (by decide) rfl
    rw [jsSplit_not_mem _ _ hfd]
    have : (signPrefix neg ++ ip ++ '.' :: fp).dropWhile (fun c => decide (c ≠ '.')) = '.' :: fp :=
      dropWhile_append_stop _ _ _ _ hall (by decide)
    unfold fracDigits
    rw [this]
    rfl

theorem match_minus_digits {α : Type} (ds : List Char) (A B : List Char → α) :
    (∀ c ∈ ds, isDigit c = true) →
    (match ds with
      | '-' :: r => A r
      | r => B r) = B ds := by
  intro h
  split
  · rename_i r
    exact absurd rfl (isDigit_ne (h '-' (List.mem_cons_self _ _)) (by decide))
  · rfl

theorem digits_not_dot (ds : List Char) (h : ∀ c ∈ ds, isDigit c = true) :
    ∀ c ∈ ds, (decide (c ≠ '.')) = true := by
  intro c hc
  simp only [decide_eq_true_eq]
  exact isDigit_ne (h c hc) (by decide)

theorem mantissa_sign_digits (neg : Bool) (ds : List Char) (h : ∀ c ∈ ds, isDigit c = true) :
    (match signPrefix neg ++ ds with
      | '-' :: r => -(digitsValue r : ℤ)
      | r => (digitsValue r : ℤ)) = if neg then -(digitsValue ds : ℤ) else (digitsValue ds : ℤ) := by
  cases neg with
  | true => simp [signPrefix]
  | false =>
    simp only [signPrefix, Bool.false_eq_true, if_false, List.nil_append]
    exact match_minus_digits ds _ _ h

/-- On a plain decimal numeral, dropping the first `.` and converting to a Number
gives the rounded mantissa. -/
theorem plain_number (s : List Char) (h : isPlainDecimal s = true) :
    stringToNumber (removeFirst '.' s) = roundDouble ((mantissa s : ℤ) : ℚ) := by
  obtain ⟨neg, ip, fp, hne, hip, hfp, hs⟩ := isPlainDecimal_shape s h
  have hnd := dot_not_mem_sign_digits neg ip hip
  have hall := not_dot_of_mem neg ip hip
  rcases hs with ⟨hf, rfl⟩ | ⟨_, rfl⟩
  · rw [removeFirst_not_mem _ _ hnd, stringToNumber_sign_digits neg ip hne hip]
    unfold mantissa
    rw [List.filter_eq_self.mpr hall, mantissa_sign_digits neg ip hip]
  · have hds : ∀ c ∈ ip ++ fp, isDigit c = true := by
      intro c hc
      rcases List.mem_append.mp hc with h1 | h1
      · exact hip c h1
      · exact hfp c h1
    have hne2 : ip ++ fp ≠ [] := by simp [hne]
    rw [← List.append_assoc, removeFirst_append _ _ _ hnd, List.append_assoc,
      stringToNumber_sign_digits neg (ip ++ fp) hne2 hds]
    unfold mantissa
    have hfil : (signPrefix neg ++ ip ++ '.' :: fp).filter (fun c => decide (c ≠ '.'))
        = signPrefix neg ++ (ip ++ fp) := by
      rw [List.filter_append, List.filter_eq_self.mpr hall, List.filter_cons_of_neg (by decide),
        List.filter_eq_self.mpr (digits_not_dot fp hfp), List.append_assoc]
    rw [hfil, mantissa_sign_digits neg (ip ++ fp) hds]
theorem match_minus_head {α : Type} (ds : List Char) (A B : List Char → α) :
    ds.head? ≠ some '-' →
    (match ds with
      | '-' :: r => A r
      | r => B r) = B ds := by
  intro h
  split
  · exact absurd rfl h
  · rfl

/-- The exact value of a plain decimal numeral is its mantissa over ten to the
number of its fractional digits. -/
theorem plain_value (s : List Char) (h : isPlainDecimal s = true) :
    decimalValue s = (mantissa s : ℚ) / (10 : ℚ) ^ fracDigits s := by
  obtain ⟨neg, ip, fp, hne, hip, hfp, hs⟩ := isPlainDecimal_shape s h
  have hall := not_dot_of_mem neg ip hip
  have hipd := digits_not_dot ip hip
  obtain ⟨a, t, rfl⟩ := List.exists_cons_of_ne_nil hne
  have ha : a ≠ '-' := isDigit_ne (hip a (List.mem_cons_self _ _)) (by decide)
  -- the three readings of the numeral on its two shapes
  have hfrac : fracDigits s = fp.length := by
    rcases hs with ⟨hf0, rfl⟩ | ⟨_, rfl⟩
    · unfold fracDigits
      rw [List.dropWhile_eq_nil_iff.mpr hall, hf0]; rfl
    · have e : signPrefix neg ++ (a :: t ++ '.' :: fp) = (signPrefix neg ++ a :: t) ++ '.' :: fp := by
        simp
      unfold fracDigits
      rw [e, dropWhile_append_stop _ _ _ _ hall (by decide)]; rfl
  have hds : ∀ c ∈ a :: t ++ fp, isDigit c = true := by
    intro c hc
    rcases List.mem_append.mp hc with h1 | h1
    · exact hip c h1
    · exact hfp c h1
  have hman : mantissa s
      = if neg then -(digitsValue (a :: t ++ fp) : ℤ) else (digitsValue (a :: t ++ fp) : ℤ) := by
    unfold mantissa
    rcases hs with ⟨hf0, rfl⟩ | ⟨_, rfl⟩
    · rw [List.filter_eq_self.mpr hall, hf0, List.append_nil]
      exact mantissa_sign_digits neg (a :: t) hip
    · have hfil : (signPrefix neg ++ (a :: t ++ '.' :: fp)).filter (fun c => decide (c ≠ '.'))
          = signPrefix neg ++ (a :: t ++ fp) := by
        rw [List.filter_append, List.filter_append, List.filter_eq_self.mpr hipd,
          List.filter_cons_of_neg (by decide), List.filter_eq_self.mpr (digits_not_dot fp hfp)]
        cases neg <;> simp [signPrefix]
      rw [hfil]
      exact mantissa_sign_digits neg (a :: t ++ fp) hds
  have hval : decimalValue s
      = if neg then -((digitsValue (a :: t) : ℚ) + (digitsValue fp : ℚ) / (10 : ℚ) ^ fp.length)
        else (digitsValue (a :: t) : ℚ) + (digitsValue fp : ℚ) / (10 : ℚ) ^ fp.length := by
    have body : ∀ u : List Char, (u = a :: t ∧ fp = [] ∨ u = a :: t ++ '.' :: fp) →
        (digitsValue (u.takeWhile (· ≠ '.')) : ℚ)
          + (digitsValue ((u.dropWhile (· ≠ '.')).drop 1) : ℚ)
            / (10 : ℚ) ^ ((u.dropWhile (· ≠ '.')).drop 1).length
        = (digitsValue (a :: t) : ℚ) + (digitsValue fp : ℚ) / (10 : ℚ) ^ fp.length := by
      intro u hu
      rcases hu with ⟨rfl, rfl⟩ | rfl
      · rw [List.takeWhile_eq_self_iff.mpr hipd, List.dropWhile_eq_nil_iff.mpr hipd]
        rfl
      · rw [takeWhile_append_stop _ _ _ _ hipd (by decide),
          dropWhile_append_stop _ _ _ _ hipd (by decide)]
        rfl
    have hu : ∀ u : List Char, s = signPrefix neg ++ u →
        (u = a :: t ∧ fp = [] ∨ u = a :: t ++ '.' :: fp) := by
      intro u hsu
      rcases hs with ⟨hf0, e⟩ | ⟨_, e⟩
      · exact Or.inl ⟨List.append_cancel_left (hsu.symm.trans e), hf0⟩
      · exact Or.inr (List.append_cancel_left (hsu.symm.trans e))
    have hsu : ∃ u, s = signPrefix neg ++ u := by
      rcases hs with ⟨_, e⟩ | ⟨_, e⟩
      · exact ⟨_, e⟩
      · exact ⟨_, e⟩
    obtain ⟨u, hsu⟩ := hsu
    have hb := body u (hu u hsu)
    subst hsu
    unfold decimalValue
    cases neg with
    | true =>
      simp only [signPrefix, if_true, List.singleton_append]
      rw [hb]
    | false =>
      simp only [signPrefix, Bool.false_eq_true, if_false, List.nil_append]
      have hh : u.head? ≠ some '-' := by
        rcases hu u (by simp [signPrefix]) with ⟨e, _⟩ | e
        · rw [e]; simpa using ha
        · rw [e]; simpa using ha
      rw [match_minus_head u (fun r => (true, r)) (fun r => (false, r)) hh]
      simp only [Bool.false_eq_true, if_false]
      rw [hb]
  rw [hval, hman, hfrac, digitsValue_append]
  have h10 : ((10 : ℚ) ^ fp.length) ≠ 0 := by positivity
  cases neg
  · simp only [Bool.false_eq_true, if_false]
    push_cast
    field_simp
  · simp only [if_true]
    push_cast
    field_simp
/-! ## `_accMult` (C1, C2) -/

theorem accMult_plain (a b : JSNumber)
    (ha : isPlainDecimal (numberToString a) = true)
    (hb : isPlainDecimal (numberToString b) = true) :
    _accMult a b
      = ((roundDouble ((mantissa (numberToString a) : ℤ) : ℚ)).mul
          (roundDouble ((mantissa (numberToString b) : ℤ) : ℚ))).div
          (mathPow10 (fracDigits (numberToString a) + fracDigits (numberToString b))) := by
  have e1 := plain_split (numberToString a) 0 ha
  have e2 := plain_split (numberToString b) (0 + fracDigits (numberToString a)) hb
  simp only [Nat.zero_add] at e1 e2
  unfold _accMult
  simp only [plain_number _ ha, plain_number _ hb, Nat.zero_add, e1, e2]

/-- **C1 (amended).**  For Numbers `a`, `b` that render as plain decimal numerals
whose mantissas and mantissa product are at most `2 ^ 53` in magnitude and whose
fractional digits number at most 22 together, `_accMult(a, b)` is the binary64
value nearest to the exact product of the two numerals; that product is
`mantissa(a) * mantissa(b) / 10 ^ (sa + sb)`; and whenever the product is an
integer, `_accMult(a, b)` is exactly that integer. -/
theorem accMult_safe_range (a b : JSNumber)
    (ha : isPlainDecimal (numberToString a) = true)
    (hb : isPlainDecimal (numberToString b) = true)
    (hMa : |mantissa (numberToString a)| ≤ 2 ^ 53)
    (hMb : |mantissa (numberToString b)| ≤ 2 ^ 53)
    (hP : |mantissa (numberToString a) * mantissa (numberToString b)| ≤ 2 ^ 53)
    (hm : fracDigits (numberToString a) + fracDigits (numberToString b) ≤ 22) :
    _accMult a b
        = roundDouble (decimalValue (numberToString a) * decimalValue (numberToString b)) ∧
      decimalValue (numberToString a) * decimalValue (numberToString b)
        = ((mantissa (numberToString a) * mantissa (numberToString b) : ℤ) : ℚ)
            / (10 : ℚ) ^ (fracDigits (numberToString a) + fracDigits (numberToString b)) ∧
      ∀ k : ℤ, decimalValue (numberToString a) * decimalValue (numberToString b) = (k : ℚ) →
        _accMult a b = .fin (k : ℚ) := by
  have hval : decimalValue (numberToString a) * decimalValue (numberToString b)
      = ((mantissa (numberToString a) * mantissa (numberToString b) : ℤ) : ℚ)
          / (10 : ℚ) ^ (fracDigits (numberToString a) + fracDigits (numberToString b)) := by
    rw [plain_value _ ha, plain_value _ hb, pow_add]
    push_cast
    field_simp
  have hacc : _accMult a b
      = roundDouble (decimalValue (numberToString a) * decimalValue (numberToString b)) := by
    rw [accMult_plain a b ha hb, roundDouble_int _ hMa, roundDouble_int _ hMb,
      mathPow10_exact _ (by omega), hval]
    simp only [JSNumber.mul, JSNumber.div]
    rw [← Int.cast_mul, roundDouble_int _ hP]
    have h10 : ((10 ^ (fracDigits (numberToString a) + fracDigits (numberToString b)) : ℕ) : ℚ) ≠ 0 := by
      positivity
    simp only [h10, if_false]
    push_cast
    rfl
  refine ⟨hacc, hval, ?_⟩
  intro k hk
  rw [hacc, hk]
  apply roundDouble_int
  -- |k| ≤ |mantissa product| since k * 10 ^ m is that product
  have h10 : (0 : ℚ) < (10 : ℚ) ^ (fracDigits (numberToString a) + fracDigits (numberToString b)) := by
    positivity
  rw [hval, div_eq_iff h10.ne'] at hk
  have hk' : mantissa (numberToString a) * mantissa (numberToString b)
      = k * (10 : ℤ) ^ (fracDigits (numberToString a) + fracDigits (numberToString b)) := by
    exact_mod_cast hk
  have h1 : (1 : ℤ) ≤ (10 : ℤ) ^ (fracDigits (numberToString a) + fracDigits (numberToString b)) :=
    one_le_pow₀ (by norm_num)
  calc |k| = |k| * 1 := (mul_one _).symm
    _ ≤ |k| * (10 : ℤ) ^ (fracDigits (numberToString a) + fracDigits (numberToString b)) :=
        mul_le_mul_of_nonneg_left h1 (abs_nonneg k)
    _ = |k * (10 : ℤ) ^ (fracDigits (numberToString a) + fracDigits (numberToString b))| := by
        rw [abs_mul, abs_of_pos (by positivity : (0 : ℤ) < (10 : ℤ) ^ _)]
    _ = |mantissa (numberToString a) * mantissa (numberToString b)| := by rw [hk']
    _ ≤ 2 ^ 53 := hP

/-- Witness for `accMult_safe_range`: `_accMult(1.23, 10^4) = 12300`. -/
theorem accMult_safe_range_witness :
    _accMult (stringToNumber "1.23".toList) (mathPow10 4) = .fin 12300 :=
  (accMult_safe_range (stringToNumber "1.23".toList) (mathPow10 4)
    (by decide!) (by decide!) (by decide!) (by decide!) (by decide!) (by decide!)).2.2 12300
    (by decide!)

/-- **C1 (counterexample).**  `4503599627370497` (that is `2 ^ 52 + 1`) and `3`
are Numbers that render as plain decimal numerals with no fractional digits;
the product of their mantissas is `13510798882111491`, and `_accMult` returns
`13510798882111492`.  And for `0.123456789` and `0.987654321`, whose exact
product is `0.121932631112635269`, `_accMult` returns the Number that renders as
`0.12193263111263526`, which is not even the binary64 value nearest to the
product. -/
theorem accMult_not_exact :
    numberToString (stringToNumber "4503599627370497".toList) = "4503599627370497".toList ∧
    numberToString (stringToNumber "3".toList) = "3".toList ∧
    isPlainDecimal "4503599627370497".toList = true ∧ isPlainDecimal "3".toList = true ∧
    fracDigits "4503599627370497".toList + fracDigits "3".toList = 0 ∧
    mantissa "4503599627370497".toList * mantissa "3".toList = 13510798882111491 ∧
    decimalValue "4503599627370497".toList * decimalValue "3".toList = 13510798882111491 ∧
    _accMult (stringToNumber "4503599627370497".toList) (stringToNumber "3".toList)
      = .fin 13510798882111492 ∧
    _accMult (stringToNumber "4503599627370497".toList) (stringToNumber "3".toList)
      ≠ .fin (((mantissa "4503599627370497".toList * mantissa "3".toList : ℤ) : ℚ)
          / (10 : ℚ) ^ 0) ∧
    numberToString (stringToNumber "0.123456789".toList) = "0.123456789".toList ∧
    numberToString (stringToNumber "0.987654321".toList) = "0.987654321".toList ∧
    decimalValue "0.123456789".toList * decimalValue "0.987654321".toList
      = 121932631112635269 / 1000000000000000000 ∧
    numberToString
        (_accMult (stringToNumber "0.123456789".toList) (stringToNumber "0.987654321".toList))
      = "0.12193263111263526".toList ∧
    _accMult (stringToNumber "0.123456789".toList) (stringToNumber "0.987654321".toList)
      ≠ roundDouble (decimalValue "0.123456789".toList * decimalValue "0.987654321".toList) := by
  decide!

theorem pow10_render : ∀ p, p < 21 →
    isPlainDecimal (numberToString (mathPow10 p)) = true ∧
    fracDigits (numberToString (mathPow10 p)) = 0 ∧
    mantissa (numberToString (mathPow10 p)) = ((10 ^ p : ℕ) : ℤ) ∧
    roundDouble ((((10 ^ p : ℕ) : ℤ) : ℤ) : ℚ) = .fin ((10 ^ p : ℕ) : ℚ) := by
  decide!

/-- **C2 (amended).**  For every quantity `q` whose Number renders as a plain
decimal numeral with at most `p` fractional digits, with `p ≤ 20` and
`|mantissa| * 10 ^ p ≤ 2 ^ 53`, the minor-unit quantity `_accMult(q, 10^p)` is
the integer `mantissa * 10 ^ (p - fractional digits)`. -/
theorem minor_units_integer (q : List Char) (p : ℕ)
    (hq : isPlainDecimal (numberToString (stringToNumber q)) = true)
    (hf : fracDigits (numberToString (stringToNumber q)) ≤ p)
    (hp : p ≤ 20)
    (hM : |mantissa (numberToString (stringToNumber q))| * 10 ^ p ≤ 2 ^ 53) :
    _accMult (stringToNumber q) (mathPow10 p)
        = .fin ((mantissa (numberToString (stringToNumber q))
            * 10 ^ (p - fracDigits (numberToString (stringToNumber q))) : ℤ) : ℚ) ∧
      (_accMult (stringToNumber q) (mathPow10 p)).isInteger = true := by
  obtain ⟨r1, r2, r3, r4⟩ := pow10_render p (by omega)
  set M := mantissa (numberToString (stringToNumber q)) with hMdef
  set f := fracDigits (numberToString (stringToNumber q)) with hfdef
  have h10p : (1 : ℤ) ≤ 10 ^ p := one_le_pow₀ (by norm_num)
  have hMa : |M| ≤ 2 ^ 53 :=
    le_trans (le_mul_of_one_le_right (abs_nonneg M) h10p) hM
  have hprod : |M * 10 ^ p| ≤ 2 ^ 53 := by
    rw [abs_mul, abs_of_pos (by positivity : (0 : ℤ) < 10 ^ p)]; exact hM
  have hsplit : (10 : ℤ) ^ p = 10 ^ (p - f) * 10 ^ f := by
    rw [← pow_add]; congr 1; omega
  have hres : |M * 10 ^ (p - f)| ≤ 2 ^ 53 := by
    rw [abs_mul, abs_of_pos (by positivity : (0 : ℤ) < 10 ^ (p - f))]
    refine le_trans (mul_le_mul_of_nonneg_left ?_ (abs_nonneg M)) hM
    rw [hsplit]
    exact le_mul_of_one_le_right (by positivity) (one_le_pow₀ (by norm_num))
  have key : _accMult (stringToNumber q) (mathPow10 p) = .fin ((M * 10 ^ (p - f) : ℤ) : ℚ) := by
    rw [accMult_plain _ _ hq r1, r2, r3, ← hMdef, ← hfdef, r4, roundDouble_int _ hMa,
      Nat.add_zero, mathPow10_exact _ (by omega)]
    simp only [JSNumber.mul, JSNumber.div]
    have e1 : ((M : ℤ) : ℚ) * ((10 ^ p : ℕ) : ℚ) = ((M * 10 ^ p : ℤ) : ℚ) := by push_cast; ring
    rw [e1, roundDouble_int _ hprod]
    have h10 : ((10 ^ f : ℕ) : ℚ) ≠ 0 := by positivity
    simp only [h10, if_false]
    have e2 : ((M * 10 ^ p : ℤ) : ℚ) / ((10 ^ f : ℕ) : ℚ) = ((M * 10 ^ (p - f) : ℤ) : ℚ) := by
      rw [hsplit]
      push_cast
      field_simp
      ring
    rw [e2, roundDouble_int _ hres]
  refine ⟨key, ?_⟩
  rw [key]
  simp only [JSNumber.isInteger, Rat.den_intCast, decide_True]

/-- Witness for `minor_units_integer`: quantity `"10"` with precision 5 gives
`1000000`. -/
theorem minor_units_integer_witness :
    _accMult (stringToNumber "10".toList) (mathPow10 5) = .fin 1000000 ∧
      (_accMult (stringToNumber "10".toList) (mathPow10 5)).isInteger = true := by
  have h := minor_units_integer "10".toList 5 (by decide!) (by decide!) (by decide!) (by decide!)
  refine ⟨?_, h.2⟩
  rw [h.1]
  decide!

/-- **C2 (counterexample).**  The quantity `"1.234567"` with precision 5: the
Number renders as the plain numeral `1.234567`, and `_accMult(1.234567, 10^5)`
is the binary64 value nearest to `123456.7`, which is not an integer; `transfer`
of `1.234567 GXC` puts that value into the operation. -/
theorem minor_units_not_integer :
    numberToString (stringToNumber "1.234567".toList) = "1.234567".toList ∧
    _accMult (stringToNumber "1.234567".toList) (mathPow10 5) = roundDouble (1234567 / 10) ∧
    (_accMult (stringToNumber "1.234567".toList) (mathPow10 5)).isInteger = false ∧
    transfer exampleChain exampleCrypto exampleClient "bob" (.text "") "1.234567 GXC" none
      = .built { fee := { amount := .fin 0, asset_id := "1.3.1" }, «from» := "1.2.100",
                 «to» := "1.2.200",
                 amount := { amount := roundDouble (1234567 / 10), asset_id := "1.3.1" },
                 memo := none } := by
  decide!
/-! ## The format check of `transfer` (C3) -/

theorem connect_error (chain : Chain) (c c1 : Client) (e : ClientError)
    (h : _connect chain c = (c1, some e)) : e = .typeError := by
  unfold _connect at h
  split at h
  · simp at h
  · split at h
    · simp only [Prod.mk.injEq, Option.some.injEq] at h
      exact h.2.symm
    · simp at h

theorem transferMemoKeys_error (crypto : Crypto) (c : Client) (memo : String)
    (fromAcc : Option Account) (toAcc : Account) (e : ClientError)
    (h : transferMemoKeys crypto c memo fromAcc toAcc = .error e) : e ≠ .incorrectFormat := by
  unfold transferMemoKeys at h
  rintro rfl
  by_cases hm : truthy memo = true
  · simp only [hm, if_true] at h
    cases fromAcc with
    | none => simp at h
    | some fa =>
      cases hp : crypto.toPublicKeyString c.private_key with
      | none => simp [hp] at h
      | some pub =>
        simp only [hp] at h
        split at h <;> first | (simp at h; done) | (split at h <;> simp at h)
  · simp [hm] at h

theorem transferTextMemo_error (crypto : Crypto) (c : Client) (memo : String)
    (fromAcc : Option Account) (toAcc : Account) (e : ClientError)
    (h : transferTextMemo crypto c memo fromAcc toAcc = .error e) : e ≠ .incorrectFormat := by
  unfold transferTextMemo at h
  rintro rfl
  cases hk : transferMemoKeys crypto c memo fromAcc toAcc with
  | error e1 =>
    simp only [hk, Except.error.injEq] at h
    subst h
    exact transferMemoKeys_error _ _ _ _ _ _ hk rfl
  | ok p =>
    obtain ⟨f, t⟩ := p
    cases f with
    | none => simp [hk] at h
    | some f =>
      cases t with
      | none => simp [hk] at h
      | some t =>
        simp only [hk] at h
        split at h
        · cases he : crypto.encrypt_with_checksum c.private_key t crypto.unique_nonce_uint64 memo with
          | none => simp [he] at h
          | some m => simp [he] at h
        · simp at h

/-- **C3 (amended).**  For every amount string `s`, `transfer` rejects with the
invalid-amount-format error if and only if `s` contains no space character. -/
theorem transfer_format_error_iff (chain : Chain) (crypto : Crypto) (c : Client) (recipient : String)
    (memo : MemoArg) (s : String) (fee_symbol : Option String) :
    transfer chain crypto c recipient memo s fee_symbol = .rejected .incorrectFormat
      ↔ ' ' ∉ s.toList := by
  constructor
  · intro h
    by_contra hs
    unfold transfer at h
    rw [if_neg (not_not.mpr hs)] at h
    cases hcn : _connect chain c with
    | mk c1 oe =>
      cases oe with
      | some e =>
        have := connect_error chain c c1 e hcn
        simp [hcn, this] at h
      | none =>
        simp only [hcn] at h
        cases hto : chain.get_account_by_name (some recipient) with
        | none => simp [hto] at h
        | some toAcc =>
          cases has : chain.lookup_asset_symbols
              (Option.map String.mk (amountPieces s)[1]?) with
          | none => simp [hto, has] at h
          | some assetInfo =>
            simp only [hto, has] at h
            cases memo with
            | text m =>
              cases hmo : transferTextMemo crypto c1 m (c1.account_id.bind chain.get_objects)
                  toAcc with
              | error e =>
                simp only [hmo, TransferOutcome.rejected.injEq] at h
                exact transferTextMemo_error _ _ _ _ _ _ hmo h
              | ok mo =>
                simp only [hmo] at h
                cases hfa : c1.account_id.bind chain.get_objects with
                | none => simp [hfa] at h
                | some fa => simp [hfa] at h
            | provider f =>
              cases hmo : f (c1.account_id.bind chain.get_objects) toAcc with
              | none => simp [hmo] at h
              | some mo =>
                simp only [hmo] at h
                cases hfa : c1.account_id.bind chain.get_objects with
                | none => simp [hfa] at h
                | some fa => simp [hfa] at h
  · intro h
    unfold transfer
    rw [if_pos h]

/-- **C3 (counterexample).**  Amount strings with two spaces, with a leading
space and with a trailing space are not a quantity and a symbol separated by
exactly one space, and `transfer` does not reject them with the format error: it
builds the operation. -/
theorem transfer_accepts_extra_spaces :
    isQuantitySpaceSymbol "10  GXC" = false ∧
    isQuantitySpaceSymbol " 10 GXC" = false ∧
    isQuantitySpaceSymbol "10 GXC " = false ∧
    transfer exampleChain exampleCrypto exampleClient "bob" (.text "") "10  GXC" none
      ≠ .rejected .incorrectFormat ∧
    transfer exampleChain exampleCrypto exampleClient "bob" (.text "") " 10 GXC" none
      ≠ .rejected .incorrectFormat ∧
    transfer exampleChain exampleCrypto exampleClient "bob" (.text "") "10 GXC " none
      ≠ .rejected .incorrectFormat ∧
    transfer exampleChain exampleCrypto exampleClient "bob" (.text "") "10  GXC" none
      = .built { fee := { amount := .fin 0, asset_id := "1.3.1" }, «from» := "1.2.100",
                 «to» := "1.2.200", amount := { amount := .fin 1000000, asset_id := "1.3.1" },
                 memo := none } := by
  decide!
/-! ## Vote tokens and the comparator -/

theorem jsSplit_ne_nil (sep : Char) (s : List Char) : jsSplit sep s ≠ [] := by
  induction s with
  | nil => simp [jsSplit]
  | cons c cs ih =>
    unfold jsSplit
    split
    · simp
    · split <;> simp

theorem jsSplit_cons (sep : Char) (s p : List Char) (ps : List (List Char))
    (h : jsSplit sep s = p :: ps) :
    sep ∉ p ∧ ((ps = [] ∧ s = p) ∨ ∃ rest, s = p ++ sep :: rest ∧ jsSplit sep rest = ps) := by
  induction s generalizing p ps with
  | nil =>
    simp only [jsSplit, List.cons.injEq] at h
    obtain ⟨rfl, rfl⟩ := h
    simp
  | cons c cs ih =>
    unfold jsSplit at h
    by_cases hc : c = sep
    · simp only [hc, if_true, List.cons.injEq] at h
      obtain ⟨rfl, rfl⟩ := h
      exact ⟨by simp, Or.inr ⟨cs, by simp [hc], rfl⟩⟩
    · simp only [hc, if_false] at h
      cases hq : jsSplit sep cs with
      | nil => exact absurd hq (jsSplit_ne_nil sep cs)
      | cons q qs =>
        simp only [hq, List.cons.injEq] at h
        obtain ⟨rfl, rfl⟩ := h
        obtain ⟨h1, h2⟩ := ih q qs hq
        refine ⟨?_, ?_⟩
        · intro hm
          rcases List.mem_cons.mp hm with e | e
          · exact hc e.symm
          · exact h1 e
        · rcases h2 with ⟨a, b⟩ | ⟨rest, a, b⟩
          · exact Or.inl ⟨a, by rw [b]⟩
          · exact Or.inr ⟨rest, by rw [a]; rfl, b⟩

theorem jsSplit_pair (sep : Char) (s t i : List Char) (h : jsSplit sep s = [t, i]) :
    s = t ++ sep :: i ∧ sep ∉ t ∧ sep ∉ i := by
  obtain ⟨h1, h2⟩ := jsSplit_cons sep s t [i] h
  rcases h2 with ⟨a, _⟩ | ⟨rest, a, b⟩
  · simp at a
  · obtain ⟨h3, h4⟩ := jsSplit_cons sep rest i [] b
    rcases h4 with ⟨_, e⟩ | ⟨r2, _, e⟩
    · exact ⟨by rw [a, e], h1, h3⟩
    · exact absurd e (jsSplit_ne_nil sep r2)

theorem parseInt_digits (ds : List Char) (hne : ds ≠ [])
    (h : ∀ c ∈ ds, isDigit c = true) : parseInt ds = roundDouble (digitsValue ds : ℚ) := by
  obtain ⟨a, t, rfl⟩ := List.exists_cons_of_ne_nil hne
  have ha := h a (List.mem_cons_self _ _)
  have h1 : (a :: t).dropWhile isStrWhiteSpace = a :: t :=
    dropWhile_eq_self _ (fun c hc => by
      simp only [List.head?_cons, Option.some.injEq] at hc
      subst hc
      exact isDigit_not_ws ha)
  have h2 : splitSign (a :: t) = (false, a :: t) := by
    simpa [signPrefix] using splitSign_sign_digits false (a :: t) h
  have h3 : (a :: t).takeWhile isDigit = a :: t := List.takeWhile_eq_self_iff.mpr h
  have hx : ∀ r, a :: t ≠ '0' :: 'x' :: r := by
    intro r e
    have hb := h 'x' (by rw [e]; simp)
    revert hb; decide
  have hX : ∀ r, a :: t ≠ '0' :: 'X' :: r := by
    intro r e
    have hb := h 'X' (by rw [e]; simp)
    revert hb; decide
  have h4 : parseIntMagnitude (a :: t) = some (digitsValue (a :: t)) := by
    unfold parseIntMagnitude
    split
    · rename_i r e; exact absurd e (hx r)
    · rename_i r e; exact absurd e (hX r)
    · simp [h3]
  unfold parseInt
  simp only [h1, h2, h4]
  simp
/-- The parts of a vote token. -/
theorem isVoteToken_parts (v : String) (h : isVoteToken v = true) :
    ∃ t i : List Char, jsSplit ':' v.toList = [t, i] ∧ v.toList = t ++ ':' :: i ∧
      ':' ∉ t ∧ isCanonicalNat t = true ∧ i ≠ [] ∧ (∀ c ∈ i, isDigit c = true) ∧
      digitsValue t ≤ 2 ^ 53 ∧ digitsValue i ≤ 2 ^ 53 := by
  unfold isVoteToken at h
  split at h
  · rename_i t i hs
    obtain ⟨e, h1, _⟩ := jsSplit_pair ':' _ t i hs
    simp only [Bool.and_eq_true, Bool.not_eq_true', List.all_eq_true, decide_eq_true_eq] at h
    obtain ⟨⟨⟨⟨a, b⟩, c⟩, d⟩, f⟩ := h
    refine ⟨t, i, hs, e, h1, a, ?_, c, d, f⟩
    intro hi
    simp [hi] at b
  · simp at h

theorem tokenType_eq (v : String) (t i : List Char) (e : v.toList = t ++ ':' :: i)
    (ht : ':' ∉ t) : tokenType v = t := by
  unfold tokenType
  rw [e]
  exact takeWhile_append_stop _ _ _ _ (fun c hc => by
    simp only [decide_eq_true_eq]; rintro rfl; exact ht hc) (by decide)

theorem tokenId_eq (v : String) (t i : List Char) (e : v.toList = t ++ ':' :: i)
    (ht : ':' ∉ t) : tokenId v = digitsValue i := by
  unfold tokenId
  rw [e, dropWhile_append_stop _ _ _ _ (fun c hc => by
    simp only [decide_eq_true_eq]; rintro rfl; exact ht hc) (by decide)]
  rfl

/-- On vote tokens the comparator is the exact difference of the ids. -/
theorem voteComparator_tokens (x y : String) (hx : isVoteToken x = true)
    (hy : isVoteToken y = true) :
    voteComparator x y = .fin ((tokenId x : ℚ) - (tokenId y : ℚ)) := by
  obtain ⟨tx, ix, sx, ex, cx, _, nx, dx, _, bx⟩ := isVoteToken_parts x hx
  obtain ⟨ty, iy, sy, ey, cy, _, ny, dy, _, bY⟩ := isVoteToken_parts y hy
  rw [tokenId_eq x tx ix ex cx, tokenId_eq y ty iy ey cy]
  unfold voteComparator
  simp only [sx, sy, List.getElem?_cons_succ, List.getElem?_cons_zero, parseIntOf,
    parseInt_digits ix nx dx, parseInt_digits iy ny dy]
  have h1 := roundDouble_int (digitsValue ix : ℤ) (by
    rw [abs_of_nonneg (by positivity)]; exact_mod_cast bx)
  have h2 := roundDouble_int (digitsValue iy : ℤ) (by
    rw [abs_of_nonneg (by positivity)]; exact_mod_cast bY)
  simp only [Int.cast_natCast] at h1 h2
  rw [h1, h2]
  simp only [JSNumber.sub]
  have h3 := roundDouble_int ((digitsValue ix : ℤ) - (digitsValue iy : ℤ)) (by
    have a : (digitsValue ix : ℤ) ≤ 2 ^ 53 := by exact_mod_cast bx
    have b : (digitsValue iy : ℤ) ≤ 2 ^ 53 := by exact_mod_cast bY
    have c : (0 : ℤ) ≤ digitsValue ix := by positivity
    have d : (0 : ℤ) ≤ digitsValue iy := by positivity
    rw [abs_le]; constructor <;> omega)
  push_cast at h3
  exact h3

theorem voteComparator_le (x y : String) (hx : isVoteToken x = true)
    (hy : isVoteToken y = true) :
    (voteComparator x y).isPositive = false ↔ tokenId x ≤ tokenId y := by
  rw [voteComparator_tokens x y hx hy]
  simp only [JSNumber.isPositive, decide_eq_false_iff_not, sub_pos, not_lt, Nat.cast_le]

theorem orderedInsert_congr {α : Type} (r s : α → α → Prop) [DecidableRel r] [DecidableRel s]
    (a : α) (l : List α) (h : ∀ b ∈ l, (r a b ↔ s a b)) :
    l.orderedInsert r a = l.orderedInsert s a := by
  induction l with
  | nil => rfl
  | cons b t ih =>
    have hb := h b (List.mem_cons_self _ _)
    simp only [List.orderedInsert]
    by_cases hr : r a b
    · rw [if_pos hr, if_pos (hb.mp hr)]
    · rw [if_neg hr, if_neg (fun hs => hr (hb.mpr hs)),
        ih (fun c hc => h c (List.mem_cons_of_mem _ hc))]

theorem insertionSort_congr {α : Type} (r s : α → α → Prop) [DecidableRel r] [DecidableRel s]
    (l : List α) (h : ∀ a ∈ l, ∀ b ∈ l, (r a b ↔ s a b)) :
    l.insertionSort r = l.insertionSort s := by
  induction l with
  | nil => rfl
  | cons a t ih =>
    simp only [List.insertionSort]
    rw [ih (fun x hx y hy => h x (List.mem_cons_of_mem _ hx) y (List.mem_cons_of_mem _ hy))]
    apply orderedInsert_congr
    intro b hb
    exact h a (List.mem_cons_self _ _) b
      (List.mem_cons_of_mem _ ((List.mem_insertionSort s).mp hb))

/-- Sorting vote tokens with the comparator orders them by id. -/
theorem sortBy_tokens_sorted (l : List String) (h : ∀ v ∈ l, isVoteToken v = true) :
    (sortBy voteComparator l).Pairwise (fun x y => tokenId x ≤ tokenId y) := by
  unfold sortBy
  rw [insertionSort_congr _ (fun x y => tokenId x ≤ tokenId y) l
    (fun a ha b hb => voteComparator_le a b (h a ha) (h b hb))]
  haveI : IsTotal String (fun x y => tokenId x ≤ tokenId y) := ⟨fun a b => le_total _ _⟩
  haveI : IsTrans String (fun x y => tokenId x ≤ tokenId y) := ⟨fun a b c => le_trans⟩
  exact List.sorted_insertionSort (fun x y => tokenId x ≤ tokenId y) l

/-! ## Merging and sorting votes (C4, C5) -/

theorem mem_foldl_uniq (l acc : List String) (x : String) :
    x ∈ l.foldl (fun result value => if value ∈ result then result else result ++ [value]) acc
      ↔ x ∈ acc ∨ x ∈ l := by
  induction l generalizing acc with
  | nil => simp
  | cons a t ih =>
    simp only [List.foldl_cons, ih, List.mem_cons]
    by_cases ha : a ∈ acc
    · simp only [ha, if_true]
      constructor
      · rintro (h | h)
        · exact Or.inl h
        · exact Or.inr (Or.inr h)
      · rintro (h | h | h)
        · exact Or.inl h
        · exact Or.inl (h ▸ ha)
        · exact Or.inr h
    · simp only [ha, if_false, List.mem_append, List.mem_singleton]
      tauto

theorem nodup_foldl_uniq (l acc : List String) (h : acc.Nodup) :
    (l.foldl (fun result value => if value ∈ result then result else result ++ [value]) acc).Nodup := by
  induction l generalizing acc with
  | nil => simpa
  | cons a t ih =>
    simp only [List.foldl_cons]
    apply ih
    by_cases ha : a ∈ acc
    · simpa [ha] using h
    · simp only [ha, if_false]
      exact List.Nodup.append h (List.nodup_singleton a) (by
        intro x hx hx2
        rw [List.mem_singleton] at hx2
        exact ha (hx2 ▸ hx))

theorem mem_uniq (l : List String) (x : String) : x ∈ uniq l ↔ x ∈ l := by
  unfold uniq
  rw [mem_foldl_uniq]
  simp

theorem nodup_uniq (l : List String) : (uniq l).Nodup := by
  unfold uniq
  exact nodup_foldl_uniq l [] List.nodup_nil
theorem mem_mergedVotes (acc : Account) (results : List (Option VoteRecord)) (t : String) :
    t ∈ mergedVotes acc results ↔ t ∈ candidateVotes results ∨ t ∈ acc.options.votes := by
  unfold mergedVotes
  rw [mem_uniq, List.mem_append]

theorem votes_perm_merged (acc : Account) (parameters : ChainParameters)
    (results : List (Option VoteRecord)) :
    (voteNewOptions acc parameters results).votes.Perm (mergedVotes acc results) := by
  unfold voteNewOptions sortBy
  exact List.perm_insertionSort _ _

/-- The `new_options` of a successful `vote` are those of the lookup handler, run
on the client's own account object, the chain parameters, and the witness and
committee lookups of the candidate accounts in turn. -/
theorem vote_ok_inv (chain : Chain) (c : Client) (accounts : List String)
    (fee_symbol : Option String) (op : AccountUpdateOperation)
    (h : vote chain c accounts fee_symbol = .ok op) :
    ∃ (c1 : Client) (acc : Account) (parameters : ChainParameters),
      _connect chain c = (c1, none) ∧
      c1.account_id.bind chain.get_objects = some acc ∧
      chain.global_parameters = some parameters ∧
      op.new_options = voteNewOptions acc parameters
        ((((accounts.map fun a => chain.get_account_by_name (some a)).filterMap id).map
            Account.id).flatMap fun account_id =>
          [chain.get_witness_by_account account_id,
           chain.get_committee_member_by_account account_id]) := by
  unfold vote at h
  cases hcn : _connect chain c with
  | mk c1 oe =>
    cases oe with
    | some e => simp [hcn] at h
    | none =>
      simp only [hcn] at h
      split_ifs at h
      cases hacc : c1.account_id.bind chain.get_objects with
      | none => simp [hacc] at h
      | some acc =>
        simp only [hacc] at h
        split at h
        · simp at h
        · cases hgp : chain.global_parameters with
          | none => simp [hgp] at h
          | some parameters =>
            simp only [hgp, Except.ok.injEq] at h
            exact ⟨c1, acc, parameters, rfl, hacc, rfl, by rw [← h]⟩

/-- The worked example of the specification, through `vote` itself: `alice`,
holding `1:5` and `0:2`, votes for `bob` (witness `1:5`) and `carol` (witness
`1:7`) with `maximum_witness_count = 1`. -/
theorem vote_example :
    vote exampleChain exampleClient ["bob", "carol"] none
      = .ok { fee := { amount := .fin 0, asset_id := "1.3.1" }, account := some "1.2.100",
              new_options := { memo_key := "GXC6alice", voting_account := "1.2.5",
                               votes := ["0:2", "1:5", "1:7"], num_committee := 1,
                               num_witness := 1 } } := by
  decide!

theorem mergedVotes_tokens (acc : Account) (results : List (Option VoteRecord))
    (hE : ∀ v ∈ acc.options.votes, isVoteToken v = true)
    (hR : ∀ v ∈ candidateVotes results, isVoteToken v = true) :
    ∀ v ∈ mergedVotes acc results, isVoteToken v = true := by
  intro v hv
  rcases (mem_mergedVotes acc results v).mp hv with h | h
  · exact hR v h
  · exact hE v h

/-- **C4.**  For every existing vote list and every list of candidate lookup
results, all of them vote tokens `t:i`, the final `votes` array of `vote` is
sorted ascending by numeric id within each vote type: of two tokens of the same
type, the one placed first has the smaller or equal id. -/
theorem vote_sorted_within_type (acc : Account) (parameters : ChainParameters)
    (results : List (Option VoteRecord))
    (hE : ∀ v ∈ acc.options.votes, isVoteToken v = true)
    (hR : ∀ v ∈ candidateVotes results, isVoteToken v = true) :
    (voteNewOptions acc parameters results).votes.Pairwise
      (fun x y => tokenType x = tokenType y → tokenId x ≤ tokenId y) := by
  have h := sortBy_tokens_sorted (mergedVotes acc results) (mergedVotes_tokens acc results hE hR)
  have hv : (voteNewOptions acc parameters results).votes
      = sortBy voteComparator (mergedVotes acc results) := rfl
  rw [hv]
  exact List.Pairwise.imp (R := fun x y => tokenId x ≤ tokenId y)
    (S := fun x y => tokenType x = tokenType y → tokenId x ≤ tokenId y) (fun hxy _ => hxy) h

/-- Witness for `vote_sorted_within_type`: existing votes `1:5`, `0:2` with
candidates `1:5`, `1:7` give `0:2`, `1:5`, `1:7`. -/
theorem vote_sorted_within_type_witness :
    (voteNewOptions
        { id := "1.2.100",
          options := { memo_key := "GXC6alice", voting_account := none, votes := ["1:5", "0:2"] } }
        { maximum_committee_count := 11, maximum_witness_count := 11 }
        [some { vote_id := "1:5" }, none, some { vote_id := "1:7" }, none]).votes
      = ["0:2", "1:5", "1:7"] ∧
    (voteNewOptions
        { id := "1.2.100",
          options := { memo_key := "GXC6alice", voting_account := none, votes := ["1:5", "0:2"] } }
        { maximum_committee_count := 11, maximum_witness_count := 11 }
        [some { vote_id := "1:5" }, none, some { vote_id := "1:7" }, none]).votes.Pairwise
      (fun x y => tokenType x = tokenType y → tokenId x ≤ tokenId y) :=
  ⟨by decide!, vote_sorted_within_type _ _ _ (by decide!) (by decide!)⟩

/-- **C5.**  For every existing vote list and every list of lookup results, the
final `votes` array of `vote` has no duplicate token and holds exactly the
existing votes and the vote ids of the non-empty lookup results. -/
theorem vote_union_no_duplicates (acc : Account) (parameters : ChainParameters)
    (results : List (Option VoteRecord)) :
    (voteNewOptions acc parameters results).votes.Nodup ∧
      ∀ t : String, t ∈ (voteNewOptions acc parameters results).votes ↔
        (t ∈ acc.options.votes ∨ ∃ r : VoteRecord, some r ∈ results ∧ r.vote_id = t) := by
  have hp := votes_perm_merged acc parameters results
  refine ⟨hp.nodup_iff.mpr (nodup_uniq _), ?_⟩
  intro t
  rw [hp.mem_iff, mem_mergedVotes]
  have hc : t ∈ candidateVotes results ↔ ∃ r : VoteRecord, some r ∈ results ∧ r.vote_id = t := by
    unfold candidateVotes
    simp only [List.mem_map, List.mem_filterMap, id_eq, exists_eq_right]
  rw [hc]
  exact or_comm
/-! ## Counting and capping (C6) -/

theorem char_eq_of_toNat (c : Char) (n : ℕ) (h : c.toNat = n) : c = Char.ofNat n := by
  rw [← h, Char.ofNat_toNat]

theorem isDigit_bounds {c : Char} (h : isDigit c = true) : 48 ≤ c.toNat ∧ c.toNat ≤ 57 := by
  simp only [isDigit, Bool.and_eq_true, decide_eq_true_eq] at h
  exact ⟨h.1, h.2⟩

/-- A canonical natural number of value 1 is the string `1`. -/
theorem canonical_one (t : List Char) (hc : isCanonicalNat t = true) (hv : digitsValue t = 1) :
    t = ['1'] := by
  unfold isCanonicalNat at hc
  simp only [Bool.and_eq_true, Bool.not_eq_true', List.all_eq_true, Bool.or_eq_true, beq_iff_eq,
    bne_iff_ne, ne_eq] at hc
  obtain ⟨⟨hne, hd⟩, hz⟩ := hc
  cases t with
  | nil => simp at hne
  | cons d rest =>
    have hdb := isDigit_bounds (hd d (List.mem_cons_self _ _))
    cases rest with
    | nil =>
      have : d.toNat - 48 = 1 := by simpa [digitsValue] using hv
      have h49 : d.toNat = 49 := by omega
      rw [char_eq_of_toNat d 49 h49]
    | cons r rs =>
      exfalso
      have hd0 : d ≠ '0' := by
        rcases hz with h | h
        · simp at h
        · simpa using h
      have h48 : d.toNat ≠ 48 := by
        intro e
        exact hd0 (by rw [char_eq_of_toNat d 48 e])
      have happ := digitsValue_append [d] (r :: rs)
      simp only [List.singleton_append] at happ
      rw [happ] at hv
      have h1 : digitsValue [d] = d.toNat - 48 := by simp [digitsValue]
      have h2 : 1 ≤ digitsValue [d] := by rw [h1]; omega
      have h3 : 10 ≤ 10 ^ (r :: rs).length := by
        simp only [List.length_cons, pow_succ]
        have : 1 ≤ 10 ^ rs.length := Nat.one_le_pow _ _ (by norm_num)
        omega
      have h4 : 10 ≤ digitsValue [d] * 10 ^ (r :: rs).length :=
        le_trans h3 (Nat.le_mul_of_pos_left _ h2)
      omega

/-- On a vote token, `vote_type == 1` holds exactly when the type text is `1`. -/
theorem witness_test_token (v : String) (h : isVoteToken v = true) :
    stringToNumber ((jsSplit ':' v.toList).headD []) = .fin 1 ↔ tokenType v = ['1'] := by
  obtain ⟨t, i, hs, e, ht, hcan, _, _, bt, _⟩ := isVoteToken_parts v h
  rw [tokenType_eq v t i e ht, hs]
  simp only [List.headD_cons]
  constructor
  · intro hn
    have hc := hcan
    unfold isCanonicalNat at hc
    simp only [Bool.and_eq_true, Bool.not_eq_true', List.all_eq_true] at hc
    have hne : t ≠ [] := by
      intro e0; simp [e0] at hc
    have h1 := stringToNumber_sign_digits false t hne hc.1.2
    simp only [signPrefix, Bool.false_eq_true, if_false, List.nil_append] at h1
    rw [h1, roundDouble_int _ (by
      rw [abs_of_nonneg (by positivity)]; exact_mod_cast bt)] at hn
    simp only [JSNumber.fin.injEq] at hn
    have : digitsValue t = 1 := by exact_mod_cast hn
    exact canonical_one t hcan this
  · intro ht1
    rw [ht1]
    decide!

theorem committee_test_token (v : String) (h : isVoteToken v = true) :
    (jsSplit ':' v.toList).headD [] = ['0'] ↔ tokenType v = ['0'] := by
  obtain ⟨t, i, hs, e, ht, _, _, _, _, _⟩ := isVoteToken_parts v h
  rw [tokenType_eq v t i e ht, hs]
  simp only [List.headD_cons]

theorem countVotes_foldl (l : List String) (w c : ℕ) :
    l.foldl (fun (counts : ℕ × ℕ) v =>
        ((if stringToNumber ((jsSplit ':' v.toList).headD []) = .fin 1 then counts.1 + 1
            else counts.1),
          (if (jsSplit ':' v.toList).headD [] = ['0'] then counts.2 + 1 else counts.2))) (w, c)
      = (w + l.countP (fun v => decide (stringToNumber ((jsSplit ':' v.toList).headD []) = .fin 1)),
         c + l.countP (fun v => decide ((jsSplit ':' v.toList).headD [] = ['0']))) := by
  induction l generalizing w c with
  | nil => simp
  | cons a t ih =>
    simp only [List.foldl_cons, ih, List.countP_cons, decide_eq_true_eq]
    refine Prod.ext ?_ ?_
    · simp only []
      split_ifs <;> omega
    · simp only []
      split_ifs <;> omega

theorem countVotes_tokens (l : List String) (h : ∀ v ∈ l, isVoteToken v = true) :
    countVotes l = (l.countP (fun v => decide (tokenType v = ['1'])),
      l.countP (fun v => decide (tokenType v = ['0']))) := by
  unfold countVotes
  have := countVotes_foldl l 0 0
  simp only [Nat.zero_add] at this
  rw [this]
  congr 1
  · apply List.countP_congr
    intro v hv
    simp only [decide_eq_true_eq]
    exact witness_test_token v (h v hv)
  · apply List.countP_congr
    intro v hv
    simp only [decide_eq_true_eq]
    exact committee_test_token v (h v hv)

/-- **C6.**  For every merged vote set of vote tokens and every pair of chain
maxima, `num_witness` is the number of type-1 tokens of the merged set capped at
`maximum_witness_count`, `num_committee` the number of type-0 tokens capped at
`maximum_committee_count`, and the `votes` array is a rearrangement of the whole
merged set: the capping removes no token. -/
theorem vote_counts_clamped (acc : Account) (parameters : ChainParameters)
    (results : List (Option VoteRecord))
    (hE : ∀ v ∈ acc.options.votes, isVoteToken v = true)
    (hR : ∀ v ∈ candidateVotes results, isVoteToken v = true) :
    (voteNewOptions acc parameters results).num_witness
        = min ((mergedVotes acc results).countP (fun v => decide (tokenType v = ['1'])))
            parameters.maximum_witness_count ∧
      (voteNewOptions acc parameters results).num_committee
        = min ((mergedVotes acc results).countP (fun v => decide (tokenType v = ['0'])))
            parameters.maximum_committee_count ∧
      (voteNewOptions acc parameters results).votes.Perm (mergedVotes acc results) := by
  have hc := countVotes_tokens (mergedVotes acc results) (mergedVotes_tokens acc results hE hR)
  refine ⟨?_, ?_, votes_perm_merged acc parameters results⟩
  · show min (countVotes (mergedVotes acc results)).1 _ = _
    rw [hc]
  · show min (countVotes (mergedVotes acc results)).2 _ = _
    rw [hc]

/-- Witness for `vote_counts_clamped`: the witness votes `1:5` and `1:7` with
`maximum_witness_count = 1` give `num_witness = 1` and a `votes` array holding
both. -/
theorem vote_counts_clamped_witness :
    (voteNewOptions
        { id := "1.2.100",
          options := { memo_key := "GXC6alice", voting_account := none, votes := ["1:5"] } }
        { maximum_committee_count := 11, maximum_witness_count := 1 }
        [some { vote_id := "1:7" }, none]).num_witness = 1 ∧
    (voteNewOptions
        { id := "1.2.100",
          options := { memo_key := "GXC6alice", voting_account := none, votes := ["1:5"] } }
        { maximum_committee_count := 11, maximum_witness_count := 1 }
        [some { vote_id := "1:7" }, none]).votes = ["1:5", "1:7"] ∧
    (mergedVotes
        { id := "1.2.100",
          options := { memo_key := "GXC6alice", voting_account := none, votes := ["1:5"] } }
        [some { vote_id := "1:7" }, none]).countP (fun v => decide (tokenType v = ['1'])) = 2 := by
  have h := vote_counts_clamped
    { id := "1.2.100",
      options := { memo_key := "GXC6alice", voting_account := none, votes := ["1:5"] } }
    { maximum_committee_count := 11, maximum_witness_count := 1 }
    [some { vote_id := "1:7" }, none] (by decide!) (by decide!)
  refine ⟨?_, by decide!, by decide!⟩
  rw [h.1]
  decide!
/-! ## The memo and the fee of a transfer (C7 to C10) -/

/-- What a built transfer went through: the format check passed, `_connect`
succeeded, sender, recipient and asset were found, the memo step gave `mo`, and
the operation is assembled from these. -/
theorem transfer_built_inv (chain : Chain) (crypto : Crypto) (c : Client) (recipient : String)
    (memo : MemoArg) (s : String) (fee_symbol : Option String) (op : TransferOperation)
    (h : transfer chain crypto c recipient memo s fee_symbol = .built op) :
    ∃ (c1 : Client) (fromAcc toAcc : Account) (assetInfo : Asset) (mo : Option MemoObject),
      ' ' ∈ s.toList ∧
      _connect chain c = (c1, none) ∧
      c1.account_id.bind chain.get_objects = some fromAcc ∧
      chain.get_account_by_name (some recipient) = some toAcc ∧
      chain.lookup_asset_symbols (Option.map String.mk (amountPieces s)[1]?) = some assetInfo ∧
      (match memo with
        | .text m => transferTextMemo crypto c1 m (some fromAcc) toAcc = .ok mo
        | .provider f => f (some fromAcc) toAcc = some mo) ∧
      op = { fee := { amount := .fin 0,
                      asset_id := match (match fee_symbol with
                          | some sym =>
                            if truthy sym then chain.lookup_asset_symbols (some sym) else none
                          | none => none) with
                        | some f => if truthy f.id then f.id else assetInfo.id
                        | none => assetInfo.id },
             «from» := fromAcc.id, «to» := toAcc.id,
             amount := { amount := _accMult (numberOf (amountPieces s)[0]?)
                                      (mathPow10 assetInfo.precision),
                         asset_id := assetInfo.id },
             memo := mo } := by
  unfold transfer at h
  by_cases hs : ' ' ∉ s.toList
  · rw [if_pos hs] at h
    simp at h
  · rw [if_neg hs] at h
    cases hcn : _connect chain c with
    | mk c1 oe =>
      cases oe with
      | some e => simp [hcn] at h
      | none =>
        simp only [hcn] at h
        cases hto : chain.get_account_by_name (some recipient) with
        | none => simp [hto] at h
        | some toAcc =>
          cases has : chain.lookup_asset_symbols
              (Option.map String.mk (amountPieces s)[1]?) with
          | none => simp [hto, has] at h
          | some assetInfo =>
            simp only [hto, has] at h
            cases hfa : c1.account_id.bind chain.get_objects with
            | none =>
              cases memo with
              | text m =>
                cases hmo : transferTextMemo crypto c1 m none toAcc with
                | error e => simp [hfa, hmo] at h
                | ok mo => simp [hfa, hmo] at h
              | provider f =>
                cases hmo : f none toAcc with
                | none => simp [hfa, hmo] at h
                | some mo => simp [hfa, hmo] at h
            | some fromAcc =>
              simp only [hfa] at h
              cases memo with
              | text m =>
                cases hmo : transferTextMemo crypto c1 m (some fromAcc) toAcc with
                | error e => simp [hmo] at h
                | ok mo =>
                  simp only [hmo, TransferOutcome.built.injEq] at h
                  exact ⟨c1, fromAcc, toAcc, assetInfo, mo, not_not.mp hs, rfl, hfa, rfl, rfl,
                    hmo, h.symm⟩
              | provider f =>
                cases hmo : f (some fromAcc) toAcc with
                | none => simp [hmo] at h
                | some mo =>
                  simp only [hmo, TransferOutcome.built.injEq] at h
                  exact ⟨c1, fromAcc, toAcc, assetInfo, mo, not_not.mp hs, rfl, hfa, rfl, rfl,
                    hmo, h.symm⟩
/-- A transfer with a string memo that passes the format check, connects and
finds sender, recipient and asset ends as its memo step does. -/
theorem transfer_text_eval (chain : Chain) (crypto : Crypto) (c c1 : Client) (recipient : String)
    (m : String) (s : String) (fee_symbol : Option String) (fromAcc toAcc : Account)
    (assetInfo : Asset)
    (hs : ' ' ∈ s.toList)
    (hcn : _connect chain c = (c1, none))
    (hfa : c1.account_id.bind chain.get_objects = some fromAcc)
    (hto : chain.get_account_by_name (some recipient) = some toAcc)
    (has : chain.lookup_asset_symbols (Option.map String.mk (amountPieces s)[1]?)
      = some assetInfo) :
    transfer chain crypto c recipient (.text m) s fee_symbol
      = match transferTextMemo crypto c1 m (some fromAcc) toAcc with
        | .error e => .rejected e
        | .ok mo =>
          .built { fee := { amount := .fin 0,
                            asset_id := match (match fee_symbol with
                                | some sym =>
                                  if truthy sym then chain.lookup_asset_symbols (some sym)
                                  else none
                                | none => none) with
                              | some f => if truthy f.id then f.id else assetInfo.id
                              | none => assetInfo.id },
                   «from» := fromAcc.id, «to» := toAcc.id,
                   amount := { amount := _accMult (numberOf (amountPieces s)[0]?)
                                            (mathPow10 assetInfo.precision),
                               asset_id := assetInfo.id },
                   memo := mo } := by
  unfold transfer
  rw [if_neg (not_not.mpr hs)]
  simp only [hcn, hfa, hto, has]
  cases transferTextMemo crypto c1 m (some fromAcc) toAcc with
  | error e => rfl
  | ok mo => rfl

theorem transferMemoKeys_null_recipient (crypto : Crypto) (c : Client) (m : String)
    (fromAcc : Option Account) (toAcc : Account) (f t : Option String)
    (hnull : isNullKey toAcc.options.memo_key = true)
    (h : transferMemoKeys crypto c m fromAcc toAcc = .ok (f, t)) : t = none := by
  unfold transferMemoKeys at h
  by_cases hm : truthy m = true
  · rw [if_pos hm] at h
    cases fromAcc with
    | none => simp at h
    | some fa =>
      cases hp : crypto.toPublicKeyString c.private_key with
      | none => simp [hp] at h
      | some pub =>
        simp only [hp, hnull, if_true] at h
        split_ifs at h <;>
          (simp only [Except.ok.injEq, Prod.mk.injEq] at h; exact h.2.symm)
  · rw [if_neg hm] at h
    simp only [Except.ok.injEq, Prod.mk.injEq] at h
    exact h.2.symm

theorem transferTextMemo_null_recipient (crypto : Crypto) (c : Client) (m : String)
    (fromAcc : Option Account) (toAcc : Account) (mo : Option MemoObject)
    (hnull : isNullKey toAcc.options.memo_key = true)
    (h : transferTextMemo crypto c m fromAcc toAcc = .ok mo) : mo = none := by
  unfold transferTextMemo at h
  cases hk : transferMemoKeys crypto c m fromAcc toAcc with
  | error e => simp [hk] at h
  | ok p =>
    obtain ⟨f, t⟩ := p
    have ht := transferMemoKeys_null_recipient crypto c m fromAcc toAcc f t hnull hk
    subst ht
    cases f with
    | none =>
      simp only [hk, Except.ok.injEq] at h
      exact h.symm
    | some f =>
      simp only [hk, Except.ok.injEq] at h
      exact h.symm

/-- **C7.**  For every transfer with a string memo, empty or not, to a recipient
whose recorded memo key is the null placeholder key, the Transfer operation that
is built, if any, carries no memo object. -/
theorem transfer_null_recipient_no_memo (chain : Chain) (crypto : Crypto) (c : Client)
    (recipient : String) (m : String) (s : String) (fee_symbol : Option String)
    (toAcc : Account) (op : TransferOperation)
    (hto : chain.get_account_by_name (some recipient) = some toAcc)
    (hnull : isNullKey toAcc.options.memo_key = true)
    (h : transfer chain crypto c recipient (.text m) s fee_symbol = .built op) :
    op.memo = none := by
  obtain ⟨c1, fromAcc, toAcc1, assetInfo, mo, _, _, _, hto1, _, hmo, hop⟩ :=
    transfer_built_inv chain crypto c recipient (.text m) s fee_symbol op h
  rw [hto] at hto1
  simp only [Option.some.injEq] at hto1
  subst hto1
  rw [hop]
  exact transferTextMemo_null_recipient crypto c1 m (some fromAcc) toAcc mo hnull hmo

/-- Witness for `transfer_null_recipient_no_memo`: `alice` sends `10 GXC` with
the memo `hello` to `carol`, whose memo key is the null key; the operation is
built and has no memo. -/
theorem transfer_null_recipient_no_memo_witness :
    transfer exampleChain exampleCrypto exampleClient "carol" (.text "hello") "10 GXC" none
      = .built { fee := { amount := .fin 0, asset_id := "1.3.1" }, «from» := "1.2.100",
                 «to» := "1.2.300", amount := { amount := .fin 1000000, asset_id := "1.3.1" },
                 memo := none } ∧
    (TransferOperation.mk { amount := .fin 0, asset_id := "1.3.1" } "1.2.100" "1.2.300"
      { amount := .fin 1000000, asset_id := "1.3.1" } none).memo = none :=
  ⟨by decide!,
   transfer_null_recipient_no_memo exampleChain exampleCrypto exampleClient "carol" "hello"
     "10 GXC" none
     { id := "1.2.300", options := { memo_key := nullKey, voting_account := none, votes := [] } }
     _ (by decide!) (by decide!) (by decide!)⟩
theorem transferTextMemo_mismatch (crypto : Crypto) (c : Client) (m : String)
    (fromAcc toAcc : Account) (fromPublic : String)
    (hm : truthy m = true)
    (hp : crypto.toPublicKeyString c.private_key = some fromPublic)
    (hne : fromPublic ≠ fromAcc.options.memo_key) :
    transferTextMemo crypto c m (some fromAcc) toAcc = .error .memoSignerNotExist := by
  have hk : transferMemoKeys crypto c m (some fromAcc) toAcc = .error .memoSignerNotExist := by
    unfold transferMemoKeys
    simp only [hm, if_true, hp]
    rw [if_pos]
    split_ifs
    · simp
    · intro e
      simp only [Option.some.injEq] at e
      exact hne e.symm
  unfold transferTextMemo
  rw [hk]

/-- **C8 (amended).**  For every transfer with a non-empty string memo that
passes the format check, connects and finds the sender, the recipient and the
asset, if the public key derived from the held private key differs from the
sender account's recorded memo key, the transfer rejects with
`memo signer not exist` and no operation is built. -/
theorem transfer_memo_key_mismatch (chain : Chain) (crypto : Crypto) (c c1 : Client)
    (recipient : String) (m : String) (s : String) (fee_symbol : Option String)
    (fromAcc toAcc : Account) (assetInfo : Asset) (fromPublic : String)
    (hs : ' ' ∈ s.toList)
    (hcn : _connect chain c = (c1, none))
    (hfa : c1.account_id.bind chain.get_objects = some fromAcc)
    (hto : chain.get_account_by_name (some recipient) = some toAcc)
    (has : chain.lookup_asset_symbols (Option.map String.mk (amountPieces s)[1]?)
      = some assetInfo)
    (hm : truthy m = true)
    (hp : crypto.toPublicKeyString c1.private_key = some fromPublic)
    (hne : fromPublic ≠ fromAcc.options.memo_key) :
    transfer chain crypto c recipient (.text m) s fee_symbol = .rejected .memoSignerNotExist := by
  rw [transfer_text_eval chain crypto c c1 recipient m s fee_symbol fromAcc toAcc assetInfo
    hs hcn hfa hto has, transferTextMemo_mismatch crypto c1 m fromAcc toAcc fromPublic hm hp hne]

/-- Witness for `transfer_memo_key_mismatch`: a client of `alice` holding the
key `5Kother`, whose public key is not `alice`'s memo key, sends a memo to
`bob`. -/
theorem transfer_memo_key_mismatch_witness :
    transfer exampleChain exampleCrypto { exampleClient with private_key := "5Kother" } "bob"
      (.text "hello") "10 GXC" none = .rejected .memoSignerNotExist :=
  transfer_memo_key_mismatch exampleChain exampleCrypto
    { exampleClient with private_key := "5Kother" }
    { exampleClient with private_key := "5Kother", chain_id := "c2af30ef",
                         account_id := some "1.2.100", connected := true }
    "bob" "hello" "10 GXC" none
    { id := "1.2.100",
      options := { memo_key := "GXC6alice", voting_account := none, votes := ["1:5", "0:2"] } }
    { id := "1.2.200", options := { memo_key := "GXC7bob", voting_account := none, votes := [] } }
    { id := "1.3.1", precision := 5 } "GXC8other"
    (by decide!) (by decide!) (by decide!) (by decide!) (by decide!) (by decide!) (by decide!)
    (by decide!)

/-- **C8 (counterexample).**  With the empty memo the key check is skipped: the
client holding `5Kother` transfers to `bob` and the operation is built.  And
with an unknown recipient the rejection is the account error, not the memo
error. -/
theorem transfer_empty_memo_skips_key_check :
    exampleCrypto.toPublicKeyString "5Kother" = some "GXC8other" ∧
    (exampleChain.get_objects "1.2.100").map (fun a => a.options.memo_key) = some "GXC6alice" ∧
    transfer exampleChain exampleCrypto { exampleClient with private_key := "5Kother" } "bob"
      (.text "") "10 GXC" none
      = .built { fee := { amount := .fin 0, asset_id := "1.3.1" }, «from» := "1.2.100",
                 «to» := "1.2.200", amount := { amount := .fin 1000000, asset_id := "1.3.1" },
                 memo := none } ∧
    transfer exampleChain exampleCrypto { exampleClient with private_key := "5Kother" } "dave"
      (.text "hello") "10 GXC" none = .rejected (.accountNotExist "dave") := by
  decide!
theorem transferTextMemo_skip (crypto : Crypto) (c : Client) (m : String)
    (fromAcc toAcc : Account)
    (hp : crypto.toPublicKeyString c.private_key = some fromAcc.options.memo_key)
    (hfrom : isNullKey fromAcc.options.memo_key = false)
    (hnull : isNullKey toAcc.options.memo_key = true) :
    transferTextMemo crypto c m (some fromAcc) toAcc = .ok none := by
  cases hk : transferMemoKeys crypto c m (some fromAcc) toAcc with
  | error e =>
    exfalso
    unfold transferMemoKeys at hk
    simp only [hp, hfrom, hnull] at hk
    split_ifs at hk <;> simp_all
  | ok p =>
    obtain ⟨f, t⟩ := p
    have ht := transferMemoKeys_null_recipient crypto c m (some fromAcc) toAcc f t hnull hk
    subst ht
    unfold transferTextMemo
    rw [hk]
    cases f <;> rfl

/-- **C9 (amended).**  For every transfer with a string memo (non-empty, and
equally for the empty one) that passes the format check, connects and finds the
sender, the recipient and the asset, if the recipient's recorded memo key is the
null placeholder key and the sender's recorded memo key is a non-null key equal
to the public key derived from the held private key, memo encryption is
skipped: the transfer does not fail and the Transfer operation is built without
a memo object. -/
theorem transfer_null_recipient_skips_memo (chain : Chain) (crypto : Crypto) (c c1 : Client)
    (recipient : String) (m : String) (s : String) (fee_symbol : Option String)
    (fromAcc toAcc : Account) (assetInfo : Asset)
    (hs : ' ' ∈ s.toList)
    (hcn : _connect chain c = (c1, none))
    (hfa : c1.account_id.bind chain.get_objects = some fromAcc)
    (hto : chain.get_account_by_name (some recipient) = some toAcc)
    (has : chain.lookup_asset_symbols (Option.map String.mk (amountPieces s)[1]?)
      = some assetInfo)
    (hp : crypto.toPublicKeyString c1.private_key = some fromAcc.options.memo_key)
    (hfrom : isNullKey fromAcc.options.memo_key = false)
    (hnull : isNullKey toAcc.options.memo_key = true) :
    transfer chain crypto c recipient (.text m) s fee_symbol
      = .built { fee := { amount := .fin 0,
                          asset_id := match (match fee_symbol with
                              | some sym =>
                                if truthy sym then chain.lookup_asset_symbols (some sym)
                                else none
                              | none => none) with
                            | some f => if truthy f.id then f.id else assetInfo.id
                            | none => assetInfo.id },
                 «from» := fromAcc.id, «to» := toAcc.id,
                 amount := { amount := _accMult (numberOf (amountPieces s)[0]?)
                                          (mathPow10 assetInfo.precision),
                             asset_id := assetInfo.id },
                 memo := none } := by
  rw [transfer_text_eval chain crypto c c1 recipient m s fee_symbol fromAcc toAcc assetInfo
    hs hcn hfa hto has, transferTextMemo_skip crypto c1 m fromAcc toAcc hp hfrom hnull]

/-- Witness for `transfer_null_recipient_skips_memo`: `alice` sends the memo
`hello` to `carol`, whose memo key is the null key. -/
theorem transfer_null_recipient_skips_memo_witness :
    transfer exampleChain exampleCrypto exampleClient "carol" (.text "hello") "10 GXC" none
      = .built { fee := { amount := .fin 0, asset_id := "1.3.1" }, «from» := "1.2.100",
                 «to» := "1.2.300", amount := { amount := .fin 1000000, asset_id := "1.3.1" },
                 memo := none } :=
  (transfer_null_recipient_skips_memo exampleChain exampleCrypto exampleClient
    { exampleClient with chain_id := "c2af30ef", account_id := some "1.2.100", connected := true }
    "carol" "hello" "10 GXC" none
    { id := "1.2.100",
      options := { memo_key := "GXC6alice", voting_account := none, votes := ["1:5", "0:2"] } }
    { id := "1.2.300", options := { memo_key := nullKey, voting_account := none, votes := [] } }
    { id := "1.3.1", precision := 5 }
    (by decide!) (by decide!) (by decide!) (by decide!) (by decide!) (by decide!) (by decide!)
    (by decide!)).trans (by decide!)

/-- **C9 (counterexample).**  Two transfers with the non-empty memo `hello` in
which a recorded memo key is the null key, both rejected with
`memo signer not exist`: from `carol`, whose own memo key is the null key, to
`bob`; and to `carol` from a client of `alice` whose private key does not match
`alice`'s memo key. -/
theorem transfer_null_key_memo_rejected :
    isNullKey nullKey = true ∧
    (exampleChain.get_account_by_name (some "carol")).map (fun a => a.options.memo_key)
      = some nullKey ∧
    transfer exampleChain exampleCrypto
      { exampleClient with account_id_or_name := "carol", account := some "carol" } "bob"
      (.text "hello") "10 GXC" none = .rejected .memoSignerNotExist ∧
    transfer exampleChain exampleCrypto { exampleClient with private_key := "5Kother" } "carol"
      (.text "hello") "10 GXC" none = .rejected .memoSignerNotExist := by
  decide!
/-- **C10 (amended).**  For every successful transfer, the fee placeholder of the
Transfer operation has amount 0; its `asset_id` is the id of the looked-up fee
asset when `options.fee_symbol` is a non-empty symbol whose lookup finds an
asset with a non-empty id, and the id of the transferred asset in every other
case: when no `fee_symbol` is supplied, when it is the empty string, when its
lookup finds nothing, or when the asset found has no id. -/
theorem transfer_fee_placeholder (chain : Chain) (crypto : Crypto) (c : Client)
    (recipient : String) (memo : MemoArg) (s : String) (fee_symbol : Option String)
    (op : TransferOperation)
    (h : transfer chain crypto c recipient memo s fee_symbol = .built op) :
    op.fee.amount = .fin 0 ∧
      (∀ (sym : String) (feeInfo : Asset), fee_symbol = some sym → truthy sym = true →
        chain.lookup_asset_symbols (some sym) = some feeInfo → truthy feeInfo.id = true →
        op.fee.asset_id = feeInfo.id) ∧
      (fee_symbol = none → op.fee.asset_id = op.amount.asset_id) ∧
      (∀ sym : String, fee_symbol = some sym →
        (truthy sym = false ∨ chain.lookup_asset_symbols (some sym) = none ∨
          ∃ feeInfo : Asset, chain.lookup_asset_symbols (some sym) = some feeInfo ∧
            truthy feeInfo.id = false) →
        op.fee.asset_id = op.amount.asset_id) := by
  obtain ⟨c1, fromAcc, toAcc, assetInfo, mo, _, _, _, _, _, _, hop⟩ :=
    transfer_built_inv chain crypto c recipient memo s fee_symbol op h
  subst hop
  refine ⟨rfl, ?_, ?_, ?_⟩
  · intro sym feeInfo hsym ht hl hid
    subst hsym
    simp only [ht, if_true, hl, hid]
  · intro hnone
    subst hnone
    rfl
  · intro sym hsym hcases
    subst hsym
    rcases hcases with hf | hn | ⟨feeInfo, hl, hid⟩
    · simp only [hf, Bool.false_eq_true, if_false]
    · simp only [hn]
      split_ifs <;> rfl
    · simp only [hl]
      split_ifs <;> simp only [hid, Bool.false_eq_true, if_false]

/-- Witness for `transfer_fee_placeholder`: with `fee_symbol = "USD"` the fee
asset is `1.3.2`, the id of `USD`; without a `fee_symbol` it is `1.3.1`, the id
of the transferred `GXC`. -/
theorem transfer_fee_placeholder_witness :
    transfer exampleChain exampleCrypto exampleClient "bob" (.text "") "10 GXC" (some "USD")
      = .built (TransferOperation.mk { amount := .fin 0, asset_id := "1.3.2" } "1.2.100"
          "1.2.200" { amount := .fin 1000000, asset_id := "1.3.1" } none) ∧
    (TransferOperation.mk { amount := .fin 0, asset_id := "1.3.2" } "1.2.100" "1.2.200"
        { amount := .fin 1000000, asset_id := "1.3.1" } none).fee.asset_id = "1.3.2" ∧
    transfer exampleChain exampleCrypto exampleClient "bob" (.text "") "10 GXC" none
      = .built (TransferOperation.mk { amount := .fin 0, asset_id := "1.3.1" } "1.2.100"
          "1.2.200" { amount := .fin 1000000, asset_id := "1.3.1" } none) ∧
    (TransferOperation.mk { amount := .fin 0, asset_id := "1.3.1" } "1.2.100" "1.2.200"
        { amount := .fin 1000000, asset_id := "1.3.1" } none).fee.asset_id
      = (TransferOperation.mk { amount := .fin 0, asset_id := "1.3.1" } "1.2.100" "1.2.200"
        { amount := .fin 1000000, asset_id := "1.3.1" } none).amount.asset_id :=
  ⟨by decide!,
   (transfer_fee_placeholder exampleChain exampleCrypto exampleClient "bob" (.text "") "10 GXC"
      (some "USD") _ (by decide!)).2.1 "USD" { id := "1.3.2", precision := 4 } rfl (by decide!)
      (by decide!) (by decide!),
   by decide!,
   (transfer_fee_placeholder exampleChain exampleCrypto exampleClient "bob" (.text "") "10 GXC"
      none
      (TransferOperation.mk { amount := .fin 0, asset_id := "1.3.1" } "1.2.100" "1.2.200"
        { amount := .fin 1000000, asset_id := "1.3.1" } none) (by decide!)).2.2.1 rfl⟩

/-- **C10 (counterexample).**  A transfer of `10 GXC` with `fee_symbol = "XYZ"`,
a symbol no asset has: the lookup of the fee asset returns nothing, the transfer
succeeds all the same, and the fee placeholder carries `1.3.1`, the id of the
transferred asset; there is no looked-up fee asset whose id it could be. -/
theorem transfer_fee_unknown_symbol_falls_back :
    exampleChain.lookup_asset_symbols (some "XYZ") = none ∧
    transfer exampleChain exampleCrypto exampleClient "bob" (.text "") "10 GXC" (some "XYZ")
      = .built (TransferOperation.mk { amount := .fin 0, asset_id := "1.3.1" } "1.2.100"
          "1.2.200" { amount := .fin 1000000, asset_id := "1.3.1" } none) ∧
    exampleChain.lookup_asset_symbols (some "GXC")
      = some { id := "1.3.1", precision := 5 } := by
  decide!

/-! ## Lookups that find nothing (C11) -/

/-- **C11 (amended).**  For every transfer whose amount string passes the format
check and whose handshake succeeds: if the recipient account lookup returns
nothing the transfer rejects with the account-not-found error; if the recipient
is found and the asset lookup returns nothing it rejects with the
asset-not-found error; in both cases no operation is built, so no transaction is
created, signed or broadcast. -/
theorem transfer_not_found (chain : Chain) (crypto : Crypto) (c c1 : Client)
    (recipient : String) (memo : MemoArg) (s : String) (fee_symbol : Option String)
    (hs : ' ' ∈ s.toList)
    (hcn : _connect chain c = (c1, none)) :
    (chain.get_account_by_name (some recipient) = none →
      transfer chain crypto c recipient memo s fee_symbol
        = .rejected (.accountNotExist recipient)) ∧
    (∀ toAcc : Account, chain.get_account_by_name (some recipient) = some toAcc →
      chain.lookup_asset_symbols (Option.map String.mk (amountPieces s)[1]?) = none →
      transfer chain crypto c recipient memo s fee_symbol
        = .rejected (.assetNotExist (Option.map String.mk (amountPieces s)[1]?))) := by
  constructor
  · intro hto
    unfold transfer
    rw [if_neg (not_not.mpr hs)]
    simp only [hcn, hto]
  · intro toAcc hto has
    unfold transfer
    rw [if_neg (not_not.mpr hs)]
    simp only [hcn, hto, has]

/-- Witness for `transfer_not_found`: `alice` transfers `10 GXC` to the unknown
account `dave`, and `10 XYZ`, an unknown asset, to `bob`. -/
theorem transfer_not_found_witness :
    transfer exampleChain exampleCrypto exampleClient "dave" (.text "") "10 GXC" none
      = .rejected (.accountNotExist "dave") ∧
    transfer exampleChain exampleCrypto exampleClient "bob" (.text "") "10 XYZ" none
      = .rejected (.assetNotExist (some "XYZ")) :=
  ⟨(transfer_not_found exampleChain exampleCrypto exampleClient
      { exampleClient with chain_id := "c2af30ef", account_id := some "1.2.100",
                           connected := true }
      "dave" (.text "") "10 GXC" none (by decide!) (by decide!)).1 (by decide!),
   ((transfer_not_found exampleChain exampleCrypto exampleClient
      { exampleClient with chain_id := "c2af30ef", account_id := some "1.2.100",
                           connected := true }
      "bob" (.text "") "10 XYZ" none (by decide!) (by decide!)).2
      { id := "1.2.200", options := { memo_key := "GXC7bob", voting_account := none, votes := [] } }
      (by decide!) (by decide!)).trans (by decide!)⟩

/-- **C11 (counterexample).**  A transfer of `10 XYZ` to `dave`, where neither
the account `dave` nor the asset `XYZ` exists: the asset lookup returns nothing,
and the transfer rejects with the account error, not with the asset error. -/
theorem transfer_both_missing_account_error :
    ' ' ∈ "10 XYZ".toList ∧
    exampleChain.get_account_by_name (some "dave") = none ∧
    exampleChain.lookup_asset_symbols (Option.map String.mk (amountPieces "10 XYZ")[1]?) = none ∧
    transfer exampleChain exampleCrypto exampleClient "dave" (.text "") "10 XYZ" none
      = .rejected (.accountNotExist "dave") ∧
    transfer exampleChain exampleCrypto exampleClient "dave" (.text "") "10 XYZ" none
      ≠ .rejected (.assetNotExist (some "XYZ")) := by
  decide!
/-! ## `callContract` and a missing contract (C12) -/

/-- **C12 (amended).**  For every `callContract` invocation that connects,
passes the format check and finds the asset, the call fails with the
contract-not-found error if and only if the lookup of the target account
returns nothing; no operation is built then, so no transaction is created or
broadcast. -/
theorem callContract_not_found_iff (chain : Chain)
    (serializeCallData : String → String → Option String → Option String) (c c1 : Client)
    (contract_name method_name params : String) (amount_asset : Option String)
    (fee_symbol : Option String) (assetInfo : Asset)
    (hcn : _connect chain c = (c1, none))
    (hfmt : ∀ a : String, givenAmount amount_asset = some a → ' ' ∈ a.toList)
    (has : chain.lookup_asset_symbols (callContractAsset amount_asset) = some assetInfo) :
    callContract chain serializeCallData c contract_name method_name params amount_asset
        fee_symbol = .error .contractNotFound
      ↔ chain.get_account_by_name (some contract_name) = none := by
  have hns : (match givenAmount amount_asset with
      | some a => decide (' ' ∉ a.toList)
      | none => false) = false := by
    cases hg : givenAmount amount_asset with
    | none => rfl
    | some a => simpa using hfmt a hg
  unfold callContract
  simp only [hcn, hns, Bool.false_eq_true, if_false, has]
  cases hacc : chain.get_account_by_name (some contract_name) with
  | none => simp
  | some acc =>
    simp only
    cases serializeCallData method_name params acc.abi with
    | none => simp
    | some data => simp

/-- Witness for `callContract_not_found_iff`: a call to `nobody`, an account
that does not exist. -/
theorem callContract_not_found_iff_witness :
    callContract exampleChain strictSerializer exampleClient "nobody" "deposit" ""
      (some "10 GXC") none = .error .contractNotFound :=
  (callContract_not_found_iff exampleChain strictSerializer exampleClient
    { exampleClient with chain_id := "c2af30ef", account_id := some "1.2.100", connected := true }
    "nobody" "deposit" "" (some "10 GXC") none { id := "1.3.1", precision := 5 }
    (by decide!) (by decide!) (by decide!)).mpr (by decide!)

/-- **C12 (counterexample).**  The account `bob` exists and carries no ABI.  A
call to it does not fail with the contract-not-found error: the undefined ABI
goes to the encoder; when the encoder throws, that exception is the failure, and
when it does not, the operation is built. -/
theorem callContract_no_abi_not_contract_error :
    (exampleChain.get_account_by_name (some "bob")).map Account.abi = some none ∧
    callContract exampleChain strictSerializer exampleClient "bob" "deposit" ""
      (some "10 GXC") none = .error .serializerError ∧
    callContract exampleChain strictSerializer exampleClient "bob" "deposit" ""
      (some "10 GXC") none ≠ .error .contractNotFound ∧
    callContract exampleChain lenientSerializer exampleClient "bob" "deposit" ""
      (some "10 GXC") none
      = .ok { fee := { amount := .fin 0, asset_id := "1.3.1" }, account := some "1.2.100",
              contract_id := "1.2.200", method_name := "deposit", data := "call:deposit::",
              amount := some { amount := .fin 1000000, asset_id := "1.3.1" } } := by
  decide!
/-! ## The handshake (C13, C20) -/

theorem connect_connected (chain : Chain) (c : Client) (h : c.connected = true) :
    _connect chain c = (c, none) := by
  unfold _connect
  rw [if_pos h]

theorem connectTimes_connected (chain : Chain) (n : ℕ) (c : Client) (h : c.connected = true) :
    connectTimes chain n c = (c, []) := by
  induction n with
  | zero => rfl
  | succ n ih =>
    unfold connectTimes
    simp only [connect_connected chain c h, ih, _connectQueries, h, if_true, List.append_nil]

/-- A `_connect` that succeeds leaves the client connected. -/
theorem connect_success_connected (chain : Chain) (c c1 : Client)
    (h : _connect chain c = (c1, none)) : c1.connected = true := by
  unfold _connect at h
  by_cases hc : c.connected = true
  · rw [if_pos hc] at h
    simp only [Prod.mk.injEq, and_true] at h
    rw [← h]; exact hc
  · rw [if_neg hc] at h
    cases hacc : chain.get_account_by_name c.account with
    | none => simp [hacc] at h
    | some acc =>
      simp only [hacc, Prod.mk.injEq, and_true] at h
      rw [← h]

/-- **C13.**  For every client state with `connected = true`, a call to
`_connect` sends no query, neither the account lookup nor the chain-id lookup,
and leaves the client, hence `chain_id`, `account_id` and `connected`,
unchanged; and so does any number of `_connect` calls in a row: no query at
all. -/
theorem connect_idempotent (chain : Chain) (c : Client) (h : c.connected = true) :
    _connectQueries c = [] ∧ _connect chain c = (c, none) ∧
      ∀ n : ℕ, connectTimes chain n c = (c, []) := by
  refine ⟨?_, connect_connected chain c h, fun n => connectTimes_connected chain n c h⟩
  unfold _connectQueries
  rw [if_pos h]

/-- Witness for `connect_idempotent`: the client of `alice` after one
successful `_connect`; three more calls send nothing, while the first one sent
the two handshake queries. -/
theorem connect_idempotent_witness :
    _connectQueries exampleClient = [.get_account_by_name (some "alice"), .get_chain_id] ∧
    (_connect exampleChain exampleClient).2 = none ∧
    (_connect exampleChain exampleClient).1.connected = true ∧
    connectTimes exampleChain 3 (_connect exampleChain exampleClient).1
      = ((_connect exampleChain exampleClient).1, []) :=
  ⟨by decide!, by decide!, by decide!,
   (connect_idempotent exampleChain (_connect exampleChain exampleClient).1 (by decide!)).2.2 3⟩

/-- **C20.**  A client constructed with an identifier of the id form has
`account` unset, so the handshake queries `get_account_by_name` with an
undefined name, never the identifier; and a `_connect` that succeeds stores the
id of whatever account that query returned.  On the example chain, where the
account `1.2.100` exists, the query finds nothing and `_connect` rejects with a
`TypeError`. -/
theorem connect_id_client (chain : Chain) (private_key account_id : String)
    (entry_point : String) (signProvider : Bool) :
    isAccountIdForm account_id.toList = true →
    (constructor private_key account_id entry_point signProvider).account = none ∧
    (constructor private_key account_id entry_point signProvider).account_id = some account_id ∧
    _connectQueries (constructor private_key account_id entry_point signProvider)
      = [.get_account_by_name none, .get_chain_id] ∧
    (chain.get_account_by_name none = none →
      (_connect chain (constructor private_key account_id entry_point signProvider)).2
        = some .typeError) ∧
    (∀ acc : Account, chain.get_account_by_name none = some acc →
      (_connect chain (constructor private_key account_id entry_point signProvider)).1.account_id
        = some acc.id) := by
  intro h
  have h1 : isAccountIdForm account_id.data = true := h
  refine ⟨by simp [constructor, h1], by simp [constructor, h1],
    by simp [_connectQueries, constructor, h1], ?_, ?_⟩
  · intro hn
    simp [_connect, constructor, h1, hn]
  · intro acc ha
    simp [_connect, constructor, h1, ha]

/-- Witness for `connect_id_client`: the client constructed with `1.2.100`, the
id of `alice`, on the example chain. -/
theorem connect_id_client_witness :
    (exampleChain.get_objects "1.2.100").map Account.id = some "1.2.100" ∧
    _connectQueries (constructor "5Kalice" "1.2.100" "wss://node1.gxb.io" false)
      = [.get_account_by_name none, .get_chain_id] ∧
    (_connect exampleChain (constructor "5Kalice" "1.2.100" "wss://node1.gxb.io" false)).2
      = some .typeError :=
  ⟨by decide!,
   (connect_id_client exampleChain "5Kalice" "1.2.100" "wss://node1.gxb.io" false
      (by decide!)).2.2.1,
   (connect_id_client exampleChain "5Kalice" "1.2.100" "wss://node1.gxb.io" false
      (by decide!)).2.2.2.1 (by decide!)⟩

/-! ## Head tracking (C18) -/

/-- On a resolved query the next poll is scheduled after 3000 ms, and when the
query returned an object the cached `latestBlock` is its
`last_irreversible_block_num`. -/
theorem latestBlockTask_resolved (c : Client) (obj : Option ℕ) :
    (_latestBlockTask true c (.resolved obj)).2 = some 3000 ∧
      ∀ n : ℕ, obj = some n → (_latestBlockTask true c (.resolved obj)).1.latestBlock = some n := by
  cases obj with
  | none => simp [_latestBlockTask]
  | some n =>
    refine ⟨by simp [_latestBlockTask], ?_⟩
    intro m hm
    simp only [Option.some.injEq] at hm
    subst hm
    simp only [_latestBlockTask, Bool.not_true, Bool.and_false, Bool.false_eq_true, if_false]
    split_ifs with h1
    · rfl
    · simpa using h1

/-- **C18.**  When the head-height query rejects, `_latestBlockTask` schedules
nothing, whether forced or called for the first time: the `then` handler that
holds the `setTimeout` does not run and there is no `catch`.  The task stays
marked as started, so a later unforced call returns at once and schedules
nothing either. -/
theorem latestBlockTask_rejected_stops (c : Client) :
    (_latestBlockTask true c .rejected).2 = none ∧
      (_latestBlockTask true c .rejected).1.isTaskStarted = true ∧
      ∀ outcome : HeadQueryOutcome,
        (_latestBlockTask false (_latestBlockTask true c .rejected).1 outcome).2 = none := by
  refine ⟨by simp [_latestBlockTask], by simp [_latestBlockTask], ?_⟩
  intro outcome
  simp [_latestBlockTask]
/-! ## The pipeline (C14, C19) -/

/-- **C14.**  For every transaction handed to `_processTransaction`, if
`update_head_block` or `set_required_fees` rejects, the only calls made on the
builder are these two: no signer is attached, no expiration is set, none of
`broadcast`, `finalize`, `sign`, `serialize` is called; and the pipeline rejects
with the reason of a rejected one of the two. -/
theorem processTransaction_early_failure (crypto : Crypto) (c : Client) (tr : BuilderOutcomes)
    (DEFUALT_EXPIRE_SEC : ℕ) (broadcast : Bool)
    (h : tr.update_head_block ≠ none ∨ tr.set_required_fees ≠ none) :
    (_processTransaction crypto c tr DEFUALT_EXPIRE_SEC broadcast).1
        = [.update_head_block, .set_required_fees] ∧
      ∃ reason : String,
        (_processTransaction crypto c tr DEFUALT_EXPIRE_SEC broadcast).2
            = .error (.builder reason) ∧
          (tr.update_head_block = some reason ∨ tr.set_required_fees = some reason) := by
  unfold _processTransaction
  cases hh : tr.update_head_block with
  | none =>
    cases hf : tr.set_required_fees with
    | none => simp [hh, hf] at h
    | some fees => exact ⟨rfl, fees, rfl, Or.inr rfl⟩
  | some head =>
    cases hf : tr.set_required_fees with
    | none => exact ⟨rfl, head, rfl, Or.inl rfl⟩
    | some fees =>
      refine ⟨rfl, if tr.headRejectsFirst then head else fees, rfl, ?_⟩
      cases tr.headRejectsFirst <;> simp

/-- Witness for `processTransaction_early_failure`: fee resolution rejects. -/
theorem processTransaction_early_failure_witness :
    _processTransaction exampleCrypto exampleClient
        { exampleBuilder with set_required_fees := some "insufficient balance" } 120 true
      = ([.update_head_block, .set_required_fees], .error (.builder "insufficient balance")) := by
  have h := processTransaction_early_failure exampleCrypto exampleClient
    { exampleBuilder with set_required_fees := some "insufficient balance" } 120 true
    (Or.inr (by decide))
  exact Prod.ext h.1 (by decide!)

/-- **C19.**  For every successful run of `_processTransaction`:
`update_head_block` and `set_required_fees` are called and both fulfil; then the
private key is attached as signer, exactly when no `signProvider` is configured
and a private key is held; then the expiration is set; then one terminal action
runs: `broadcast` when the flag is set, otherwise `finalize`, `sign`,
`serialize` in this order. -/
theorem processTransaction_order (crypto : Crypto) (c : Client) (tr : BuilderOutcomes)
    (DEFUALT_EXPIRE_SEC : ℕ) (broadcast : Bool) (result : String)
    (h : (_processTransaction crypto c tr DEFUALT_EXPIRE_SEC broadcast).2 = .ok result) :
    tr.update_head_block = none ∧ tr.set_required_fees = none ∧
      (_processTransaction crypto c tr DEFUALT_EXPIRE_SEC broadcast).1
        = [.update_head_block, .set_required_fees]
          ++ (if c.signProvider = false ∧ truthy c.private_key = true
              then [.add_signer c.private_key] else [])
          ++ [.set_expire_seconds DEFUALT_EXPIRE_SEC]
          ++ (if broadcast = true then [.broadcast] else [.finalize, .sign, .serialize]) := by
  unfold _processTransaction at h ⊢
  cases hh : tr.update_head_block with
  | some head =>
    cases hf : tr.set_required_fees <;> simp [hh, hf] at h
  | none =>
    cases hf : tr.set_required_fees with
    | some fees => simp [hh, hf] at h
    | none =>
      simp only [hh, hf] at h ⊢
      refine ⟨trivial, trivial, ?_⟩
      have hterm : ∀ r, (terminalAction tr broadcast).2 = .ok r →
          (terminalAction tr broadcast).1
            = if broadcast = true then [.broadcast] else [.finalize, .sign, .serialize] := by
        intro r hr
        unfold terminalAction at hr ⊢
        cases broadcast with
        | true => simp
        | false =>
          simp only [Bool.false_eq_true, if_false] at hr ⊢
          cases hfin : tr.finalize with
          | some e => simp [hfin] at hr
          | none =>
            cases hsig : tr.sign with
            | some e => simp [hfin, hsig] at hr
            | none => rfl
      cases hsp : c.signProvider with
      | true =>
        simp only [hsp, Bool.not_true, Bool.false_eq_true, if_false] at h ⊢
        rw [hterm result h]
        simp
      | false =>
        simp only [hsp, Bool.not_false, if_true] at h ⊢
        by_cases hk : truthy c.private_key = true
        · simp only [hk, if_true] at h ⊢
          cases hpk : crypto.toPublicKeyString c.private_key with
          | none => simp [hpk] at h
          | some pub =>
            simp only [hpk] at h ⊢
            rw [hterm result h]
            simp
        · simp only [hk, if_false] at h ⊢
          rw [hterm result h]
          simp [hk]

/-- Witness for `processTransaction_order`: the client of `alice`, who holds a
private key and has no `signProvider`, with a builder all of whose promises
fulfil, first without and then with broadcast. -/
theorem processTransaction_order_witness :
    (_processTransaction exampleCrypto exampleClient exampleBuilder 120 false).1
      = [.update_head_block, .set_required_fees, .add_signer "5Kalice",
         .set_expire_seconds 120, .finalize, .sign, .serialize] ∧
    (_processTransaction exampleCrypto exampleClient exampleBuilder 120 true).1
      = [.update_head_block, .set_required_fees, .add_signer "5Kalice",
         .set_expire_seconds 120, .broadcast] :=
  ⟨((processTransaction_order exampleCrypto exampleClient exampleBuilder 120 false "serialized"
      (by decide!)).2.2).trans (by decide!),
   ((processTransaction_order exampleCrypto exampleClient exampleBuilder 120 true "receipt"
      (by decide!)).2.2).trans (by decide!)⟩
/-! ## One scan of a block (C17) -/

theorem existLoop_foldl (account_id : Option String) (fields : List (String × FieldValue))
    (b : Bool) :
    fields.foldl (fun exist field => if strictEquals field.2 account_id then true else exist) b
      = (b || fields.any fun field => strictEquals field.2 account_id) := by
  induction fields generalizing b with
  | nil => simp
  | cons f t ih =>
    simp only [List.foldl_cons, List.any_cons, ih]
    cases strictEquals f.2 account_id <;> cases b <;> simp

/-- The `exist` loop finds exactly the matching operations. -/
theorem existLoop_eq_isMatch (account_id : Option String) (op : Operation) :
    existLoop account_id op = isMatch account_id op := by
  unfold existLoop isMatch
  rw [existLoop_foldl]
  simp

theorem scanOperations_threw (account_id : Option String) (callback : Option Callback)
    (h : ℕ) (txid : Option String) (ops : List Operation) (st : ScanState)
    (ht : st.threw = true) : scanOperations account_id callback h txid ops st = st := by
  unfold scanOperations
  induction ops with
  | nil => rfl
  | cons op t ih =>
    simp only [List.foldl_cons, ht, if_true]
    exact ih

theorem scanOperations_cons (account_id : Option String) (callback : Option Callback)
    (h : ℕ) (txid : Option String) (op : Operation) (ops : List Operation) (st : ScanState) :
    scanOperations account_id callback h txid (op :: ops) st
      = scanOperations account_id callback h txid ops
          (scanOperations account_id callback h txid [op] st) := by
  unfold scanOperations
  rfl

/-- A scan of operations that ends without an exception has invoked the
callback on each matching operation, once, in order. -/
theorem scanOperations_deliveries (account_id : Option String) (cb : Callback)
    (h : ℕ) (txid : Option String) (ops : List Operation) (st : ScanState)
    (h0 : st.threw = false)
    (h1 : (scanOperations account_id (some cb) h txid ops st).threw = false) :
    (scanOperations account_id (some cb) h txid ops st).deliveries
      = st.deliveries ++ (ops.filter (isMatch account_id)).map fun op =>
          { blockHeight := h, txid := txid, op := op } := by
  induction ops generalizing st with
  | nil => simp [scanOperations]
  | cons op t ih =>
    rw [scanOperations_cons] at h1 ⊢
    have hstep : scanOperations account_id (some cb) h txid [op] st
        = if isMatch account_id op then
            { deliveries := st.deliveries ++ [{ blockHeight := h, txid := txid, op := op }],
              threw := !cb h txid op }
          else st := by
      simp [scanOperations, h0, existLoop_eq_isMatch]
    by_cases hm : isMatch account_id op = true
    · rw [hstep, if_pos hm] at h1 ⊢
      have hth : (!cb h txid op) = false := by
        by_contra hne
        have htrue : (!cb h txid op) = true := by simpa using hne
        rw [scanOperations_threw _ _ _ _ _ _ htrue] at h1
        simp [htrue] at h1
      rw [ih _ hth h1]
      simp [hm]
    · rw [hstep, if_neg hm] at h1 ⊢
      rw [ih st h0 h1]
      simp [hm]

/-- With a callback that always returns, a scan of operations does not throw. -/
theorem scanOperations_returns (account_id : Option String) (cb : Callback)
    (hcb : ∀ h t op, cb h t op = true)
    (h : ℕ) (txid : Option String) (ops : List Operation) (st : ScanState)
    (h0 : st.threw = false) :
    (scanOperations account_id (some cb) h txid ops st).threw = false := by
  induction ops generalizing st with
  | nil => simpa [scanOperations] using h0
  | cons op t ih =>
    rw [scanOperations_cons]
    apply ih
    simp only [scanOperations, List.foldl_cons, List.foldl_nil, h0, Bool.false_eq_true, if_false]
    split_ifs
    · simp [hcb]
    · exact h0

/-- Without a callback nothing is invoked. -/
theorem scanOperations_none (account_id : Option String)
    (h : ℕ) (txid : Option String) (ops : List Operation) (st : ScanState) :
    scanOperations account_id none h txid ops st = st := by
  unfold scanOperations
  induction ops with
  | nil => rfl
  | cons op t ih =>
    simp only [List.foldl_cons]
    have : (if st.threw = true then st else if existLoop account_id op = true then st else st) = st := by
      split_ifs <;> rfl
    rw [this]
    exact ih
theorem blockFold_threw (account_id : Option String) (callback : Option Callback) (h : ℕ)
    (ids : List String) (its : List (ℕ × Transaction)) (st : ScanState)
    (ht : st.threw = true) :
    its.foldl (fun st it =>
        if st.threw then st
        else scanOperations account_id callback h ids[it.1]? it.2.operations st) st = st := by
  induction its with
  | nil => rfl
  | cons it t ih =>
    simp only [List.foldl_cons, ht, if_true]
    exact ih

theorem blockFold_deliveries (account_id : Option String) (cb : Callback) (h : ℕ)
    (ids : List String) (its : List (ℕ × Transaction)) (st : ScanState)
    (h0 : st.threw = false)
    (h1 : (its.foldl (fun st it =>
        if st.threw then st
        else scanOperations account_id (some cb) h ids[it.1]? it.2.operations st) st).threw
          = false) :
    (its.foldl (fun st it =>
        if st.threw then st
        else scanOperations account_id (some cb) h ids[it.1]? it.2.operations st) st).deliveries
      = st.deliveries ++ its.flatMap fun it =>
          (it.2.operations.filter (isMatch account_id)).map fun op =>
            { blockHeight := h, txid := ids[it.1]?, op := op } := by
  induction its generalizing st with
  | nil => simp
  | cons it t ih =>
    simp only [List.foldl_cons, h0, Bool.false_eq_true, if_false] at h1 ⊢
    have hth : (scanOperations account_id (some cb) h ids[it.1]? it.2.operations st).threw
        = false := by
      by_contra hne
      have htrue : (scanOperations account_id (some cb) h ids[it.1]? it.2.operations st).threw
          = true := by simpa using hne
      rw [blockFold_threw _ _ _ _ _ _ htrue] at h1
      rw [htrue] at h1
      exact absurd h1 (by decide)
    rw [ih _ hth h1, scanOperations_deliveries _ _ _ _ _ _ h0 hth]
    simp [List.flatMap_cons]

theorem blockFold_returns (account_id : Option String) (cb : Callback)
    (hcb : ∀ h t op, cb h t op = true) (h : ℕ)
    (ids : List String) (its : List (ℕ × Transaction)) (st : ScanState)
    (h0 : st.threw = false) :
    (its.foldl (fun st it =>
        if st.threw then st
        else scanOperations account_id (some cb) h ids[it.1]? it.2.operations st) st).threw
      = false := by
  induction its generalizing st with
  | nil => simpa using h0
  | cons it t ih =>
    simp only [List.foldl_cons, h0, Bool.false_eq_true, if_false]
    exact ih _ (scanOperations_returns _ _ hcb _ _ _ _ h0)

theorem blockFold_none (account_id : Option String) (h : ℕ)
    (ids : List String) (its : List (ℕ × Transaction)) (st : ScanState) :
    its.foldl (fun st it =>
        if st.threw then st
        else scanOperations account_id none h ids[it.1]? it.2.operations st) st = st := by
  induction its with
  | nil => rfl
  | cons it t ih =>
    rw [List.foldl_cons]
    have : (if st.threw = true then st
        else scanOperations account_id none h ids[it.1]? it.2.operations st) = st := by
      rw [scanOperations_none, ite_self]
    rw [this]
    exact ih

/-- A scan of a block that ends without an exception has invoked the callback
on each match of the block, once, in order. -/
theorem scanBlock_deliveries (account_id : Option String) (cb : Callback) (h : ℕ)
    (block : Block) (h1 : (scanBlock account_id (some cb) h block).threw = false) :
    (scanBlock account_id (some cb) h block).deliveries = blockMatches account_id h block := by
  unfold scanBlock at h1 ⊢
  rw [blockFold_deliveries account_id cb h block.transaction_ids _ _ rfl h1]
  rfl

theorem scanBlock_none (account_id : Option String) (h : ℕ) (block : Block) :
    scanBlock account_id none h block = { deliveries := [], threw := false } := by
  unfold scanBlock
  exact blockFold_none account_id h block.transaction_ids _ _

theorem throughFirstThrow_cons (cb : Callback) (d : Delivery) (ds : List Delivery) :
    throughFirstThrow cb (d :: ds)
      = if returnsOn cb d then d :: throughFirstThrow cb ds else [d] := by
  unfold throughFirstThrow
  cases h : returnsOn cb d <;> simp [List.takeWhile_cons, List.dropWhile_cons, h]

theorem throughFirstThrow_all (cb : Callback) (ms : List Delivery)
    (h : ms.all (returnsOn cb) = true) : throughFirstThrow cb ms = ms := by
  induction ms with
  | nil => rfl
  | cons d ds ih =>
    rw [List.all_cons, Bool.and_eq_true] at h
    rw [throughFirstThrow_cons, if_pos h.1, ih h.2]

theorem throughFirstThrow_append (cb : Callback) (a b : List Delivery) :
    throughFirstThrow cb (a ++ b)
      = if a.all (returnsOn cb) then a ++ throughFirstThrow cb b
        else throughFirstThrow cb a := by
  induction a with
  | nil => rfl
  | cons d ds ih =>
    rw [List.cons_append, throughFirstThrow_cons, throughFirstThrow_cons, ih, List.all_cons]
    cases h1 : returnsOn cb d <;> cases h2 : ds.all (returnsOn cb) <;> simp

/-- A scan of operations, whatever the callback does: it is invoked on the
matching operations in order, through the first invocation that throws. -/
theorem scanOperations_through (account_id : Option String) (cb : Callback)
    (h : ℕ) (txid : Option String) (ops : List Operation) (st : ScanState)
    (h0 : st.threw = false) :
    scanOperations account_id (some cb) h txid ops st
      = { deliveries := st.deliveries ++ throughFirstThrow cb
            ((ops.filter (isMatch account_id)).map fun op =>
              { blockHeight := h, txid := txid, op := op }),
          threw := !((ops.filter (isMatch account_id)).map fun op =>
              ({ blockHeight := h, txid := txid, op := op } : Delivery)).all (returnsOn cb) } := by
  induction ops generalizing st with
  | nil =>
    cases st with
    | mk d t =>
      simp only at h0
      subst h0
      simp [scanOperations, throughFirstThrow]
  | cons op t ih =>
    rw [scanOperations_cons]
    have hstep : scanOperations account_id (some cb) h txid [op] st
        = if isMatch account_id op then
            { deliveries := st.deliveries ++ [{ blockHeight := h, txid := txid, op := op }],
              threw := !cb h txid op }
          else st := by
      simp [scanOperations, h0, existLoop_eq_isMatch]
    by_cases hm : isMatch account_id op = true
    · rw [hstep, if_pos hm]
      cases hc : cb h txid op with
      | true =>
        rw [ih _ (by simp)]
        simp [hm, throughFirstThrow_cons, returnsOn, hc]
      | false =>
        rw [scanOperations_threw _ _ _ _ _ _ (by simp)]
        simp [hm, throughFirstThrow_cons, returnsOn, hc]
    · rw [hstep, if_neg hm, ih st h0]
      simp [hm]

theorem blockFold_through (account_id : Option String) (cb : Callback) (h : ℕ)
    (ids : List String) (its : List (ℕ × Transaction)) (st : ScanState)
    (h0 : st.threw = false) :
    its.foldl (fun st it =>
        if st.threw then st
        else scanOperations account_id (some cb) h ids[it.1]? it.2.operations st) st
      = { deliveries := st.deliveries ++ throughFirstThrow cb
            (its.flatMap fun it =>
              (it.2.operations.filter (isMatch account_id)).map fun op =>
                { blockHeight := h, txid := ids[it.1]?, op := op }),
          threw := !(its.flatMap fun it =>
              (it.2.operations.filter (isMatch account_id)).map fun op =>
                ({ blockHeight := h, txid := ids[it.1]?, op := op } : Delivery)).all
                  (returnsOn cb) } := by
  induction its generalizing st with
  | nil =>
    cases st with
    | mk d t =>
      simp only at h0
      subst h0
      simp [throughFirstThrow]
  | cons it t ih =>
    simp only [List.foldl_cons, h0, Bool.false_eq_true, if_false]
    rw [scanOperations_through account_id cb h ids[it.1]? it.2.operations st h0]
    rw [List.flatMap_cons, throughFirstThrow_append, List.all_append]
    cases hall : ((it.2.operations.filter (isMatch account_id)).map fun op =>
        ({ blockHeight := h, txid := ids[it.1]?, op := op } : Delivery)).all (returnsOn cb) with
    | true =>
      rw [ih _ (by simp)]
      simp [throughFirstThrow_all cb _ hall]
    | false =>
      rw [blockFold_threw _ _ _ _ _ _ (by simp)]
      simp

/-- One scan of a block, whatever the callback does. -/
theorem scanBlock_through (account_id : Option String) (cb : Callback) (h : ℕ)
    (block : Block) :
    scanBlock account_id (some cb) h block
      = { deliveries := throughFirstThrow cb (blockMatches account_id h block),
          threw := !(blockMatches account_id h block).all (returnsOn cb) } := by
  unfold scanBlock blockMatches
  rw [blockFold_through account_id cb h block.transaction_ids _ _ rfl]
  simp

/-- **C17 (amended).**  For every fetched block and every callback, one scan of
the block invokes the callback on the matches of the block, that is on the
operations with at least one top-level payload field strictly equal to the
watched account id, each once however many fields match, with the block height,
`block.transaction_ids[i]` for the `i`-th transaction and the operation as
arguments, in order of transaction and then of operation, through the first
invocation that throws, and on nothing else; the scan ends without an exception
exactly when the callback returns normally on every match, and then it has
invoked the callback exactly once on each match of the block. -/
theorem scan_delivers_matches (account_id : Option String) (cb : Callback)
    (blockHeight : ℕ) (block : Block) :
    (scanBlock account_id (some cb) blockHeight block).deliveries
      = (blockMatches account_id blockHeight block).takeWhile
          (fun d => cb d.blockHeight d.txid d.op)
        ++ ((blockMatches account_id blockHeight block).dropWhile
          (fun d => cb d.blockHeight d.txid d.op)).take 1 ∧
    ((scanBlock account_id (some cb) blockHeight block).threw = false
      ↔ ∀ d ∈ blockMatches account_id blockHeight block, cb d.blockHeight d.txid d.op = true) ∧
    ((∀ d ∈ blockMatches account_id blockHeight block, cb d.blockHeight d.txid d.op = true) →
      scanBlock account_id (some cb) blockHeight block
        = { deliveries := blockMatches account_id blockHeight block, threw := false }) := by
  have hs := scanBlock_through account_id cb blockHeight block
  have hall : (blockMatches account_id blockHeight block).all (returnsOn cb) = true
      ↔ ∀ d ∈ blockMatches account_id blockHeight block,
          cb d.blockHeight d.txid d.op = true := by
    rw [List.all_eq_true]
    rfl
  refine ⟨?_, ?_, ?_⟩
  · rw [hs]
    rfl
  · rw [hs, ← hall]
    simp
  · intro hret
    rw [hs, throughFirstThrow_all cb _ (hall.2 hret), hall.2 hret]
    rfl

/-- Witness for `scan_delivers_matches`: the example block watched for `alice`
(`1.2.100`): her transfer in the first transaction and her account update, with
two matching fields, in the second are delivered once each, in this order; the
operation between `bob` and `carol` is not. -/
theorem scan_delivers_matches_witness :
    blockMatches (some "1.2.100") 10 exampleBlock
      = [{ blockHeight := 10, txid := some "tx-a", op := exampleTransferOp },
         { blockHeight := 10, txid := some "tx-b", op := exampleUpdateOp }] ∧
    scanBlock (some "1.2.100") (some exampleCallback) 10 exampleBlock
      = { deliveries := [{ blockHeight := 10, txid := some "tx-a", op := exampleTransferOp },
                         { blockHeight := 10, txid := some "tx-b", op := exampleUpdateOp }],
          threw := false } :=
  ⟨by decide!,
   ((scan_delivers_matches (some "1.2.100") exampleCallback 10 exampleBlock).2.2
      (fun _ _ => rfl)).trans (by decide!)⟩

/-- **C17 (counterexample).**  The example block has two matches for `alice`.
With a callback that throws, one scan invokes the callback on the first match
only: the exception leaves both `forEach` loops, and the account update in the
second transaction is never delivered. -/
theorem scan_stops_at_throwing_callback :
    blockMatches (some "1.2.100") 10 exampleBlock
      = [{ blockHeight := 10, txid := some "tx-a", op := exampleTransferOp },
         { blockHeight := 10, txid := some "tx-b", op := exampleUpdateOp }] ∧
    scanBlock (some "1.2.100") (some throwingCallback) 10 exampleBlock
      = { deliveries := [{ blockHeight := 10, txid := some "tx-a", op := exampleTransferOp }],
          threw := true } := by
  decide!

/-! ## The heights of a run (C15, C16) -/

theorem detectStep_fields (account_id : Option String) (callback : Option Callback) (h : ℕ)
    (o : FetchOutcome) (l : Option ℕ) :
    (detectStep account_id callback h o l).blockHeight = h ∧
      (detectStep account_id callback h o l).outcome = o ∧
      (detectStep account_id callback h o l).latestBlock = l := by
  unfold detectStep
  cases o with
  | rejected => exact ⟨rfl, rfl, rfl⟩
  | absent => exact ⟨rfl, rfl, rfl⟩
  | present block =>
    simp only
    split_ifs <;> exact ⟨rfl, rfl, rfl⟩

/-- A round stays at its height or moves to the next one. -/
theorem detectStep_next (account_id : Option String) (callback : Option Callback) (h : ℕ)
    (o : FetchOutcome) (l : Option ℕ) :
    (detectStep account_id callback h o l).next = h ∨
      (detectStep account_id callback h o l).next = h + 1 := by
  unfold detectStep
  cases o with
  | rejected => exact Or.inl rfl
  | absent => exact Or.inl rfl
  | present block =>
    simp only
    split_ifs
    · exact Or.inl rfl
    · exact Or.inr rfl
    · exact Or.inl rfl

theorem scanBlock_some_returns (account_id : Option String) (cb : Callback)
    (hcb : ∀ h t op, cb h t op = true) (h : ℕ) (block : Block) :
    (scanBlock account_id (some cb) h block).threw = false := by
  unfold scanBlock
  exact blockFold_returns account_id cb hcb h block.transaction_ids _ _ rfl

/-- A scan does not throw when the callback always returns or is missing. -/
theorem scanBlock_returns (account_id : Option String) (callback : Option Callback)
    (hcb : ∀ cb, callback = some cb → ∀ h t op, cb h t op = true) (h : ℕ) (block : Block) :
    (scanBlock account_id callback h block).threw = false := by
  cases callback with
  | none => rw [scanBlock_none]
  | some cb => rw [scanBlock_some_returns account_id cb (hcb cb rfl) h block]

/-- The rule of the next height, for a callback that returns normally. -/
theorem detectStep_next_rule (account_id : Option String) (callback : Option Callback)
    (hcb : ∀ cb, callback = some cb → ∀ h t op, cb h t op = true) (h : ℕ)
    (o : FetchOutcome) (l : Option ℕ) :
    (detectStep account_id callback h o l).next
      = if o.isPresent && belowLatest h l then h + 1 else h := by
  unfold detectStep
  cases o with
  | rejected => rfl
  | absent => rfl
  | present block =>
    simp only [scanBlock_returns account_id callback hcb h block, FetchOutcome.isPresent,
      Bool.true_and, Bool.false_eq_true, if_false]
    split_ifs <;> rfl

theorem detectRun_heights_ge (account_id : Option String) (callback : Option Callback)
    (os : List (FetchOutcome × Option ℕ)) :
    ∀ h0 : ℕ, ∀ r ∈ detectRun account_id callback h0 os, h0 ≤ r.blockHeight := by
  induction os with
  | nil => intro h0 r hr; simp [detectRun] at hr
  | cons ol rest ih =>
    intro h0 r hr
    obtain ⟨o, l⟩ := ol
    simp only [detectRun, List.mem_cons] at hr
    rcases hr with e | hr
    · rw [e, (detectStep_fields account_id callback h0 o l).1]
    · have := ih _ r hr
      rcases detectStep_next account_id callback h0 o l with hn | hn <;> rw [hn] at this <;> omega

/-- In a run each round starts at the height the round before scheduled. -/
theorem detectRun_chain (account_id : Option String) (callback : Option Callback)
    (os : List (FetchOutcome × Option ℕ)) :
    ∀ h0 : ℕ, (detectRun account_id callback h0 os).Chain'
      (fun a b => b.blockHeight = a.next) := by
  induction os with
  | nil => intro h0; simp [detectRun]
  | cons ol rest ih =>
    intro h0
    obtain ⟨o, l⟩ := ol
    simp only [detectRun]
    cases rest with
    | nil => simp [detectRun]
    | cons ol2 rest2 =>
      obtain ⟨o2, l2⟩ := ol2
      have := ih (detectStep account_id callback h0 o l).next
      simp only [detectRun] at this ⊢
      refine List.Chain'.cons ?_ this
      exact (detectStep_fields account_id callback _ o2 l2).1

theorem detectRun_mem_step (account_id : Option String) (callback : Option Callback)
    (os : List (FetchOutcome × Option ℕ)) :
    ∀ h0 : ℕ, ∀ r ∈ detectRun account_id callback h0 os,
      r = detectStep account_id callback r.blockHeight r.outcome r.latestBlock := by
  induction os with
  | nil => intro h0 r hr; simp [detectRun] at hr
  | cons ol rest ih =>
    intro h0 r hr
    obtain ⟨o, l⟩ := ol
    simp only [detectRun, List.mem_cons] at hr
    rcases hr with e | hr
    · obtain ⟨f1, f2, f3⟩ := detectStep_fields account_id callback h0 o l
      rw [e, f1, f2, f3]
    · exact ih _ r hr
/-- What stands after a round in a run is the run from the height that round
scheduled. -/
theorem detectRun_split (account_id : Option String) (callback : Option Callback)
    (os : List (FetchOutcome × Option ℕ)) :
    ∀ (h0 : ℕ) (pre : List ScanStep) (s : ScanStep) (post : List ScanStep),
      detectRun account_id callback h0 os = pre ++ s :: post →
      ∃ os2, post = detectRun account_id callback s.next os2 := by
  induction os with
  | nil =>
    intro h0 pre s post h
    simp [detectRun] at h
  | cons ol rest ih =>
    intro h0 pre s post h
    obtain ⟨o, l⟩ := ol
    simp only [detectRun] at h
    cases pre with
    | nil =>
      simp only [List.nil_append, List.cons.injEq] at h
      exact ⟨rest, by rw [← h.1, h.2]⟩
    | cons p pre2 =>
      simp only [List.cons_append, List.cons.injEq] at h
      exact ih _ pre2 s post h.2

/-- A round that moves to the next height fetched a block, and delivered the
matches of that block when a callback was given. -/
theorem detectStep_advanced (account_id : Option String) (callback : Option Callback) (h : ℕ)
    (o : FetchOutcome) (l : Option ℕ)
    (hadv : (detectStep account_id callback h o l).next = h + 1) :
    ∃ block, o = .present block ∧
      (detectStep account_id callback h o l).deliveries
        = if callback.isSome then blockMatches account_id h block else [] := by
  unfold detectStep at hadv ⊢
  cases o with
  | rejected => simp at hadv
  | absent => simp at hadv
  | present block =>
    refine ⟨block, rfl, ?_⟩
    have hd : (scanBlock account_id callback h block).threw = false →
        (scanBlock account_id callback h block).deliveries
          = if callback.isSome then blockMatches account_id h block else [] := by
      intro ht
      cases callback with
      | none => rw [scanBlock_none]; rfl
      | some cb => rw [scanBlock_deliveries account_id cb h block ht]; rfl
    simp only at hadv ⊢
    cases ht : (scanBlock account_id callback h block).threw with
    | true =>
      rw [ht] at hadv
      simp at hadv
    | false =>
      rw [← hd ht]
      cases hb : belowLatest h l <;> simp

theorem flatMap_deliveries_nil (l : List ScanStep) (h : ∀ r ∈ l, r.deliveries = []) :
    l.flatMap ScanStep.deliveries = [] := by
  induction l with
  | nil => rfl
  | cons a t ih =>
    rw [List.flatMap_cons, h a (List.mem_cons_self a t),
      ih (fun r hr => h r (List.mem_cons_of_mem a hr))]
    rfl

/-- Whether a round moves on, in terms of its inputs alone. -/
theorem detectStep_advances_iff (account_id : Option String) (callback : Option Callback)
    (h : ℕ) (o : FetchOutcome) (l : Option ℕ) :
    (detectStep account_id callback h o l).next = h + 1 ↔
      ∃ block, o = .present block ∧ (∃ L, l = some L ∧ h < L) ∧
        ∀ cb, callback = some cb →
          ∀ d ∈ blockMatches account_id h block, cb d.blockHeight d.txid d.op = true := by
  have hbelow : belowLatest h l = true ↔ ∃ L, l = some L ∧ h < L := by
    cases l with
    | none => simp [belowLatest]
    | some L => simp [belowLatest]
  cases o with
  | rejected => simp [detectStep]
  | absent => simp [detectStep]
  | present block =>
    have hthrew : (scanBlock account_id callback h block).threw = false ↔
        ∀ cb, callback = some cb →
          ∀ d ∈ blockMatches account_id h block, cb d.blockHeight d.txid d.op = true := by
      cases callback with
      | none => simp [scanBlock_none]
      | some cb =>
        rw [scanBlock_through]
        simp [List.all_eq_true, returnsOn]
    unfold detectStep
    simp only
    constructor
    · intro hn
      refine ⟨block, rfl, ?_, ?_⟩
      · rw [← hbelow]
        by_contra hb
        split_ifs at hn <;> simp_all
      · rw [← hthrew]
        by_contra ht
        split_ifs at hn <;> simp_all
    · rintro ⟨b, hb, hl, hc⟩
      cases hb
      rw [if_neg (by rw [hthrew.2 hc]; decide), if_pos (hbelow.2 hl)]

theorem detectRun_inputs (account_id : Option String) (callback : Option Callback)
    (os : List (FetchOutcome × Option ℕ)) :
    ∀ h0 : ℕ, (detectRun account_id callback h0 os).map (fun r => (r.outcome, r.latestBlock))
      = os := by
  induction os with
  | nil => intro h0; rfl
  | cons ol rest ih =>
    intro h0
    obtain ⟨o, l⟩ := ol
    simp only [detectRun, List.map_cons]
    obtain ⟨_, f2, f3⟩ := detectStep_fields account_id callback h0 o l
    rw [f2, f3, ih]

/-- **C15 (amended).**  For every starting height, every sequence of fetch
outcomes and cached head heights and every callback: the height scanned after a
round at height `h` is `h + 1` exactly when block `h` was present, `h` is
strictly below the cached head, which must be known, and the callback, if one is
given, returned normally on every match of block `h`; it is `h` in every other
case (block absent, fetch error, callback threw, caught up, head not yet known).
The rounds of a run take the given outcomes and heads in order, the first round
is at the starting height and every round is at the height so determined by the
round before; consequently the scanned heights go up by 0 or 1 from round to
round and are non-decreasing over the whole run: no height is skipped or
returned to. -/
theorem detect_next_height (account_id : Option String) (callback : Option Callback)
    (h0 : ℕ) (os : List (FetchOutcome × Option ℕ)) :
    (∀ h o l, ((detectStep account_id callback h o l).next = h + 1 ↔
        ∃ block, o = .present block ∧ (∃ L, l = some L ∧ h < L) ∧
          ∀ cb, callback = some cb →
            ∀ d ∈ blockMatches account_id h block, cb d.blockHeight d.txid d.op = true) ∧
      ((detectStep account_id callback h o l).next = h ∨
        (detectStep account_id callback h o l).next = h + 1)) ∧
    (detectRun account_id callback h0 os).map (fun r => (r.outcome, r.latestBlock)) = os ∧
    (detectRun account_id callback h0 os).Chain'
      (fun a b =>
        (b.blockHeight = a.blockHeight + 1 ↔
          ∃ block, a.outcome = .present block ∧
            (∃ L, a.latestBlock = some L ∧ a.blockHeight < L) ∧
            ∀ cb, callback = some cb →
              ∀ d ∈ blockMatches account_id a.blockHeight block,
                cb d.blockHeight d.txid d.op = true) ∧
        (b.blockHeight = a.blockHeight ∨ b.blockHeight = a.blockHeight + 1)) ∧
    ((detectRun account_id callback h0 os).map ScanStep.blockHeight).head?
      = (if os = [] then none else some h0) ∧
    ((detectRun account_id callback h0 os).map ScanStep.blockHeight).length = os.length ∧
    ((detectRun account_id callback h0 os).map ScanStep.blockHeight).Chain'
      (fun a b => b = a ∨ b = a + 1) ∧
    ((detectRun account_id callback h0 os).map ScanStep.blockHeight).Pairwise (· ≤ ·) := by
  have hchain := detectRun_chain account_id callback os h0
  have hmem := detectRun_mem_step account_id callback os h0
  have hnext : ∀ a ∈ detectRun account_id callback h0 os,
      a.next = (detectStep account_id callback a.blockHeight a.outcome a.latestBlock).next :=
    fun a ha => congrArg ScanStep.next (hmem a ha)
  have hstep : ((detectRun account_id callback h0 os).map ScanStep.blockHeight).Chain'
      (fun a b => b = a ∨ b = a + 1) := by
    rw [List.chain'_map]
    rw [List.Chain'.iff_mem] at hchain
    refine hchain.imp ?_
    rintro a b ⟨ha, _, hab⟩
    rw [hab, hnext a ha]
    exact detectStep_next account_id callback a.blockHeight a.outcome a.latestBlock
  refine ⟨fun h o l => ⟨detectStep_advances_iff account_id callback h o l,
    detectStep_next account_id callback h o l⟩, detectRun_inputs account_id callback os h0,
    ?_, ?_, ?_, hstep, ?_⟩
  · rw [List.Chain'.iff_mem] at hchain
    refine hchain.imp ?_
    rintro a b ⟨ha, _, hab⟩
    rw [hab, hnext a ha]
    exact ⟨detectStep_advances_iff account_id callback a.blockHeight a.outcome a.latestBlock,
      detectStep_next account_id callback a.blockHeight a.outcome a.latestBlock⟩
  · cases os with
    | nil => rfl
    | cons ol rest =>
      obtain ⟨o, l⟩ := ol
      simp only [detectRun, List.map_cons, List.head?_cons, reduceCtorEq, if_false]
      rw [(detectStep_fields account_id callback h0 o l).1]
  · rw [List.length_map]
    clear hchain hmem hstep hnext
    induction os generalizing h0 with
    | nil => rfl
    | cons ol rest ih =>
      obtain ⟨o, l⟩ := ol
      simp only [detectRun, List.length_cons]
      rw [ih]
  · rw [← List.chain'_iff_pairwise]
    refine hstep.imp ?_
    intro a b hab
    rcases hab with e | e <;> omega

/-- Witness for `detect_next_height`: blocks 10 to 13 with block 11 absent for a
moment are scanned 10, 11, 11, 12, 13; and a run that starts at height 10 before
the head is known, then sees the head at 10, at 11 and at 20, with a failed
fetch on the way, is scanned 10, 10, 10, 10, 11, 11, 12: it stays at 10 while
the head is unknown or not above 10, and at 11 when the fetch fails. -/
theorem detect_next_height_witness :
    (detectRun (some "1.2.100") (some exampleCallback) 10
        [(.present exampleBlock, some 20), (.absent, some 20), (.present emptyBlock, some 20),
          (.present emptyBlock, some 20), (.present emptyBlock, some 20)]).map
      ScanStep.blockHeight = [10, 11, 11, 12, 13] ∧
    (detectRun (some "1.2.100") (some exampleCallback) 10
        [(.present exampleBlock, none), (.present exampleBlock, some 9),
          (.present exampleBlock, some 10), (.present exampleBlock, some 11),
          (.rejected, some 20), (.present emptyBlock, some 20),
          (.present emptyBlock, some 20)]).map
      ScanStep.blockHeight = [10, 10, 10, 10, 11, 11, 12] ∧
    ((detectRun (some "1.2.100") (some exampleCallback) 10
        [(.present exampleBlock, none), (.present exampleBlock, some 9),
          (.present exampleBlock, some 10), (.present exampleBlock, some 11),
          (.rejected, some 20), (.present emptyBlock, some 20),
          (.present emptyBlock, some 20)]).map
      ScanStep.blockHeight).Pairwise (· ≤ ·) ∧
    (detectStep (some "1.2.100") (some exampleCallback) 10 (.present exampleBlock)
      (some 11)).next = 11 :=
  ⟨by decide!, by decide!,
    (detect_next_height (some "1.2.100") (some exampleCallback) 10
      [(.present exampleBlock, none), (.present exampleBlock, some 9),
        (.present exampleBlock, some 10), (.present exampleBlock, some 11),
        (.rejected, some 20), (.present emptyBlock, some 20),
        (.present emptyBlock, some 20)]).2.2.2.2.2.2,
    ((detect_next_height (some "1.2.100") (some exampleCallback) 10 []).1 10
      (.present exampleBlock) (some 11)).1.2
      ⟨exampleBlock, rfl, ⟨11, rfl, by decide⟩, fun _ e _ _ => Option.some.inj e ▸ rfl⟩⟩

/-- **C15 (counterexample).**  With a callback that throws, block 10 is present
and 10 is strictly below the cached head 20, and yet the height scanned next is
10 again, after 1000 ms: the exception lands in the `catch` of the fetch. -/
theorem detect_stays_when_callback_throws :
    (detectRun (some "1.2.100") (some throwingCallback) 10
        [(.present exampleBlock, some 20), (.present exampleBlock, some 20)]).map
      (fun r => (r.blockHeight, r.outcome.isPresent, r.latestBlock, r.next, r.delay))
    = [(10, true, some 20, 10, .timeout 1000), (10, true, some 20, 10, .timeout 1000)] := by
  decide!

/-- **C16, as the code has it.**  In a run, for every sequence of fetch outcomes
and cached head heights and any callback: a round that moved on from its height
(the block was present, the height was strictly below the cached head and the
callback returned) is the last round at that height, every later round being at
a greater height; it delivered the matches of the block it fetched, each once
and in order, when a callback was given; and when the earlier rounds at that
height delivered nothing, all that the run delivers for that height is what this
one round delivered.  A block fetched while the height is not below the cached
head is scanned again after 1000 ms and its matches are delivered again. -/
theorem detect_delivers_once_after_advance (account_id : Option String)
    (callback : Option Callback) (h0 : ℕ) (os : List (FetchOutcome × Option ℕ))
    (pre : List ScanStep) (s : ScanStep) (post : List ScanStep)
    (hrun : detectRun account_id callback h0 os = pre ++ s :: post)
    (hadv : s.next = s.blockHeight + 1)
    (hpre : ∀ r ∈ pre, r.blockHeight = s.blockHeight → r.deliveries = []) :
    (∀ r ∈ post, s.blockHeight < r.blockHeight) ∧
    (∃ block, s.outcome = .present block ∧
      s.deliveries
        = if callback.isSome then blockMatches account_id s.blockHeight block else []) ∧
    ((detectRun account_id callback h0 os).filter
        (fun r => decide (r.blockHeight = s.blockHeight))).flatMap ScanStep.deliveries
      = s.deliveries := by
  have hs : s = detectStep account_id callback s.blockHeight s.outcome s.latestBlock :=
    detectRun_mem_step account_id callback os h0 s (by rw [hrun]; simp)
  have hpost : ∀ r ∈ post, s.blockHeight < r.blockHeight := by
    intro r hr
    obtain ⟨os2, e⟩ := detectRun_split account_id callback os h0 pre s post hrun
    rw [e] at hr
    have := detectRun_heights_ge account_id callback os2 s.next r hr
    omega
  refine ⟨hpost, ?_, ?_⟩
  · rw [hs] at hadv
    rw [(detectStep_fields account_id callback s.blockHeight s.outcome s.latestBlock).1] at hadv
    obtain ⟨block, e1, e2⟩ := detectStep_advanced account_id callback s.blockHeight s.outcome
      s.latestBlock hadv
    rw [← hs] at e2
    exact ⟨block, e1, e2⟩
  · rw [hrun, List.filter_append, List.flatMap_append, List.filter_cons]
    have h1 : (List.filter (fun r => decide (r.blockHeight = s.blockHeight)) pre).flatMap
        ScanStep.deliveries = [] := by
      apply flatMap_deliveries_nil
      intro r hr
      rw [List.mem_filter] at hr
      exact hpre r hr.1 (of_decide_eq_true hr.2)
    have h2 : List.filter (fun r => decide (r.blockHeight = s.blockHeight)) post = [] := by
      rw [List.filter_eq_nil_iff]
      intro r hr
      have := hpost r hr
      simp only [decide_eq_true_eq]
      omega
    rw [h1, h2]
    simp

theorem detect_delivers_once_after_advance_witness :
    (((detectRun (some "1.2.100") (some exampleCallback) 10
          [(.absent, some 20), (.present exampleBlock, some 20),
            (.present emptyBlock, some 20)]).filter
        (fun r => decide (r.blockHeight = 10))).flatMap ScanStep.deliveries
      = [⟨10, some "tx-a", exampleTransferOp⟩, ⟨10, some "tx-b", exampleUpdateOp⟩]) :=
  (detect_delivers_once_after_advance (some "1.2.100") (some exampleCallback) 10
    [(.absent, some 20), (.present exampleBlock, some 20), (.present emptyBlock, some 20)]
    [detectStep (some "1.2.100") (some exampleCallback) 10 .absent (some 20)]
    (detectStep (some "1.2.100") (some exampleCallback) 10 (.present exampleBlock) (some 20))
    [detectStep (some "1.2.100") (some exampleCallback) 11 (.present emptyBlock) (some 20)]
    (by decide!) (by decide!) (by decide!)).2.2.trans (by decide!)

/-- **C16, counterexample.**  A run started at height 10 while the cached head is
10: block 10 is fetched twice, 1000 ms apart, and both rounds invoke the callback
on the same two matches, so each `(height, transaction id, operation)` is
delivered twice. -/
theorem detect_redelivers_when_caught_up :
    (detectRun (some "1.2.100") (some exampleCallback) 10
        [(.present exampleBlock, some 10), (.present exampleBlock, some 10)]).map
      (fun r => (r.blockHeight, r.deliveries, r.delay))
    = [(10, [⟨10, some "tx-a", exampleTransferOp⟩, ⟨10, some "tx-b", exampleUpdateOp⟩],
          .timeout 1000),
       (10, [⟨10, some "tx-a", exampleTransferOp⟩, ⟨10, some "tx-b", exampleUpdateOp⟩],
          .timeout 1000)] := by
  decide!

end GXClient
